import Mathlib

/-
  Verification of the mail parsing and composing library (src/mail.go).

  Go strings are arbitrary byte sequences; we model them as lists of
  natural numbers below 256 (GoStr).  The UTF-8 layer below reproduces the
  semantics of the Go runtime and the unicode/utf8 package that the source
  relies on: ranging over a string yields runes, with every byte that does
  not begin a well-formed UTF-8 sequence yielding the replacement rune
  U+FFFD of width one (Go utf8.DecodeRune), and writing a rune emits its
  UTF-8 encoding (Go utf8.EncodeRune, bytes.Buffer.WriteRune).
-/

set_option maxRecDepth 8000

namespace Mail

/-- A Go string: a sequence of bytes (each below 256). -/
abbrev GoStr := List Nat

/-- Go utf8.ValidRune: a valid Unicode scalar value
    (below the surrogate range, or between it and 0x10FFFF). -/
def validRune (r : Nat) : Bool :=
  decide (r < 0xD800 ∨ (0xE000 ≤ r ∧ r ≤ 0x10FFFF))

/-- Go utf8.EncodeRune (also bytes.Buffer.WriteRune): UTF-8 encoding of a
    rune; runes that are not valid scalar values encode as U+FFFD. -/
def encodeRune (r : Nat) : GoStr :=
  if r < 0x80 then [r]
  else if r < 0x800 then [0xC0 + r / 64, 0x80 + r % 64]
  else if 0xD800 ≤ r ∧ r < 0xE000 then [0xEF, 0xBF, 0xBD]
  else if r < 0x10000 then [0xE0 + r / 4096, 0x80 + (r / 64) % 64, 0x80 + r % 64]
  else if r ≤ 0x10FFFF then
    [0xF0 + r / 262144, 0x80 + (r / 4096) % 64, 0x80 + (r / 64) % 64, 0x80 + r % 64]
  else [0xEF, 0xBF, 0xBD]

/-- A UTF-8 continuation byte. -/
def isCont (b : Nat) : Bool := decide (0x80 ≤ b ∧ b ≤ 0xBF)

/-- Lower bound accepted for the first continuation byte after leading byte
    b0 (Go utf8 acceptRanges: excludes overlong forms and surrogates). -/
def acceptLo (b0 : Nat) : Nat :=
  if b0 = 0xE0 then 0xA0 else if b0 = 0xF0 then 0x90 else 0x80

/-- Upper bound accepted for the first continuation byte after leading byte
    b0 (Go utf8 acceptRanges). -/
def acceptHi (b0 : Nat) : Nat :=
  if b0 = 0xED then 0x9F else if b0 = 0xF4 then 0x8F else 0xBF

/-- Leading byte of a two-byte sequence. -/
def is2b (b0 : Nat) : Prop := 0xC2 ≤ b0 ∧ b0 ≤ 0xDF

/-- Leading byte of a three-byte sequence. -/
def is3b (b0 : Nat) : Prop := 0xE0 ≤ b0 ∧ b0 ≤ 0xEF

/-- Leading byte of a four-byte sequence. -/
def is4b (b0 : Nat) : Prop := 0xF0 ≤ b0 ∧ b0 ≤ 0xF4

instance is2bDec (b0 : Nat) : Decidable (is2b b0) := by unfold is2b; infer_instance

instance is3bDec (b0 : Nat) : Decidable (is3b b0) := by unfold is3b; infer_instance

instance is4bDec (b0 : Nat) : Decidable (is4b b0) := by unfold is4b; infer_instance

/-- Rune value of a two-byte sequence. -/
def rune2 (b0 b1 : Nat) : Nat := (b0 - 0xC0) * 64 + (b1 - 0x80)

/-- Rune value of a three-byte sequence. -/
def rune3 (b0 b1 b2 : Nat) : Nat :=
  (b0 - 0xE0) * 4096 + (b1 - 0x80) * 64 + (b2 - 0x80)

/-- Rune value of a four-byte sequence. -/
def rune4 (b0 b1 b2 b3 : Nat) : Nat :=
  (b0 - 0xF0) * 262144 + (b1 - 0x80) * 4096 + (b2 - 0x80) * 64 + (b3 - 0x80)

/-- State of the UTF-8 validation automaton: none is the dead state, some
    exp is alive with exp the byte ranges still expected to finish the
    current sequence (empty between sequences). -/
abbrev VState := Option (List (Nat × Nat))

/-- One byte of UTF-8 validation (transition of Go utf8.ValidString). -/
def vStep : VState → Nat → VState
  | none, _ => none
  | some [], b =>
    if b < 0x80 then some []
    else if is2b b then some [(0x80, 0xBF)]
    else if is3b b then some [(acceptLo b, acceptHi b), (0x80, 0xBF)]
    else if is4b b then some [(acceptLo b, acceptHi b), (0x80, 0xBF), (0x80, 0xBF)]
    else none
  | some ((lo, hi) :: exp), b => if lo ≤ b ∧ b ≤ hi then some exp else none

/-- Go utf8.ValidString: the byte sequence is well-formed UTF-8. -/
def utf8Valid (s : GoStr) : Bool := decide (s.foldl vStep (some []) = some [])

/-- The rune sequence obtained by ranging over a Go string: each
    well-formed UTF-8 sequence yields its rune, every other byte yields
    U+FFFD (Go for-range / utf8.DecodeRune semantics). -/
def goRunes : GoStr → List Nat
  | [] => []
  | b0 :: b1 :: b2 :: b3 :: rest =>
    if b0 < 0x80 then b0 :: goRunes (b1 :: b2 :: b3 :: rest)
    else if is2b b0 then
      if isCont b1 then rune2 b0 b1 :: goRunes (b2 :: b3 :: rest)
      else 0xFFFD :: goRunes (b1 :: b2 :: b3 :: rest)
    else if is3b b0 then
      if acceptLo b0 ≤ b1 ∧ b1 ≤ acceptHi b0 then
        if isCont b2 then rune3 b0 b1 b2 :: goRunes (b3 :: rest)
        else 0xFFFD :: goRunes (b1 :: b2 :: b3 :: rest)
      else 0xFFFD :: goRunes (b1 :: b2 :: b3 :: rest)
    else if is4b b0 then
      if acceptLo b0 ≤ b1 ∧ b1 ≤ acceptHi b0 then
        if isCont b2 then
          if isCont b3 then rune4 b0 b1 b2 b3 :: goRunes rest
          else 0xFFFD :: goRunes (b1 :: b2 :: b3 :: rest)
        else 0xFFFD :: goRunes (b1 :: b2 :: b3 :: rest)
      else 0xFFFD :: goRunes (b1 :: b2 :: b3 :: rest)
    else 0xFFFD :: goRunes (b1 :: b2 :: b3 :: rest)
  | [b0, b1, b2] =>
    if b0 < 0x80 then b0 :: goRunes [b1, b2]
    else if is2b b0 then
      if isCont b1 then rune2 b0 b1 :: goRunes [b2]
      else 0xFFFD :: goRunes [b1, b2]
    else if is3b b0 then
      if acceptLo b0 ≤ b1 ∧ b1 ≤ acceptHi b0 then
        if isCont b2 then [rune3 b0 b1 b2]
        else 0xFFFD :: goRunes [b1, b2]
      else 0xFFFD :: goRunes [b1, b2]
    else 0xFFFD :: goRunes [b1, b2]
  | [b0, b1] =>
    if b0 < 0x80 then b0 :: goRunes [b1]
    else if is2b b0 then
      if isCont b1 then [rune2 b0 b1]
      else 0xFFFD :: goRunes [b1]
    else 0xFFFD :: goRunes [b1]
  | [b0] => if b0 < 0x80 then [b0] else [0xFFFD]

/-- Embed a Lean string as a Go string (its UTF-8 bytes). -/
def gs (s : String) : GoStr := (s.data.map (fun c => encodeRune c.toNat)).flatten

/-- Transition from the dead state. -/
theorem vStep_none (b : Nat) : vStep none b = none := rfl

/-- The dead state of the validation automaton absorbs. -/
theorem vFold_none (s : GoStr) : s.foldl vStep none = none := by
  induction s with
  | nil => rfl
  | cons b rest ih => simpa [vStep] using ih

/-- Validity of a concatenation, from validity of the pieces. -/
theorem utf8Valid_append {a b : GoStr} (ha : utf8Valid a = true)
    (hb : utf8Valid b = true) : utf8Valid (a ++ b) = true := by
  simp only [utf8Valid, decide_eq_true_eq] at *
  rw [List.foldl_append, ha, hb]

/-- Every rune produced by ranging over a Go string is a valid scalar
    value (invalid bytes already surface as U+FFFD). -/
theorem validRune_ascii {b0 : Nat} (h : b0 < 0x80) : validRune b0 = true := by
  simp only [validRune, decide_eq_true_eq]; omega

theorem validRune_FFFD : validRune 0xFFFD = true := by decide

theorem validRune_rune2 {b0 b1 : Nat} (h2 : is2b b0) (hc : isCont b1 = true) :
    validRune (rune2 b0 b1) = true := by
  rcases h2 with ⟨hl, hh⟩
  simp only [isCont, decide_eq_true_eq] at hc
  simp only [validRune, rune2, decide_eq_true_eq]
  omega

theorem validRune_rune3 {b0 b1 b2 : Nat} (h3 : is3b b0)
    (hr1 : acceptLo b0 ≤ b1 ∧ b1 ≤ acceptHi b0) (hc : isCont b2 = true) :
    validRune (rune3 b0 b1 b2) = true := by
  rcases h3 with ⟨hl, hh⟩
  rcases hr1 with ⟨hl1, hh1⟩
  simp only [isCont, decide_eq_true_eq] at hc
  simp only [acceptLo, acceptHi] at hl1 hh1
  simp only [validRune, rune3, decide_eq_true_eq]
  split_ifs at hl1 hh1 <;> omega

theorem validRune_rune4 {b0 b1 b2 b3 : Nat} (h4 : is4b b0)
    (hr1 : acceptLo b0 ≤ b1 ∧ b1 ≤ acceptHi b0) (hc2 : isCont b2 = true)
    (hc3 : isCont b3 = true) : validRune (rune4 b0 b1 b2 b3) = true := by
  rcases h4 with ⟨hl, hh⟩
  rcases hr1 with ⟨hl1, hh1⟩
  simp only [isCont, decide_eq_true_eq] at hc2 hc3
  simp only [acceptLo, acceptHi] at hl1 hh1
  simp only [validRune, rune4, decide_eq_true_eq]
  split_ifs at hl1 hh1 <;> omega

set_option maxHeartbeats 2000000 in
/-- Every rune produced by ranging over a Go string is a valid scalar
    value (invalid bytes already surface as U+FFFD). -/
theorem goRunes_valid {s : GoStr} {r : Nat} (hr : r ∈ goRunes s) :
    validRune r = true := by
  induction s using goRunes.induct <;>
    rw [goRunes] at hr <;>
    try split_ifs at hr
  all_goals
    first
    | exact absurd hr (List.not_mem_nil r)
    | (rcases List.mem_cons.mp hr with h1 | h1
       · subst h1
         simp only [validRune, rune2, rune3, rune4, decide_eq_true_eq]
         try simp only [is2b, is3b, is4b, isCont, acceptLo, acceptHi,
           decide_eq_true_eq] at *
         try split_ifs at *
         all_goals omega
       · first
         | exact absurd h1 (List.not_mem_nil r)
         | exact ‹r ∈ goRunes _ → validRune r = true› h1)

/-- Encoding a two-byte rune recovers its bytes. -/
theorem encodeRune_rune2 {b0 b1 : Nat} (h2 : is2b b0) (hc : isCont b1 = true) :
    encodeRune (rune2 b0 b1) = [b0, b1] := by
  rcases h2 with ⟨hl, hh⟩
  simp only [isCont, decide_eq_true_eq] at hc
  simp only [encodeRune, rune2]
  split_ifs <;> first | omega | (simp only [List.cons.injEq, and_true]; omega)

/-- Encoding a three-byte rune recovers its bytes. -/
theorem encodeRune_rune3 {b0 b1 b2 : Nat} (h3 : is3b b0)
    (hr1 : acceptLo b0 ≤ b1 ∧ b1 ≤ acceptHi b0) (hc : isCont b2 = true) :
    encodeRune (rune3 b0 b1 b2) = [b0, b1, b2] := by
  rcases h3 with ⟨hl, hh⟩
  rcases hr1 with ⟨hl1, hh1⟩
  simp only [isCont, decide_eq_true_eq] at hc
  simp only [acceptLo, acceptHi] at hl1 hh1
  split_ifs at hl1 hh1
  all_goals
    simp only [encodeRune, rune3]
    split_ifs <;> first | omega | (simp only [List.cons.injEq, and_true]; constructor <;> omega)

/-- Encoding a four-byte rune recovers its bytes. -/
theorem encodeRune_rune4 {b0 b1 b2 b3 : Nat} (h4 : is4b b0)
    (hr1 : acceptLo b0 ≤ b1 ∧ b1 ≤ acceptHi b0) (hc2 : isCont b2 = true)
    (hc3 : isCont b3 = true) :
    encodeRune (rune4 b0 b1 b2 b3) = [b0, b1, b2, b3] := by
  rcases h4 with ⟨hl, hh⟩
  rcases hr1 with ⟨hl1, hh1⟩
  simp only [isCont, decide_eq_true_eq] at hc2 hc3
  simp only [acceptLo, acceptHi] at hl1 hh1
  split_ifs at hl1 hh1
  all_goals
    simp only [encodeRune, rune4]
    split_ifs <;> first | omega | (simp only [List.cons.injEq, and_true]; constructor <;> omega)

/-- Transition from the between-sequences state. -/
theorem vStep_start (b : Nat) :
    vStep (some []) b =
      if b < 0x80 then some []
      else if is2b b then some [(0x80, 0xBF)]
      else if is3b b then some [(acceptLo b, acceptHi b), (0x80, 0xBF)]
      else if is4b b then some [(acceptLo b, acceptHi b), (0x80, 0xBF), (0x80, 0xBF)]
      else none := rfl

/-- Transition from an expecting state. -/
theorem vStep_exp (lo hi : Nat) (exp : List (Nat × Nat)) (b : Nat) :
    vStep (some ((lo, hi) :: exp)) b =
      if lo ≤ b ∧ b ≤ hi then some exp else none := rfl

/-- The encoding of a valid rune is well-formed UTF-8. -/
theorem utf8Valid_encodeRune {r : Nat} (h : validRune r = true) :
    utf8Valid (encodeRune r) = true := by
  simp only [validRune, decide_eq_true_eq] at h
  simp only [utf8Valid, encodeRune, decide_eq_true_eq]
  split_ifs with h1 h2 h3 h4 h5
  · rw [List.foldl_cons, List.foldl_nil, vStep_start, if_pos h1]
  · rw [List.foldl_cons, vStep_start, if_neg (by omega),
      if_pos (show is2b (0xC0 + r / 64) by constructor <;> omega),
      List.foldl_cons, List.foldl_nil, vStep_exp,
      if_pos (by constructor <;> omega)]
  · omega
  · rw [List.foldl_cons, vStep_start, if_neg (by omega),
      if_neg (show ¬is2b (0xE0 + r / 4096) by simp only [is2b]; omega),
      if_pos (show is3b (0xE0 + r / 4096) by constructor <;> omega)]
    rw [List.foldl_cons, vStep_exp]
    rw [if_pos (show acceptLo (0xE0 + r / 4096) ≤ 0x80 + (r / 64) % 64 ∧
        0x80 + (r / 64) % 64 ≤ acceptHi (0xE0 + r / 4096) by
      simp only [acceptLo, acceptHi]
      split_ifs <;> constructor <;> omega)]
    rw [List.foldl_cons, List.foldl_nil, vStep_exp, if_pos (by constructor <;> omega)]
  · rw [List.foldl_cons, vStep_start, if_neg (by omega),
      if_neg (show ¬is2b (0xF0 + r / 262144) by simp only [is2b]; omega),
      if_neg (show ¬is3b (0xF0 + r / 262144) by simp only [is3b]; omega),
      if_pos (show is4b (0xF0 + r / 262144) by constructor <;> omega)]
    rw [List.foldl_cons, vStep_exp]
    rw [if_pos (show acceptLo (0xF0 + r / 262144) ≤ 0x80 + (r / 4096) % 64 ∧
        0x80 + (r / 4096) % 64 ≤ acceptHi (0xF0 + r / 262144) by
      simp only [acceptLo, acceptHi]
      split_ifs <;> constructor <;> omega)]
    rw [List.foldl_cons, vStep_exp, if_pos (by constructor <;> omega)]
    rw [List.foldl_cons, List.foldl_nil, vStep_exp, if_pos (by constructor <;> omega)]
  · omega

/-- A concatenation of encodings of valid runes is well-formed UTF-8. -/
theorem utf8Valid_flatten_encode {rs : List Nat}
    (h : ∀ r ∈ rs, validRune r = true) :
    utf8Valid ((rs.map encodeRune).flatten) = true := by
  induction rs with
  | nil => decide
  | cons r rest ih =>
    simp only [List.map_cons, List.flatten_cons]
    exact utf8Valid_append (utf8Valid_encodeRune (h r (List.mem_cons_self r rest)))
      (ih fun x hx => h x (List.mem_cons_of_mem r hx))

/-- Go source stripNonUTF8 (src/mail.go): range over the runes of the
    string, writing every rune that is a valid scalar value to the output
    buffer (ranging yields U+FFFD for each byte of invalid encoding, so
    nothing is ever dropped; invalid bytes surface as U+FFFD). -/
def stripNonUTF8 (str : GoStr) : GoStr :=
  (goRunes str).foldl (fun buf r => if validRune r then buf ++ encodeRune r else buf) []

theorem stripNonUTF8_eq_flatten_aux (rs : List Nat) (acc : GoStr) :
    rs.foldl (fun buf r => if validRune r then buf ++ encodeRune r else buf) acc =
      acc ++ ((rs.filter validRune).map encodeRune).flatten := by
  induction rs generalizing acc with
  | nil => simp
  | cons r rest ih =>
    simp only [List.foldl_cons, List.filter_cons]
    by_cases h : validRune r = true
    · rw [if_pos h, ih, h]
      simp
    · rw [if_neg h, ih]
      simp only [Bool.not_eq_true] at h
      rw [h]
      simp

/-- stripNonUTF8 as a filter-and-reencode of the rune sequence. -/
theorem stripNonUTF8_eq (str : GoStr) :
    stripNonUTF8 str =
      (((goRunes str).filter validRune).map encodeRune).flatten := by
  rw [stripNonUTF8, stripNonUTF8_eq_flatten_aux]
  rfl

/-- The ValidRune filter inside stripNonUTF8 never drops anything: every
    rune obtained by ranging is already a valid scalar value. -/
theorem stripNonUTF8_filter_id (str : GoStr) :
    (goRunes str).filter validRune = goRunes str :=
  List.filter_eq_self.mpr fun _ hr => goRunes_valid hr

/-- The result of stripNonUTF8 is always well-formed UTF-8. -/
theorem stripNonUTF8_valid (str : GoStr) :
    utf8Valid (stripNonUTF8 str) = true := by
  rw [stripNonUTF8_eq, stripNonUTF8_filter_id]
  exact utf8Valid_flatten_encode fun r hr => goRunes_valid hr

/-- Unfolding validity across an ASCII byte. -/
theorem utf8Valid_cons_ascii {b0 : Nat} {l : GoStr} (h : b0 < 0x80) :
    utf8Valid (b0 :: l) = utf8Valid l := by
  simp only [utf8Valid, List.foldl_cons, vStep_start, if_pos h]

/-- Unfolding validity across a two-byte leading byte. -/
theorem utf8Valid_cons2 {b0 b1 : Nat} {l : GoStr} (h1 : ¬b0 < 0x80)
    (h2 : is2b b0) :
    utf8Valid (b0 :: b1 :: l) = (isCont b1 && utf8Valid l) := by
  simp only [utf8Valid, List.foldl_cons, vStep_start, if_neg h1, if_pos h2, vStep_exp]
  by_cases hc : 0x80 ≤ b1 ∧ b1 ≤ 0xBF
  · rw [if_pos hc]
    simp [isCont, hc]
  · rw [if_neg hc]
    simp [isCont, hc, vFold_none]

/-- Unfolding validity across a three-byte leading byte. -/
theorem utf8Valid_cons3 {b0 b1 b2 : Nat} {l : GoStr} (h1 : ¬b0 < 0x80)
    (h2 : ¬is2b b0) (h3 : is3b b0) :
    utf8Valid (b0 :: b1 :: b2 :: l) =
      (decide (acceptLo b0 ≤ b1 ∧ b1 ≤ acceptHi b0) &&
        (isCont b2 && utf8Valid l)) := by
  simp only [utf8Valid, List.foldl_cons, vStep_start, if_neg h1, if_neg h2, if_pos h3,
    vStep_exp]
  by_cases hb1 : acceptLo b0 ≤ b1 ∧ b1 ≤ acceptHi b0
  · rw [if_pos hb1, vStep_exp]
    by_cases hb2 : 0x80 ≤ b2 ∧ b2 ≤ 0xBF
    · rw [if_pos hb2]
      simp [isCont, hb1, hb2]
    · rw [if_neg hb2]
      simp [isCont, hb1, hb2, vStep_none, vFold_none]
  · rw [if_neg hb1]
    simp [hb1, vStep_none, vFold_none]

/-- Unfolding validity across a four-byte leading byte. -/
theorem utf8Valid_cons4 {b0 b1 b2 b3 : Nat} {l : GoStr} (h1 : ¬b0 < 0x80)
    (h2 : ¬is2b b0) (h3 : ¬is3b b0) (h4 : is4b b0) :
    utf8Valid (b0 :: b1 :: b2 :: b3 :: l) =
      (decide (acceptLo b0 ≤ b1 ∧ b1 ≤ acceptHi b0) &&
        (isCont b2 && (isCont b3 && utf8Valid l))) := by
  simp only [utf8Valid, List.foldl_cons, vStep_start, if_neg h1, if_neg h2, if_neg h3,
    if_pos h4, vStep_exp]
  by_cases hb1 : acceptLo b0 ≤ b1 ∧ b1 ≤ acceptHi b0
  · rw [if_pos hb1, vStep_exp]
    by_cases hb2 : 0x80 ≤ b2 ∧ b2 ≤ 0xBF
    · rw [if_pos hb2, vStep_exp]
      by_cases hb3 : 0x80 ≤ b3 ∧ b3 ≤ 0xBF
      · rw [if_pos hb3]
        simp [isCont, hb1, hb2, hb3]
      · rw [if_neg hb3]
        simp [isCont, hb1, hb2, hb3, vFold_none]
    · rw [if_neg hb2]
      simp [isCont, hb1, hb2, vStep_none, vFold_none]
  · rw [if_neg hb1]
    simp [hb1, vStep_none, vFold_none]

/-- A byte that leads no sequence kills validity. -/
theorem utf8Valid_cons_none {b0 : Nat} {l : GoStr} (h1 : ¬b0 < 0x80)
    (h2 : ¬is2b b0) (h3 : ¬is3b b0) (h4 : ¬is4b b0) :
    utf8Valid (b0 :: l) = false := by
  simp only [utf8Valid, List.foldl_cons, vStep_start, if_neg h1, if_neg h2, if_neg h3,
    if_neg h4, vFold_none]
  simp

/-- A single trailing non-ASCII byte is never valid. -/
theorem utf8Valid_single {b0 : Nat} (h1 : ¬b0 < 0x80) :
    utf8Valid [b0] = false := by
  simp only [utf8Valid, List.foldl_cons, List.foldl_nil, vStep_start, if_neg h1]
  split_ifs <;> simp

/-- Two trailing bytes led by a three-or-more-byte leader are never valid. -/
theorem utf8Valid_two_not2b {b0 b1 : Nat} (h1 : ¬b0 < 0x80) (h2 : ¬is2b b0) :
    utf8Valid [b0, b1] = false := by
  simp only [utf8Valid, List.foldl_cons, List.foldl_nil, vStep_start, if_neg h1,
    if_neg h2]
  split_ifs <;> first
    | (rw [vStep_exp]; split_ifs <;> simp)
    | simp [vStep]

/-- Three trailing bytes led by a four-byte leader are never valid. -/
theorem utf8Valid_three_not23 {b0 b1 b2 : Nat} (h1 : ¬b0 < 0x80) (h2 : ¬is2b b0)
    (h3 : ¬is3b b0) : utf8Valid [b0, b1, b2] = false := by
  simp only [utf8Valid, List.foldl_cons, List.foldl_nil, vStep_start, if_neg h1,
    if_neg h2, if_neg h3]
  split_ifs <;> first
    | (rw [vStep_exp]
       split_ifs <;> first
         | (rw [vStep_exp]; split_ifs <;> simp)
         | simp [vStep])
    | simp [vStep]

/-- Encoding of an ASCII byte. -/
theorem encodeRune_ascii {b0 : Nat} (h : b0 < 0x80) : encodeRune b0 = [b0] := by
  rw [encodeRune, if_pos h]

set_option maxHeartbeats 1000000 in
/-- Re-encoding the rune sequence of a well-formed UTF-8 string
    reconstructs the string exactly. -/
theorem utf8Valid_recon : ∀ {s : GoStr}, utf8Valid s = true →
    ((goRunes s).map encodeRune).flatten = s := by
  intro s hv
  induction s using goRunes.induct with
  | case1 => rfl
  | case2 b0 b1 b2 b3 rest h ih =>
    rw [utf8Valid_cons_ascii h] at hv
    rw [goRunes, if_pos h]
    simp only [List.map_cons, List.flatten_cons]
    rw [encodeRune_ascii h, ih hv, List.singleton_append]
  | case3 b0 b1 b2 b3 rest h1 h2 hc ih =>
    rw [utf8Valid_cons2 h1 h2] at hv
    simp only [hc, Bool.true_and] at hv
    rw [goRunes, if_neg h1, if_pos h2, if_pos hc]
    simp only [List.map_cons, List.flatten_cons]
    rw [encodeRune_rune2 h2 hc, ih hv]
    rfl
  | case4 b0 b1 b2 b3 rest h1 h2 hc ih =>
    rw [utf8Valid_cons2 h1 h2] at hv
    simp [hc] at hv
  | case5 b0 b1 b2 b3 rest h1 h2 h3 hb1 hc ih =>
    rw [utf8Valid_cons3 h1 h2 h3] at hv
    simp only [hb1, decide_True, Bool.true_and, hc] at hv
    rw [goRunes, if_neg h1, if_neg h2, if_pos h3, if_pos hb1, if_pos hc]
    simp only [List.map_cons, List.flatten_cons]
    rw [encodeRune_rune3 h3 hb1 hc, ih hv]
    rfl
  | case6 b0 b1 b2 b3 rest h1 h2 h3 hb1 hc ih =>
    rw [utf8Valid_cons3 h1 h2 h3] at hv
    simp [hb1, hc] at hv
  | case7 b0 b1 b2 b3 rest h1 h2 h3 hb1 ih =>
    rw [utf8Valid_cons3 h1 h2 h3] at hv
    simp [hb1] at hv
  | case8 b0 b1 b2 b3 rest h1 h2 h3 h4 hb1 hc2 hc3 ih =>
    rw [utf8Valid_cons4 h1 h2 h3 h4] at hv
    simp only [hb1, decide_True, Bool.true_and, hc2, hc3] at hv
    rw [goRunes, if_neg h1, if_neg h2, if_neg h3, if_pos h4, if_pos hb1, if_pos hc2,
      if_pos hc3]
    simp only [List.map_cons, List.flatten_cons]
    rw [encodeRune_rune4 h4 hb1 hc2 hc3, ih hv]
    rfl
  | case9 b0 b1 b2 b3 rest h1 h2 h3 h4 hb1 hc2 hc3 ih =>
    rw [utf8Valid_cons4 h1 h2 h3 h4] at hv
    simp [hb1, hc2, hc3] at hv
  | case10 b0 b1 b2 b3 rest h1 h2 h3 h4 hb1 hc2 ih =>
    rw [utf8Valid_cons4 h1 h2 h3 h4] at hv
    simp [hb1, hc2] at hv
  | case11 b0 b1 b2 b3 rest h1 h2 h3 h4 hb1 ih =>
    rw [utf8Valid_cons4 h1 h2 h3 h4] at hv
    simp [hb1] at hv
  | case12 b0 b1 b2 b3 rest h1 h2 h3 h4 ih =>
    rw [utf8Valid_cons_none h1 h2 h3 h4] at hv
    exact absurd hv (by simp)
  | case13 b0 b1 b2 h ih =>
    rw [utf8Valid_cons_ascii h] at hv
    rw [goRunes, if_pos h]
    simp only [List.map_cons, List.flatten_cons]
    rw [encodeRune_ascii h, ih hv, List.singleton_append]
  | case14 b0 b1 b2 h1 h2 hc ih =>
    rw [utf8Valid_cons2 h1 h2] at hv
    simp only [hc, Bool.true_and] at hv
    rw [goRunes, if_neg h1, if_pos h2, if_pos hc]
    simp only [List.map_cons, List.flatten_cons]
    rw [encodeRune_rune2 h2 hc, ih hv]
    rfl
  | case15 b0 b1 b2 h1 h2 hc ih =>
    rw [utf8Valid_cons2 h1 h2] at hv
    simp [hc] at hv
  | case16 b0 b1 b2 h1 h2 h3 hb1 hc =>
    rw [goRunes, if_neg h1, if_neg h2, if_pos h3, if_pos hb1, if_pos hc]
    simp only [List.map_cons, List.map_nil, List.flatten_cons, List.flatten_nil,
      List.append_nil]
    rw [encodeRune_rune3 h3 hb1 hc]
  | case17 b0 b1 b2 h1 h2 h3 hb1 hc ih =>
    rw [utf8Valid_cons3 h1 h2 h3] at hv
    simp [hb1, hc] at hv
  | case18 b0 b1 b2 h1 h2 h3 hb1 ih =>
    rw [utf8Valid_cons3 h1 h2 h3] at hv
    simp [hb1] at hv
  | case19 b0 b1 b2 h1 h2 h3 ih =>
    rw [utf8Valid_three_not23 h1 h2 h3] at hv
    exact absurd hv (by simp)
  | case20 b0 b1 h ih =>
    rw [utf8Valid_cons_ascii h] at hv
    rw [goRunes, if_pos h]
    simp only [List.map_cons, List.flatten_cons]
    rw [encodeRune_ascii h, ih hv, List.singleton_append]
  | case21 b0 b1 h1 h2 hc =>
    rw [goRunes, if_neg h1, if_pos h2, if_pos hc]
    simp only [List.map_cons, List.map_nil, List.flatten_cons, List.flatten_nil,
      List.append_nil]
    rw [encodeRune_rune2 h2 hc]
  | case22 b0 b1 h1 h2 hc ih =>
    rw [utf8Valid_cons2 h1 h2] at hv
    simp [hc] at hv
  | case23 b0 b1 h1 h2 ih =>
    rw [utf8Valid_two_not2b h1 h2] at hv
    exact absurd hv (by simp)
  | case24 b0 h =>
    rw [goRunes, if_pos h]
    simp only [List.map_cons, List.map_nil, List.flatten_cons, List.flatten_nil,
      List.append_nil]
    rw [encodeRune_ascii h]
  | case25 b0 h1 =>
    rw [utf8Valid_single h1] at hv
    exact absurd hv (by simp)

/-- On well-formed UTF-8 input, stripNonUTF8 is the identity. -/
theorem stripNonUTF8_of_valid {s : GoStr} (hv : utf8Valid s = true) :
    stripNonUTF8 s = s := by
  rw [stripNonUTF8_eq, stripNonUTF8_filter_id]
  exact utf8Valid_recon hv

/-- Every rune of a Lean character is a valid scalar value. -/
theorem validRune_char (c : Char) : validRune c.toNat = true := by
  have h := c.valid
  simp only [UInt32.isValidChar, Nat.isValidChar] at h
  simp only [validRune, decide_eq_true_eq, Char.toNat]
  omega

/-- The embedding of a Lean string is always well-formed UTF-8. -/
theorem utf8Valid_gs (str : String) : utf8Valid (gs str) = true := by
  rw [gs, show (str.data.map fun c => encodeRune c.toNat) =
      (str.data.map (fun c => c.toNat)).map encodeRune from by
    rw [List.map_map]; rfl]
  exact utf8Valid_flatten_encode fun r hr => by
    rcases List.mem_map.mp hr with ⟨c, _, rfl⟩
    exact validRune_char c

/-- stripNonUTF8 fixes embedded Lean strings. -/
theorem stripNonUTF8_gs (str : String) : stripNonUTF8 (gs str) = gs str :=
  stripNonUTF8_of_valid (utf8Valid_gs str)

/-- "=?", the opening token of an RFC 2047 encoded word, occurs in the
    string. -/
def hasEncWord : GoStr → Bool
  | [] => false
  | [_] => false
  | a :: b :: rest => (decide (a = 61) && decide (b = 63)) || hasEncWord (b :: rest)

/-- External collaborators and process-wide inputs used by src/mail.go:
    the x/net and x/text charset machinery, the stdlib RFC 2047 word
    decoder, the html2text collaborator, the clock, pid/hostname/random
    consumed by makeID, the Date parser and formatter of net/mail and
    time, and the multipart splitter of mime/multipart.  The library is
    modelled as a function of this environment; theorems state the
    assumptions they need about it. -/
structure Env where
  /-- charset.Lookup: decoder for a known charset label, none when the
      label is unknown or empty. -/
  lookupCharset : GoStr → Option (GoStr → Except GoStr GoStr)
  /-- charset.DetermineEncoding of the content, treated as text/plain:
      the sniffed decoder used when the label is not recognized. -/
  sniffCharset : GoStr → (GoStr → Except GoStr GoStr)
  /-- mime.WordDecoder.DecodeHeader with charset.NewReaderLabel as
      charset reader.  On inputs with no "=?" it returns the input
      unchanged; theorems that need this state it as a hypothesis. -/
  wordDecode : GoStr → Except GoStr GoStr
  /-- github.com/jaytaylor/html2text FromString. -/
  html2text : GoStr → Except GoStr GoStr
  /-- time.Now, as an opaque timestamp. -/
  nowDate : Nat
  /-- the makeID result: src/mail.go builds
      UTCtimestamp.pid.random@hostname from process-wide identity inputs;
      it is opaque to every claim, so the token is taken from the
      environment. -/
  genID : GoStr
  /-- Date formatting, layout Mon, 2 Jan 2006 15:04:05 -0700 (MST). -/
  formatDate : Nat → GoStr
  /-- net/mail Header.Date: parsing of a Date header value. -/
  parseDate : GoStr → Option Nat
  /-- mime/multipart Reader over a body and boundary: the sub-parts in
      order, each a MIME header block plus body, or a structural error. -/
  multipartSplit : GoStr → GoStr → Except GoStr (List (List (GoStr × List GoStr) × GoStr))
  /-- mime.ParseMediaType: the media type, lowered and trimmed, and its
      parameter map. -/
  parseMediaTy : GoStr → Except GoStr (GoStr × List (GoStr × GoStr))
  /-- mime.QEncoding.Encode with charset utf-8: RFC 2047 word encoding,
      the identity on printable ASCII without special sequences. -/
  qEncode : GoStr → GoStr

/-- The word decoder returns inputs containing no encoded word unchanged
    (behaviour of Go mime.WordDecoder.DecodeHeader). -/
def WordDecodeId (env : Env) : Prop :=
  ∀ s, hasEncWord s = false → env.wordDecode s = Except.ok s

/-- src/mail.go decodeCharset: look up the label with charset.Lookup;
    when unknown, sniff the content with DetermineEncoding; decode via
    the transform; propagate a decode error; strip what is not valid
    UTF-8 from the result.  (Errors mirror the Go (value, err) pair.) -/
def decodeCharset (env : Env) (str lab : GoStr) : Except GoStr GoStr :=
  let dec := match env.lookupCharset lab with
    | some d => d
    | none => env.sniffCharset str
  match dec str with
  | Except.error e => Except.error e
  | Except.ok nstr => Except.ok (stripNonUTF8 nstr)

/-- src/mail.go decodeHeader: decode RFC 2047 words; if the result is not
    valid UTF-8, run decodeCharset once with an empty label (sniff pass);
    fail if the result is still not valid. -/
def decodeHeader (env : Env) (rawheader : GoStr) : Except GoStr GoStr :=
  match env.wordDecode rawheader with
  | Except.error e => Except.error e
  | Except.ok header =>
    if utf8Valid header then
      Except.ok header
    else
      match decodeCharset env header [] with
      | Except.error e => Except.error e
      | Except.ok nheader =>
        if utf8Valid nheader then
          Except.ok nheader
        else
          Except.error (gs "decode header: non-utf8 byte left after decode")

/-- A successful decodeCharset always returns well-formed UTF-8: the
    result is stripNonUTF8 of the decoder output. -/
theorem decodeCharset_valid {env : Env} {str lab r : GoStr}
    (h : decodeCharset env str lab = Except.ok r) : utf8Valid r = true := by
  rw [decodeCharset] at h
  rcases hdec : (match env.lookupCharset lab with
    | some d => d
    | none => env.sniffCharset str) str with e | v <;>
    rw [hdec] at h
  · exact absurd h (by simp)
  · simp only [Except.ok.injEq] at h
    rw [← h]
    exact stripNonUTF8_valid v

/-- A successful decodeHeader always returns well-formed UTF-8. -/
theorem decodeHeader_valid {env : Env} {raw r : GoStr}
    (h : decodeHeader env raw = Except.ok r) : utf8Valid r = true := by
  rw [decodeHeader] at h
  rcases hw : env.wordDecode raw with e | header <;> simp only [hw] at h
  · exact absurd h (by simp)
  · by_cases hv : utf8Valid header = true
    · rw [if_pos hv] at h
      simp only [Except.ok.injEq] at h
      rw [← h]; exact hv
    · rw [if_neg hv] at h
      rcases hdc : decodeCharset env header [] with e | nh <;> simp only [hdc] at h
      · exact absurd h (by simp)
      · by_cases hv2 : utf8Valid nh = true
        · rw [if_pos hv2] at h
          simp only [Except.ok.injEq] at h
          rw [← h]; exact hv2
        · rw [if_neg hv2] at h
          exact absurd h (by simp)

/-- Lowercase an ASCII letter byte. -/
def byteToLower (b : Nat) : Nat := if 65 ≤ b ∧ b ≤ 90 then b + 32 else b

/-- strings.ToLower, restricted to ASCII input.  (Go lowers runes by the
    Unicode simple mapping, which agrees with this on ASCII bytes;
    theorems over arbitrary labels therefore carry an ASCII hypothesis.) -/
def goToLower (s : GoStr) : GoStr := s.map byteToLower

/-- strings.HasPrefix on byte strings. -/
def goHasPre : GoStr → GoStr → Bool
  | _, [] => true
  | [], _ :: _ => false
  | a :: s, b :: p => decide (a = b) && goHasPre s p

/-- strings.Split with a one-byte separator: the pieces between
    occurrences of the separator (empty input gives one empty piece). -/
def goSplit (sep : Nat) : GoStr → List GoStr
  | [] => [[]]
  | b :: rest =>
    match goSplit sep rest with
    | h :: t => if b = sep then [] :: h :: t else (b :: h) :: t
    | [] => [[b]]

/-- strings.Replace(s, " ", "", -1): drop every space byte. -/
def removeSpaces (s : GoStr) : GoStr := s.filter (fun b => decide (b ≠ 32))

/-- The reader returned by src/mail.go decodeTransfer: the input
    unchanged, a base64 decoder over the non-ASCII-stripping filter, a
    quoted-printable decoder over the filter plus newline appender, or a
    failReader carrying an error. -/
inductive TransferReader where
  | plain (r : GoStr)
  | b64 (r : GoStr)
  | qp (r : GoStr)
  | fail (msg : GoStr)
deriving DecidableEq

/-- src/mail.go decodeTransfer: select the decoding stage by the
    lowercased content-transfer-encoding label. -/
def decodeTransfer (r : GoStr) (label : GoStr) : TransferReader :=
  let l := goToLower label
  if l = gs "base64" then TransferReader.b64 r
  else if l = gs "quoted-printable" then TransferReader.qp r
  else if l = [] ∨ l = gs "7bit" ∨ l = gs "8bit" ∨ l = gs "binary" then
    TransferReader.plain r
  else TransferReader.fail (gs "unsupported transfer encoding: " ++ label)

/-- failReader.Read (src/mail.go) returns its stored error on every read;
    this is the error the very first read of the returned stream yields
    (none for the other readers, whose first read may succeed). -/
def TransferReader.firstReadErr : TransferReader → Option GoStr
  | TransferReader.fail msg => some msg
  | _ => none

/-- Part (src/mail.go): an attachment with decoded filename and
    transfer-decoded raw bytes. -/
structure Part where
  Name : GoStr
  Data : GoStr
deriving DecidableEq

/-- Message (src/mail.go): the parsed or to-be-sent email.  Go strings
    are byte strings; Headers is the map of decoded extra headers, kept
    as an association list (one entry per key). -/
structure Message where
  ID : GoStr
  ReturnPath : GoStr
  From : GoStr
  To : List GoStr
  CC : List GoStr
  Subject : GoStr
  Date : Nat
  IsHTML : Bool
  HTML : GoStr
  Body : GoStr
  Parts : List Part
  Headers : List (GoStr × GoStr)
deriving DecidableEq

/-- src/mail.go NewMessage: fresh message with a generated id, the given
    fields, return-path equal to from, and the current time. -/
def NewMessage (env : Env) (From : GoStr) (to' cc : List GoStr)
    (subject body : GoStr) (headers : List (GoStr × GoStr)) : Message :=
  { ID := env.genID
    ReturnPath := From
    From := From
    To := to'
    CC := cc
    Subject := subject
    Date := env.nowDate
    IsHTML := false
    HTML := []
    Body := body
    Parts := []
    Headers := headers }

/-- src/mail.go Reply: subject prefixed with "Re: " unless its lowercase
    form already starts with "re:"; In-Reply-To and References headers
    carry the parent id; the new body quotes every line of the original
    after the given body and a banner; recipient is the return path. -/
def Reply (env : Env) (m : Message) (From body : GoStr) (cc : List GoStr) :
    Message :=
  let subj :=
    if goHasPre (goToLower m.Subject) (gs "re:") then m.Subject
    else gs "Re: " ++ m.Subject
  let headers := [(gs "In-Reply-To", m.ID), (gs "References", m.ID)]
  let lines := goSplit 10 m.Body
  let nbody := body ++ gs "\n\n" ++ gs "-------- Original message --------\n" ++
    (lines.map (fun line => gs ">" ++ line ++ gs "\n")).flatten
  NewMessage env From [m.ReturnPath] cc subj nbody headers

/-- One step of the ReplyAll cc accumulation (src/mail.go): append the
    address to cc and mark it seen unless it is in the seen set.  The Go
    seen map is modelled by the list of inserted keys. -/
def dedupStep (acc : List GoStr × List GoStr) (v : GoStr) :
    List GoStr × List GoStr :=
  if v ∈ acc.2 then acc else (acc.1 ++ [v], acc.2 ++ [v])

/-- src/mail.go ReplyAll: build the cc list by seeding with From when it
    differs from ReturnPath, then walking To and CC, skipping addresses
    already seen; delegate to Reply. -/
def ReplyAll (env : Env) (m : Message) (From body : GoStr) : Message :=
  let init : List GoStr × List GoStr :=
    if m.ReturnPath ≠ m.From then ([m.From], [m.From]) else ([], [])
  let afterTo := m.To.foldl dedupStep init
  let afterCC := m.CC.foldl dedupStep afterTo
  Reply env m From body afterCC.1

/-- src/mail.go Forward: like Reply for the subject with "Fwd: ", body
    appends the unmodified original after a banner. -/
def Forward (env : Env) (m : Message) (From : GoStr) (to' cc : List GoStr)
    (body : GoStr) : Message :=
  let subj :=
    if goHasPre (goToLower m.Subject) (gs "fwd:") then m.Subject
    else gs "Fwd: " ++ m.Subject
  let headers := [(gs "In-Reply-To", m.ID), (gs "References", m.ID)]
  let nbody := body ++ gs "\n\n" ++ gs "-------- Forwarded message --------\n" ++ m.Body
  NewMessage env From to' cc subj nbody headers

/-- One rune of the DecodeAddress state machine (src/mail.go): outside
    state (false) skips a stray closing bracket and copies nothing,
    switching inside on an opening bracket; inside state (true) resets
    the accumulator on another opening bracket (keeping only the
    innermost), emits the accumulated address on the closing bracket, and
    otherwise writes the rune to the accumulator. -/
def addrStep : List GoStr × GoStr × Bool → Nat → List GoStr × GoStr × Bool
  | (addrs, buf, false), v =>
    if v = 62 then (addrs, buf, false)
    else if v = 60 then (addrs, buf, true)
    else (addrs, buf, false)
  | (addrs, buf, true), v =>
    if v = 60 then (addrs, [], true)
    else if v = 62 then (addrs ++ [buf], [], false)
    else (addrs, buf ++ encodeRune v, true)

/-- The bracket scan of DecodeAddress over the runes of the decoded
    header. -/
def scanAddrs (header : GoStr) : List GoStr :=
  ((goRunes header).foldl addrStep ([], [], false)).1

/-- src/mail.go DecodeAddress: empty input gives no addresses and no
    error; otherwise decode the header, scan for bracketed addresses,
    and when none is found strip spaces and split on commas. -/
def DecodeAddress (env : Env) (rawheader : GoStr) : Except GoStr (List GoStr) :=
  if rawheader = [] then Except.ok []
  else
    match decodeHeader env rawheader with
    | Except.error e => Except.error e
    | Except.ok header =>
      let addrs := scanAddrs header
      if addrs = [] then Except.ok (goSplit 44 (removeSpaces header))
      else Except.ok addrs

/-- Claim C5: for every reader and ASCII transfer-encoding label, the
    labels "", 7bit, 8bit and binary (matched case-insensitively) make
    decodeTransfer return the input reader unchanged, and any other
    label besides base64 and quoted-printable yields a reader whose
    first read fails with the unsupported-transfer-encoding error
    carrying the offending label.  (The ASCII hypothesis covers the gap
    between Go strings.ToLower on arbitrary Unicode and the ASCII
    lowering modelled here; all concrete labels in the source are
    ASCII.) -/
theorem transfer_labels (r label : GoStr) (_hascii : ∀ b ∈ label, b < 0x80) :
    (goToLower label ∈ ([[], gs "7bit", gs "8bit", gs "binary"] : List GoStr) →
      decodeTransfer r label = TransferReader.plain r) ∧
    (goToLower label ∉ ([[], gs "7bit", gs "8bit", gs "binary",
        gs "base64", gs "quoted-printable"] : List GoStr) →
      decodeTransfer r label =
        TransferReader.fail (gs "unsupported transfer encoding: " ++ label) ∧
      (decodeTransfer r label).firstReadErr =
        some (gs "unsupported transfer encoding: " ++ label)) := by
  constructor
  · intro hmem
    simp only [List.mem_cons, List.mem_singleton, List.not_mem_nil, or_false] at hmem
    rcases hmem with h | h | h | h <;>
      · rw [decodeTransfer]
        rw [if_neg (by rw [h]; decide), if_neg (by rw [h]; decide),
          if_pos (by rw [h]; decide)]
  · intro hmem
    simp only [List.mem_cons, List.not_mem_nil, or_false, not_or] at hmem
    obtain ⟨h0, h7, h8, hb, hb64, hqp⟩ := hmem
    rw [decodeTransfer]
    rw [if_neg hb64, if_neg hqp, if_neg (by simp [h0, h7, h8, hb])]
    exact ⟨rfl, rfl⟩

/-- Witness for transfer_labels: the label 8BIT (case-insensitive match)
    passes through, and the unknown label x-custom fails with the error
    naming it. -/
theorem transfer_labels_witness :
    decodeTransfer (gs "abc") (gs "8BIT") = TransferReader.plain (gs "abc") ∧
    decodeTransfer (gs "abc") (gs "x-custom") =
      TransferReader.fail (gs "unsupported transfer encoding: " ++ gs "x-custom") ∧
    (decodeTransfer (gs "abc") (gs "x-custom")).firstReadErr =
      some (gs "unsupported transfer encoding: " ++ gs "x-custom") :=
  ⟨(transfer_labels (gs "abc") (gs "8BIT") (by decide)).1 (by decide),
   (transfer_labels (gs "abc") (gs "x-custom") (by decide)).2 (by decide)⟩

/-- strings.TrimSpace, restricted to the space byte. -/
def goTrimSpace (s : GoStr) : GoStr :=
  ((s.dropWhile (fun b => decide (b = 32))).reverse.dropWhile
    (fun b => decide (b = 32))).reverse

/-- Strip one pair of surrounding double quotes. -/
def unquote (s : GoStr) : GoStr :=
  if 2 ≤ s.length ∧ s.headD 0 = 34 ∧ s.getLast? = some 34 then
    (s.drop 1).dropLast
  else s

/-- The behaviour of mime.ParseMediaType on the simple well-formed
    inputs the witnesses use: media type before the first semicolon,
    lowered and trimmed; then key=value parameters with optional quotes,
    empty pieces skipped.  This instantiates the parseMediaTy
    collaborator of the concrete environment. -/
def simpleParseMediaTy (v : GoStr) : Except GoStr (GoStr × List (GoStr × GoStr)) :=
  match goSplit 59 v with
  | [] => Except.error (gs "mime: no media type")
  | mt :: ps =>
    Except.ok (goToLower (goTrimSpace mt),
      ps.filterMap (fun p =>
        let q := goTrimSpace p
        if q = [] then none
        else match goSplit 61 q with
          | [k, v1] => some (goToLower k, unquote v1)
          | _ => none))

/-- A concrete environment used by witnesses and counterexamples: the
    collaborators are instantiated at behaviours that agree with the real
    ones on the concrete inputs of those theorems (every such input is
    plain ASCII with no encoded words, where word decoding is the
    identity and the sniffed windows-1252 decode is the identity). -/
def idEnv : Env where
  lookupCharset := fun lab => if lab = gs "utf-8" then some Except.ok else none
  sniffCharset := fun _ => Except.ok
  wordDecode := Except.ok
  html2text := Except.ok
  nowDate := 0
  genID := gs "<20240101000000.1.42@localhost>"
  formatDate := fun _ => gs "Mon, 1 Jan 2024 00:00:00 +0000 (UTC)"
  parseDate := fun _ => none
  multipartSplit := fun _ _ => Except.ok []
  parseMediaTy := simpleParseMediaTy
  qEncode := fun s => s



/-- Claim C7: the reply subject is the original prefixed with "Re: "
    unless the lowercased original already starts with "re:", and a
    second reply never prefixes again; on subject Hello the reply
    subject is Re: Hello and stays so under a second reply. -/
theorem reply_subject_no_double_re (env env2 : Env) (m : Message)
    (f b f2 b2 : GoStr) (cc cc2 : List GoStr) :
    ((Reply env m f b cc).Subject =
      if goHasPre (goToLower m.Subject) (gs "re:") then m.Subject
      else gs "Re: " ++ m.Subject) ∧
    (Reply env2 (Reply env m f b cc) f2 b2 cc2).Subject =
      (Reply env m f b cc).Subject ∧
    (m.Subject = gs "Hello" →
      (Reply env m f b cc).Subject = gs "Re: Hello" ∧
      (Reply env2 (Reply env m f b cc) f2 b2 cc2).Subject = gs "Re: Hello") := by
  have hsub : ∀ (e : Env) (M : Message) (f1 b1 : GoStr) (cc1 : List GoStr),
      (Reply e M f1 b1 cc1).Subject =
        if goHasPre (goToLower M.Subject) (gs "re:") then M.Subject
        else gs "Re: " ++ M.Subject := fun _ _ _ _ _ => rfl
  have hre : ∀ s : GoStr, goHasPre (goToLower (gs "Re: " ++ s)) (gs "re:") = true := by
    intro s
    rw [show goToLower (gs "Re: " ++ s) = gs "re: " ++ goToLower s from by
      rw [goToLower, goToLower, List.map_append]
      rw [show List.map byteToLower (gs "Re: ") = gs "re: " from by decide]]
    rw [show gs "re: " = [114, 101, 58, 32] from by decide,
      show gs "re:" = [114, 101, 58] from by decide]
    simp [goHasPre]
  refine ⟨hsub env m f b cc, ?_, ?_⟩
  · rw [hsub env2 _ f2 b2 cc2, hsub env m f b cc]
    by_cases h : goHasPre (goToLower m.Subject) (gs "re:") = true
    · rw [if_pos h, if_pos h]
    · rw [if_neg h, if_pos (hre m.Subject)]
  · intro hS
    have h1 : (Reply env m f b cc).Subject = gs "Re: Hello" := by
      rw [hsub env m f b cc, hS, if_neg (by decide)]
      decide
    refine ⟨h1, ?_⟩
    rw [hsub env2 _ f2 b2 cc2, h1, if_pos (by decide)]

/-- The deduplicated sequence described by the spec: keep each element at
    its first occurrence, preserving order, skipping anything already
    seen. -/
def dedupFirst (l : List GoStr) : List GoStr :=
  l.foldl (fun acc v => if v ∈ acc then acc else acc ++ [v]) []

/-- The cc/seen pair of ReplyAll stays equal to the single-list
    accumulation of dedupFirst. -/
theorem dedupStep_pair (l : List GoStr) :
    ∀ acc : List GoStr,
      l.foldl dedupStep (acc, acc) =
        (l.foldl (fun a v => if v ∈ a then a else a ++ [v]) acc,
         l.foldl (fun a v => if v ∈ a then a else a ++ [v]) acc) := by
  induction l with
  | nil => intro acc; rfl
  | cons v rest ih =>
    intro acc
    simp only [List.foldl_cons, dedupStep]
    by_cases h : v ∈ acc
    · rw [if_pos h, if_pos h]
      exact ih acc
    · rw [if_neg h, if_neg h]
      exact ih (acc ++ [v])

/-- Accumulating with the skip-if-seen step preserves freedom from
    duplicates. -/
theorem dedupFold_nodup (l : List GoStr) :
    ∀ acc : List GoStr, acc.Nodup →
      (l.foldl (fun a v => if v ∈ a then a else a ++ [v]) acc).Nodup := by
  induction l with
  | nil => intro acc h; exact h
  | cons v rest ih =>
    intro acc h
    simp only [List.foldl_cons]
    by_cases hv : v ∈ acc
    · rw [if_pos hv]; exact ih acc h
    · rw [if_neg hv]
      refine ih _ ?_
      rw [← List.concat_eq_append]
      exact List.Nodup.concat hv h

/-- A concrete parsed message with subject Hello. -/
def msgHello : Message where
  ID := gs "<parent@host>"
  ReturnPath := gs "a@b.com"
  From := gs "a@b.com"
  To := [gs "c@d.com"]
  CC := []
  Subject := gs "Hello"
  Date := 0
  IsHTML := false
  HTML := []
  Body := gs "original body"
  Parts := []
  Headers := []

/-- Witness for reply_subject_no_double_re at the message with subject
    Hello. -/
theorem reply_subject_witness :
    (Reply idEnv msgHello (gs "h@d.com") (gs "hi") []).Subject = gs "Re: Hello" ∧
    (Reply idEnv (Reply idEnv msgHello (gs "h@d.com") (gs "hi") [])
        (gs "h@d.com") (gs "hi") []).Subject = gs "Re: Hello" :=
  (reply_subject_no_double_re idEnv idEnv msgHello (gs "h@d.com") (gs "hi")
    (gs "h@d.com") (gs "hi") [] []).2.2 rfl

/-- Claim C8: the derived cc list of ReplyAll is the order-preserving
    first-occurrence deduplication of: the original From (only when it
    differs from the return path), then the original To list, then the
    original CC list; in particular it never contains an address twice. -/
theorem replyall_cc_dedup (env : Env) (m : Message) (f b : GoStr) :
    (ReplyAll env m f b).CC =
      dedupFirst ((if m.ReturnPath ≠ m.From then [m.From] else []) ++ m.To ++ m.CC) ∧
    ((ReplyAll env m f b).CC).Nodup := by
  have key : (ReplyAll env m f b).CC =
      (m.To ++ m.CC).foldl (fun a v => if v ∈ a then a else a ++ [v])
        (if m.ReturnPath ≠ m.From then [m.From] else []) := by
    show (m.CC.foldl dedupStep (m.To.foldl dedupStep
        (if m.ReturnPath ≠ m.From then ([m.From], [m.From]) else ([], [])))).1 = _
    rw [List.foldl_append]
    by_cases hrf : m.ReturnPath ≠ m.From
    · rw [if_pos hrf, dedupStep_pair, dedupStep_pair]
      simp [hrf]
    · rw [if_neg hrf, dedupStep_pair, dedupStep_pair]
      simp [hrf]
  constructor
  · rw [key]
    by_cases hrf : m.ReturnPath ≠ m.From
    · rw [if_pos hrf, dedupFirst, List.foldl_append, List.foldl_append,
        List.foldl_append]
      simp
    · rw [if_neg hrf, dedupFirst, List.foldl_append, List.foldl_append,
        List.foldl_append]
      simp
  · rw [key]
    apply dedupFold_nodup
    by_cases hrf : m.ReturnPath ≠ m.From
    · rw [if_pos hrf]; exact List.nodup_singleton m.From
    · rw [if_neg hrf]; exact List.nodup_nil

/-- The UTF-8 bytes of a rune sequence (as a buffer written rune by rune
    accumulates them). -/
def encRunes (rs : List Nat) : GoStr := (rs.map encodeRune).flatten

/-- The rune run following the last opening bracket of a bracket-free-of-
    closes piece: none when the piece has no opening bracket. -/
def afterLastOpen : List Nat → Option (List Nat)
  | [] => none
  | v :: rest =>
    match afterLastOpen rest with
    | some t => some t
    | none => if v = 60 then some rest else none

/-- The bracketed addresses described by claim C6: cut the rune sequence
    at every closing bracket; every piece before a closing bracket that
    contains an opening bracket contributes the text after its last
    (innermost) opening bracket, in order. -/
def bracketSpec (rs : List Nat) : List (List Nat) :=
  ((goSplit 62 rs).dropLast).filterMap afterLastOpen

/-- Recursive presentation of the DecodeAddress scan from a given buffer
    and state. -/
def innerRec : List Nat → GoStr → Bool → List GoStr
  | [], _, _ => []
  | v :: rest, buf, false =>
    if v = 62 then innerRec rest buf false
    else if v = 60 then innerRec rest buf true
    else innerRec rest buf false
  | v :: rest, buf, true =>
    if v = 60 then innerRec rest [] true
    else if v = 62 then buf :: innerRec rest [] false
    else innerRec rest (buf ++ encodeRune v) true

/-- The address fold is the recursive scan appended to what was already
    emitted. -/
theorem addrFold_innerRec : ∀ (rs : List Nat) (addrs : List GoStr) (buf : GoStr)
    (st : Bool), (rs.foldl addrStep (addrs, buf, st)).1 = addrs ++ innerRec rs buf st := by
  intro rs
  induction rs with
  | nil => intro addrs buf st; simp [innerRec]
  | cons v rest ih =>
    intro addrs buf st
    cases st
    · rw [List.foldl_cons,
        show addrStep (addrs, buf, false) v =
          if v = 62 then (addrs, buf, false)
          else if v = 60 then (addrs, buf, true)
          else (addrs, buf, false) from rfl,
        innerRec]
      split_ifs <;> simp [ih]
    · rw [List.foldl_cons,
        show addrStep (addrs, buf, true) v =
          if v = 60 then (addrs, [], true)
          else if v = 62 then (addrs ++ [buf], [], false)
          else (addrs, buf ++ encodeRune v, true) from rfl,
        innerRec]
      split_ifs <;> simp [ih]

/-- goSplit never returns an empty list of pieces. -/
theorem goSplit_ne_nil (sep : Nat) (s : GoStr) : goSplit sep s ≠ [] := by
  cases s with
  | nil => simp [goSplit]
  | cons b rest =>
    rw [goSplit]
    rcases goSplit sep rest with _ | ⟨h, t⟩
    · simp
    · split_ifs <;> simp

/-- Emission for the piece before the next closing bracket, starting from
    a buffer: the text after the innermost opening bracket, or the buffer
    extended by the whole piece when it has no opening bracket. -/
def pieceEmit (buf : GoStr) (P : List Nat) : GoStr :=
  match afterLastOpen P with
  | some t => encRunes t
  | none => buf ++ encRunes P

/-- What the scan emits from the inside state with a given buffer. -/
def insideSpec (rs : List Nat) (buf : GoStr) : List GoStr :=
  match goSplit 62 rs with
  | [] => []
  | [_] => []
  | P0 :: _ :: _ =>
    pieceEmit buf P0 ::
      (((goSplit 62 rs).tail.dropLast).filterMap afterLastOpen).map encRunes

theorem afterLastOpen_cons60 (h : List Nat) :
    afterLastOpen (60 :: h) = some ((afterLastOpen h).getD h) := by
  rw [afterLastOpen]
  rcases afterLastOpen h with _ | t <;> simp

theorem afterLastOpen_cons_ne {v : Nat} (hv : v ≠ 60) (h : List Nat) :
    afterLastOpen (v :: h) = afterLastOpen h := by
  rw [afterLastOpen]
  rcases ha : afterLastOpen h with _ | t
  · simp [hv]
  · simp

theorem encRunes_cons (v : Nat) (h : List Nat) :
    encRunes (v :: h) = encodeRune v ++ encRunes h := rfl

/-- The byte-level bracket specification. -/
def outsideSpec (rs : List Nat) : List GoStr := (bracketSpec rs).map encRunes

theorem outsideSpec_62 (rest : List Nat) :
    outsideSpec (62 :: rest) = outsideSpec rest := by
  obtain ⟨h, t, hsplit⟩ : ∃ h t, goSplit 62 rest = h :: t := by
    rcases hv : goSplit 62 rest with _ | ⟨h, t⟩
    · exact absurd hv (goSplit_ne_nil 62 rest)
    · exact ⟨h, t, rfl⟩
  have hs2 : goSplit 62 (62 :: rest) = [] :: h :: t := by
    rw [goSplit, hsplit]
    simp
  simp only [outsideSpec, bracketSpec, hs2, hsplit]
  rcases t with _ | ⟨s1, srest⟩
  · rfl
  · rw [show ([] :: h :: s1 :: srest).dropLast =
      [] :: (h :: s1 :: srest).dropLast from rfl]
    simp only [List.filterMap_cons]
    rw [show afterLastOpen [] = none from rfl]

theorem outsideSpec_ne (v : Nat) (rest : List Nat) (h62 : v ≠ 62) (h60 : v ≠ 60) :
    outsideSpec (v :: rest) = outsideSpec rest := by
  obtain ⟨h, t, hsplit⟩ : ∃ h t, goSplit 62 rest = h :: t := by
    rcases hv : goSplit 62 rest with _ | ⟨h, t⟩
    · exact absurd hv (goSplit_ne_nil 62 rest)
    · exact ⟨h, t, rfl⟩
  have hs2 : goSplit 62 (v :: rest) = (v :: h) :: t := by
    rw [goSplit, hsplit]
    simp [h62]
  simp only [outsideSpec, bracketSpec, hs2, hsplit]
  rcases t with _ | ⟨s1, srest⟩
  · rfl
  · rw [show ((v :: h) :: s1 :: srest).dropLast =
        (v :: h) :: (s1 :: srest).dropLast from rfl,
      show (h :: s1 :: srest).dropLast = h :: (s1 :: srest).dropLast from rfl]
    simp only [List.filterMap_cons, afterLastOpen_cons_ne h60 h]

theorem outsideSpec_60 (rest : List Nat) :
    outsideSpec (60 :: rest) = insideSpec rest [] := by
  obtain ⟨h, t, hsplit⟩ : ∃ h t, goSplit 62 rest = h :: t := by
    rcases hv : goSplit 62 rest with _ | ⟨h, t⟩
    · exact absurd hv (goSplit_ne_nil 62 rest)
    · exact ⟨h, t, rfl⟩
  have hs2 : goSplit 62 (60 :: rest) = (60 :: h) :: t := by
    rw [goSplit, hsplit]
    simp
  simp only [outsideSpec, bracketSpec, insideSpec, hs2, hsplit]
  rcases t with _ | ⟨s1, srest⟩
  · rfl
  · rw [show ((60 :: h) :: s1 :: srest).dropLast =
      (60 :: h) :: (s1 :: srest).dropLast from rfl]
    simp only [List.filterMap_cons, afterLastOpen_cons60 h, List.map_cons,
      List.tail_cons]
    congr 1
    rw [pieceEmit]
    rcases ha : afterLastOpen h with _ | u
    · simp [ha, encRunes]
    · simp [ha]

theorem insideSpec_60 (rest : List Nat) (buf : GoStr) :
    insideSpec (60 :: rest) buf = insideSpec rest [] := by
  obtain ⟨h, t, hsplit⟩ : ∃ h t, goSplit 62 rest = h :: t := by
    rcases hv : goSplit 62 rest with _ | ⟨h, t⟩
    · exact absurd hv (goSplit_ne_nil 62 rest)
    · exact ⟨h, t, rfl⟩
  have hs2 : goSplit 62 (60 :: rest) = (60 :: h) :: t := by
    rw [goSplit, hsplit]
    simp
  simp only [insideSpec, hs2, hsplit]
  rcases t with _ | ⟨s1, srest⟩
  · rfl
  · simp only [List.tail_cons]
    congr 1
    rw [pieceEmit, afterLastOpen_cons60 h, pieceEmit]
    rcases ha : afterLastOpen h with _ | u
    · simp [ha, encRunes]
    · simp [ha]

theorem insideSpec_62 (rest : List Nat) (buf : GoStr) :
    insideSpec (62 :: rest) buf = buf :: outsideSpec rest := by
  obtain ⟨h, t, hsplit⟩ : ∃ h t, goSplit 62 rest = h :: t := by
    rcases hv : goSplit 62 rest with _ | ⟨h, t⟩
    · exact absurd hv (goSplit_ne_nil 62 rest)
    · exact ⟨h, t, rfl⟩
  have hs2 : goSplit 62 (62 :: rest) = [] :: h :: t := by
    rw [goSplit, hsplit]
    simp
  simp only [insideSpec, hs2, hsplit, outsideSpec, bracketSpec, List.tail_cons]
  congr 1
  rw [pieceEmit, show afterLastOpen [] = none from rfl]
  simp [encRunes]

theorem insideSpec_ne (v : Nat) (rest : List Nat) (buf : GoStr) (h62 : v ≠ 62)
    (h60 : v ≠ 60) :
    insideSpec (v :: rest) buf = insideSpec rest (buf ++ encodeRune v) := by
  obtain ⟨h, t, hsplit⟩ : ∃ h t, goSplit 62 rest = h :: t := by
    rcases hv : goSplit 62 rest with _ | ⟨h, t⟩
    · exact absurd hv (goSplit_ne_nil 62 rest)
    · exact ⟨h, t, rfl⟩
  have hs2 : goSplit 62 (v :: rest) = (v :: h) :: t := by
    rw [goSplit, hsplit]
    simp [h62]
  simp only [insideSpec, hs2, hsplit]
  rcases t with _ | ⟨s1, srest⟩
  · rfl
  · simp only [List.tail_cons]
    congr 1
    rw [pieceEmit, afterLastOpen_cons_ne h60 h, pieceEmit]
    rcases ha : afterLastOpen h with _ | u
    · simp [ha, encRunes_cons, List.append_assoc]
    · simp [ha]

/-- The recursive scan computes the bracket specification: from outside,
    the innermost-bracket content of each piece closed by a bracket; from
    inside, the first piece closes with pieceEmit. -/
theorem innerRec_spec : ∀ rs : List Nat,
    innerRec rs [] false = outsideSpec rs ∧
    ∀ buf, innerRec rs buf true = insideSpec rs buf := by
  intro rs
  induction rs with
  | nil =>
    constructor
    · rfl
    · intro buf; rfl
  | cons v rest ih =>
    constructor
    · rw [innerRec]
      by_cases h62 : v = 62
      · rw [if_pos h62, ih.1, h62, outsideSpec_62]
      · rw [if_neg h62]
        by_cases h60 : v = 60
        · rw [if_pos h60, ih.2 [], h60, outsideSpec_60]
        · rw [if_neg h60, ih.1, outsideSpec_ne v rest h62 h60]
    · intro buf
      rw [innerRec]
      by_cases h60 : v = 60
      · rw [if_pos h60, ih.2 [], h60, insideSpec_60]
      · rw [if_neg h60]
        by_cases h62 : v = 62
        · rw [if_pos h62, ih.1, h62, insideSpec_62]
        · rw [if_neg h62, ih.2 (buf ++ encodeRune v), insideSpec_ne v rest buf h62 h60]

/-- The DecodeAddress bracket scan yields exactly the innermost-bracket
    contents in order. -/
theorem scanAddrs_eq_spec (header : GoStr) :
    scanAddrs header = (bracketSpec (goRunes header)).map encRunes := by
  rw [scanAddrs, addrFold_innerRec, (innerRec_spec (goRunes header)).1]
  rfl

/-- Decidable equality on Go (value, error) results, for concrete
    evaluation in witnesses. -/
instance exceptDecEq {ε α : Type} [DecidableEq ε] [DecidableEq α] :
    DecidableEq (Except ε α) := fun a b =>
  match a, b with
  | Except.error e, Except.error f =>
    if h : e = f then isTrue (by rw [h]) else
      isFalse (fun hh => h (Except.error.inj hh))
  | Except.error _, Except.ok _ => isFalse (fun hh => Except.noConfusion hh)
  | Except.ok _, Except.error _ => isFalse (fun hh => Except.noConfusion hh)
  | Except.ok x, Except.ok y =>
    if h : x = y then isTrue (by rw [h]) else
      isFalse (fun hh => h (Except.ok.inj hh))

/-- decodeHeader is the identity on valid UTF-8 input that contains no
    encoded word. -/
theorem decodeHeader_id {env : Env} (hwd : WordDecodeId env) {s : GoStr}
    (h1 : hasEncWord s = false) (h2 : utf8Valid s = true) :
    decodeHeader env s = Except.ok s := by
  rw [decodeHeader]
  simp only [hwd s h1]
  rw [if_pos h2]

/-- Claim C6: DecodeAddress returns no addresses and no error on empty
    input; on the two spec examples it returns the two addresses; the
    bracket scan extracts, in order, exactly the text between each
    innermost opening bracket and its closing bracket; and when the scan
    finds no bracketed address, the decoded header is split on commas
    after removing spaces. -/
theorem decode_address_spec (env : Env) (hwd : WordDecodeId env) :
    DecodeAddress env [] = Except.ok [] ∧
    DecodeAddress env (gs "Name <a@b.com>, Name2 <c@d.com>") =
      Except.ok [gs "a@b.com", gs "c@d.com"] ∧
    DecodeAddress env (gs "a@b.com, c@d.com") =
      Except.ok [gs "a@b.com", gs "c@d.com"] ∧
    (∀ t, scanAddrs t = (bracketSpec (goRunes t)).map encRunes) ∧
    (∀ raw header, raw ≠ [] → decodeHeader env raw = Except.ok header →
      scanAddrs header = [] →
      DecodeAddress env raw = Except.ok (goSplit 44 (removeSpaces header))) := by
  refine ⟨?_, ?_, ?_, scanAddrs_eq_spec, ?_⟩
  · rw [DecodeAddress, if_pos rfl]
  · have e := decodeHeader_id hwd
      (s := gs "Name <a@b.com>, Name2 <c@d.com>") (by decide) (by decide)
    rw [DecodeAddress, if_neg (by decide), e]
    decide
  · have e := decodeHeader_id hwd
      (s := gs "a@b.com, c@d.com") (by decide) (by decide)
    rw [DecodeAddress, if_neg (by decide), e]
    decide
  · intro raw header hraw hdh hscan
    rw [DecodeAddress, if_neg hraw]
    simp only [hdh]
    rw [if_pos hscan]

/-- Witness for decode_address_spec: the two concrete examples, with the
    collaborators instantiated at idEnv (the inputs contain no encoded
    word, where the real word decoder is the identity). -/
theorem decode_address_witness :
    DecodeAddress idEnv (gs "Name <a@b.com>, Name2 <c@d.com>") =
      Except.ok [gs "a@b.com", gs "c@d.com"] ∧
    DecodeAddress idEnv (gs "a@b.com, c@d.com") =
      Except.ok [gs "a@b.com", gs "c@d.com"] :=
  ⟨(decode_address_spec idEnv (fun _ _ => rfl)).2.1,
   (decode_address_spec idEnv (fun _ _ => rfl)).2.2.1⟩

/-
  Quoted-printable, modelled from Go mime/quotedprintable (the writer
  used by Marshal and the reader used by decodeTransfer).  The writer
  normalizes every line break to CRLF, emits printable bytes other than
  the equals sign literally, hex-escapes everything else as =HH with
  uppercase digits, re-escapes a space or tab standing last on a line,
  and folds physical lines longer than 75 bytes with =CRLF soft breaks.
  The reader is line oriented: it right-trims whitespace, joins lines
  ending in a soft break, restores the hard CRLF or LF line ending, and
  decodes =HH escapes (accepting lowercase digits).
-/

/-- Uppercase hexadecimal digit. -/
def hexDig (n : Nat) : Nat := if n < 10 then 48 + n else 55 + n

/-- The =HH escape of a byte. -/
def escByte (b : Nat) : GoStr := [61, hexDig (b / 16), hexDig (b % 16)]

/-- Whether a byte is written literally mid-line. -/
def qpLiteral (b : Nat) : Prop := (33 ≤ b ∧ b ≤ 126 ∧ b ≠ 61) ∨ b = 32 ∨ b = 9

instance qpLiteralDec (b : Nat) : Decidable (qpLiteral b) := by
  unfold qpLiteral; infer_instance

/-- The encoding of one mid-line byte. -/
def atomOf (b : Nat) : GoStr := if qpLiteral b then [b] else escByte b

/-- The encoding of the last byte of a line: a trailing space or tab is
    escaped (Writer.checkLastByte). -/
def lastAtomOf (b : Nat) : GoStr :=
  if 33 ≤ b ∧ b ≤ 126 ∧ b ≠ 61 then [b] else escByte b

/-- The atoms of one logical line. -/
def lineAtoms : GoStr → List GoStr
  | [] => []
  | [b] => [lastAtomOf b]
  | b :: c :: rest => atomOf b :: lineAtoms (c :: rest)

/-- Fold atoms into physical lines of at most 76 bytes, inserting =CRLF
    soft breaks; cur is the length already on the current physical
    line. -/
def wrapAtoms : List GoStr → Nat → GoStr
  | [], _ => []
  | a :: rest, cur =>
    if cur + a.length > 75 then [61, 13, 10] ++ a ++ wrapAtoms rest a.length
    else a ++ wrapAtoms rest (cur + a.length)

/-- The encoding of one logical line. -/
def encLine (L : GoStr) : GoStr := wrapAtoms (lineAtoms L) 0

/-- Split into logical lines at CRLF, CR or LF (the writer treats each
    as one line break). -/
def splitCRLF : GoStr → List GoStr
  | [] => [[]]
  | [b] => if b = 13 ∨ b = 10 then [[], []] else [[b]]
  | b :: c :: rest =>
    if b = 13 then
      if c = 10 then [] :: splitCRLF rest else [] :: splitCRLF (c :: rest)
    else if b = 10 then [] :: splitCRLF (c :: rest)
    else
      match splitCRLF (c :: rest) with
      | h :: t => (b :: h) :: t
      | [] => [[b]]

/-- Join logical lines with CRLF. -/
def joinCRLF : List GoStr → GoStr
  | [] => []
  | [last] => last
  | l :: c :: rest => l ++ [13, 10] ++ joinCRLF (c :: rest)

/-- Every line break normalized to CRLF (what the quoted-printable
    writer does to line endings). -/
def toCRLF (s : GoStr) : GoStr := joinCRLF (splitCRLF s)

/-- Encode logical lines: CRLF after each line break, nothing after the
    final unterminated line (Writer.Close flushes without a break). -/
def qpEncodeLines : List GoStr → GoStr
  | [] => []
  | [last] => encLine last
  | l :: c :: rest => encLine l ++ [13, 10] ++ qpEncodeLines (c :: rest)

/-- Go mime/quotedprintable Writer on a whole body. -/
def qpEncode (body : GoStr) : GoStr := qpEncodeLines (splitCRLF body)

/-- The non-ASCII-stripping transform of src/mail.go: drop every byte
    above 127. -/
def filterAscii (s : GoStr) : GoStr := s.filter (fun b => decide (b ≤ 127))

/-- Hex digit value accepted by the reader (also lowercase). -/
def fromHex (b : Nat) : Option Nat :=
  if 48 ≤ b ∧ b ≤ 57 then some (b - 48)
  else if 65 ≤ b ∧ b ≤ 70 then some (b - 55)
  else if 97 ≤ b ∧ b ≤ 102 then some (b - 87)
  else none

/-- Decode the prepared bytes of one line: =HH escapes, tab, CR, LF and
    bytes at or above 0x80 pass; other bytes outside the printable range
    are invalid. -/
def qpDecodeLine : GoStr → Except GoStr GoStr
  | [] => Except.ok []
  | 61 :: rest =>
    match rest with
    | h1 :: h2 :: rest2 =>
      match fromHex h1, fromHex h2 with
      | some x, some y =>
        match qpDecodeLine rest2 with
        | Except.error e => Except.error e
        | Except.ok d => Except.ok ((16 * x + y) :: d)
      | _, _ => Except.error (gs "quotedprintable: invalid hex byte")
    | _ => Except.error (gs "quotedprintable: invalid hex byte")
  | b :: rest =>
    if b = 9 ∨ b = 13 ∨ b = 10 ∨ 0x80 ≤ b ∨ (32 ≤ b ∧ b ≤ 126) then
      match qpDecodeLine rest with
      | Except.error e => Except.error e
      | Except.ok d => Except.ok (b :: d)
    else Except.error (gs "quotedprintable: invalid unescaped byte")

/-- Right-trim of the whitespace the reader discards at end of line. -/
def trimRightWS (P : GoStr) : GoStr :=
  (P.reverse.dropWhile (fun b => decide (b = 13 ∨ b = 32 ∨ b = 9))).reverse

/-- Decode one physical line (one piece of the split on LF; terminated
    tells whether the line ended in LF, false only for the final
    fragment at EOF). -/
def qpDecodePiece (P : GoStr) (terminated : Bool) : Except GoStr GoStr :=
  let ln := trimRightWS P
  let stripped := P.drop ln.length ++ (if terminated then [10] else [])
  if ln.getLast? = some 61 then
    if goHasPre stripped [10] || goHasPre stripped [13, 10] ||
        (decide (stripped = []) && (decide (ln.dropLast ≠ []) && !terminated)) then
      qpDecodeLine ln.dropLast
    else Except.error (gs "quotedprintable: invalid bytes after =")
  else
    qpDecodeLine (ln ++
      (if terminated then
        (if P.getLast? = some 13 then [13, 10] else [10])
      else []))

/-- Decode the physical lines in order, concatenating their outputs. -/
def qpDecodePieces : List GoStr → Except GoStr GoStr
  | [] => Except.ok []
  | [last] => qpDecodePiece last false
  | p :: c :: rest =>
    match qpDecodePiece p true with
    | Except.error e => Except.error e
    | Except.ok d =>
      match qpDecodePieces (c :: rest) with
      | Except.error e => Except.error e
      | Except.ok d2 => Except.ok (d ++ d2)

/-- Go mime/quotedprintable Reader on a whole stream. -/
def qpDecode (s : GoStr) : Except GoStr GoStr := qpDecodePieces (goSplit 10 s)

/-- Splitting after a separator-free prefix. -/
theorem goSplit_append_no10 (a : GoStr) (ha : ∀ x ∈ a, x ≠ 10) (s : GoStr)
    {h : GoStr} {t : List GoStr} (hs : goSplit 10 s = h :: t) :
    goSplit 10 (a ++ s) = (a ++ h) :: t := by
  induction a with
  | nil => simpa using hs
  | cons x a ih =>
    have hx : x ≠ 10 := ha x (List.mem_cons_self x a)
    have ih2 := ih (fun y hy => ha y (List.mem_cons_of_mem x hy))
    rw [List.cons_append, goSplit, ih2]
    simp [hx]

/-- Splitting at a separator. -/
theorem goSplit_cons10 (s : GoStr) : goSplit 10 (10 :: s) = [] :: goSplit 10 s := by
  rw [goSplit]
  rcases hv : goSplit 10 s with _ | ⟨h, t⟩
  · exact absurd hv (goSplit_ne_nil 10 s)
  · simp

/-- Prepend a list of decoded bytes to a decode result. -/
def consManyRes (pb : GoStr) : Except GoStr GoStr → Except GoStr GoStr
  | Except.error e => Except.error e
  | Except.ok d => Except.ok (pb ++ d)

theorem consManyRes_compose (pb qb : GoStr) (r : Except GoStr GoStr) :
    consManyRes pb (consManyRes qb r) = consManyRes (pb ++ qb) r := by
  rcases r with e | d <;> simp [consManyRes]

/-- Decoding a literal byte of a line. -/
theorem qpDecodeLine_lit {b : Nat} (h61 : ¬b = 61)
    (hok : b = 9 ∨ b = 13 ∨ b = 10 ∨ 0x80 ≤ b ∨ (32 ≤ b ∧ b ≤ 126))
    (rest : GoStr) :
    qpDecodeLine (b :: rest) = consManyRes [b] (qpDecodeLine rest) := by
  rw [qpDecodeLine]
  · rw [if_pos hok]
    rcases qpDecodeLine rest with e | d <;> simp [consManyRes]
  · exact h61

theorem fromHex_hexDig {n : Nat} (h : n < 16) : fromHex (hexDig n) = some n := by
  rw [hexDig, fromHex]
  split_ifs <;> first | (simp only [Option.some.injEq]; omega) | omega

/-- Decoding an =HH escape. -/
theorem qpDecodeLine_esc {b : Nat} (hb : b < 256) (rest : GoStr) :
    qpDecodeLine (escByte b ++ rest) = consManyRes [b] (qpDecodeLine rest) := by
  rw [escByte, List.cons_append, List.cons_append, List.cons_append,
    List.nil_append, qpDecodeLine]
  rw [fromHex_hexDig (by omega), fromHex_hexDig (by omega)]
  have : 16 * (b / 16) + b % 16 = b := by omega
  rcases qpDecodeLine rest with e | d <;> simp [consManyRes, this]

/-- Decoding the mid-line atom of a byte. -/
theorem qpDecodeLine_atom {b : Nat} (hb : b < 256) (rest : GoStr) :
    qpDecodeLine (atomOf b ++ rest) = consManyRes [b] (qpDecodeLine rest) := by
  rw [atomOf]
  by_cases hl : qpLiteral b
  · rw [if_pos hl]
    rcases hl with ⟨h1, h2, h3⟩ | h | h
    · exact qpDecodeLine_lit (by omega) (by omega) rest
    · exact qpDecodeLine_lit (by omega) (by omega) rest
    · exact qpDecodeLine_lit (by omega) (by omega) rest
  · rw [if_neg hl]
    exact qpDecodeLine_esc hb rest

/-- Decoding the final atom of a line. -/
theorem qpDecodeLine_lastAtom {b : Nat} (hb : b < 256) (rest : GoStr) :
    qpDecodeLine (lastAtomOf b ++ rest) = consManyRes [b] (qpDecodeLine rest) := by
  rw [lastAtomOf]
  by_cases hl : 33 ≤ b ∧ b ≤ 126 ∧ b ≠ 61
  · rw [if_pos hl]
    exact qpDecodeLine_lit (by omega) (by omega) rest
  · rw [if_neg hl]
    exact qpDecodeLine_esc hb rest

theorem mem_escByte {x b : Nat} (hx : x ∈ escByte b) : 48 ≤ x ∨ x = 61 := by
  rcases hx with _ | ⟨_, hx⟩
  · right; rfl
  · left
    rcases hx with _ | ⟨_, hx⟩
    · rw [hexDig]; split_ifs <;> omega
    · rcases hx with _ | ⟨_, hx⟩
      · rw [hexDig]; split_ifs <;> omega
      · exact absurd hx (List.not_mem_nil x)

theorem mem_atomOf_no_nl {x b : Nat} (hx : x ∈ atomOf b) : x ≠ 10 ∧ x ≠ 13 := by
  rw [atomOf] at hx
  split_ifs at hx with hl
  · rcases hx with _ | ⟨_, hx⟩
    · rcases hl with ⟨h1, _, _⟩ | h | h <;> omega
    · exact absurd hx (List.not_mem_nil x)
  · rcases mem_escByte hx with h | h <;> omega

theorem mem_lastAtomOf_no_nl {x b : Nat} (hx : x ∈ lastAtomOf b) :
    x ≠ 10 ∧ x ≠ 13 := by
  rw [lastAtomOf] at hx
  split_ifs at hx with hl
  · rcases hx with _ | ⟨_, hx⟩
    · omega
    · exact absurd hx (List.not_mem_nil x)
  · rcases mem_escByte hx with h | h <;> omega

theorem atomOf_ne_nil (b : Nat) : atomOf b ≠ [] := by
  rw [atomOf]; split_ifs <;> simp [escByte]

theorem lastAtomOf_ne_nil (b : Nat) : lastAtomOf b ≠ [] := by
  rw [lastAtomOf]; split_ifs <;> simp [escByte]

/-- The last byte of a final atom is never trimmed and never an equals
    sign. -/
theorem lastAtomOf_getLast {b x : Nat} (h : (lastAtomOf b).getLast? = some x) :
    ¬(x = 13 ∨ x = 32 ∨ x = 9) ∧ x ≠ 61 := by
  rw [lastAtomOf] at h
  split_ifs at h with hl
  · simp only [List.getLast?_singleton, Option.some.injEq] at h
    omega
  · rw [escByte] at h
    simp only [List.getLast?_cons_cons, List.getLast?_singleton,
      Option.some.injEq] at h
    rw [hexDig] at h
    have : b % 16 < 16 := by omega
    split_ifs at h <;> omega

/-- The atoms encode the byte sequence, each atom the mid-line or final
    form of its byte. -/
inductive AtomsFor : List GoStr → GoStr → Prop
  | nil : AtomsFor [] []
  | cons (b : Nat) (a : GoStr) (A : List GoStr) (bs : GoStr) :
      b < 256 → (a = atomOf b ∨ a = lastAtomOf b) → AtomsFor A bs →
      AtomsFor (a :: A) (b :: bs)

/-- No byte that the end-of-line trim would discard, and no equals sign,
    stands last. -/
def lineEndOK (w : GoStr) : Prop :=
  ∀ x, w.getLast? = some x → ¬(x = 13 ∨ x = 32 ∨ x = 9) ∧ x ≠ 61

theorem lineEndOK_nil : lineEndOK [] := by
  intro x hx
  simp at hx

theorem dropWhile_rev_keep {w : GoStr} (hw : lineEndOK w) :
    w.reverse.dropWhile (fun b => decide (b = 13 ∨ b = 32 ∨ b = 9)) = w.reverse := by
  rcases hr : w.reverse with _ | ⟨x, rw2⟩
  · rfl
  · have hx : w.getLast? = some x := by
      rw [← List.head?_reverse, hr]
      rfl
    rw [List.dropWhile_cons, if_neg (by simp [(hw x hx).1])]

theorem trimRightWS_keep {w : GoStr} (hw : lineEndOK w) : trimRightWS w = w := by
  rw [trimRightWS, dropWhile_rev_keep hw, List.reverse_reverse]

theorem trimRightWS_cr {w : GoStr} (hw : lineEndOK w) :
    trimRightWS (w ++ [13]) = w := by
  rw [trimRightWS, List.reverse_append,
    show ([13] : GoStr).reverse ++ w.reverse = 13 :: w.reverse from rfl,
    List.dropWhile_cons, if_pos (by simp), dropWhile_rev_keep hw,
    List.reverse_reverse]

theorem trimRightWS_soft (w : GoStr) :
    trimRightWS (w ++ [61, 13]) = w ++ [61] := by
  rw [trimRightWS, List.reverse_append,
    show ([61, 13] : GoStr).reverse ++ w.reverse = 13 :: 61 :: w.reverse from rfl,
    List.dropWhile_cons, if_pos (by simp), List.dropWhile_cons, if_neg (by simp),
    show (61 :: w.reverse).reverse = w.reverse.reverse ++ [61] from by
      rw [List.reverse_cons],
    List.reverse_reverse]

theorem qpDecodeLine_crlf : qpDecodeLine [13, 10] = Except.ok [13, 10] := by decide

theorem qpDecodeLine_lf : qpDecodeLine [10] = Except.ok [10] := by decide

/-- Decoding a physical line that closes with a hard CRLF. -/
theorem qpDecodePiece_hardCR {w pb : GoStr} (hw : lineEndOK w)
    (hdec : ∀ tail, qpDecodeLine (w ++ tail) = consManyRes pb (qpDecodeLine tail)) :
    qpDecodePiece (w ++ [13]) true = Except.ok (pb ++ [13, 10]) := by
  have h13 : List.getLast? (w ++ [13]) = some 13 := by simp
  simp only [qpDecodePiece, trimRightWS_cr hw, if_true, h13]
  rw [if_neg (fun h => (hw 61 h).2 rfl)]
  rw [hdec [13, 10], qpDecodeLine_crlf]
  rfl

/-- Decoding a physical line that closes with a soft break. -/
theorem qpDecodePiece_soft {w pb : GoStr}
    (hdec : ∀ tail, qpDecodeLine (w ++ tail) = consManyRes pb (qpDecodeLine tail)) :
    qpDecodePiece (w ++ [61, 13]) true = Except.ok pb := by
  have h61 : List.getLast? (w ++ [61]) = some 61 := by simp
  simp only [qpDecodePiece, trimRightWS_soft w, if_true]
  rw [if_pos h61]
  rw [if_pos ?side]
  case side =>
    rw [show w ++ [61, 13] = (w ++ [61]) ++ [13] from by simp, List.drop_left]
    simp [goHasPre]
  rw [List.dropLast_concat]
  have hd := hdec []
  rw [List.append_nil] at hd
  rw [hd]
  simp [consManyRes, qpDecodeLine]

/-- Decoding the physical line closed by the newline appended at end of
    stream. -/
theorem qpDecodePiece_termLF {w pb : GoStr} (hw : lineEndOK w)
    (hdec : ∀ tail, qpDecodeLine (w ++ tail) = consManyRes pb (qpDecodeLine tail)) :
    qpDecodePiece w true = Except.ok (pb ++ [10]) := by
  simp only [qpDecodePiece, trimRightWS_keep hw, if_true]
  rw [if_neg (fun h => (hw 61 h).2 rfl)]
  rw [if_neg (fun h => (hw 13 h).1 (Or.inl rfl))]
  rw [hdec [10], qpDecodeLine_lf]
  rfl

theorem qpDecodePiece_empty_last : qpDecodePiece [] false = Except.ok [] := by decide

theorem qpDecodePieces_cons2 {p : GoStr} {d : GoStr} (c : GoStr)
    (rest : List GoStr) (hp : qpDecodePiece p true = Except.ok d) :
    qpDecodePieces (p :: c :: rest) = consManyRes d (qpDecodePieces (c :: rest)) := by
  rw [qpDecodePieces, hp]
  rcases qpDecodePieces (c :: rest) with e2 | d2 <;> rfl

theorem atomsFor_flatten_ne_nil {a : GoStr} {A : List GoStr} {b : Nat}
    (ha : a = atomOf b ∨ a = lastAtomOf b) :
    a ++ A.flatten ≠ [] := by
  rcases ha with h | h <;> rw [h] <;> intro hc
  · exact atomOf_ne_nil b (List.append_eq_nil.mp hc).1
  · exact lastAtomOf_ne_nil b (List.append_eq_nil.mp hc).1

theorem lineEndOK_drop {x y : GoStr} (h : lineEndOK (x ++ y)) :
    lineEndOK y := by
  intro z hz
  refine h z ?_
  rw [List.getLast?_append, hz]
  rfl

theorem atom_decode {b : Nat} {a : GoStr} (hb : b < 256)
    (ha : a = atomOf b ∨ a = lastAtomOf b) (rest : GoStr) :
    qpDecodeLine (a ++ rest) = consManyRes [b] (qpDecodeLine rest) := by
  rcases ha with h | h <;> rw [h]
  · exact qpDecodeLine_atom hb rest
  · exact qpDecodeLine_lastAtom hb rest

theorem atom_no_nl {b x : Nat} {a : GoStr} (ha : a = atomOf b ∨ a = lastAtomOf b)
    (hx : x ∈ a) : x ≠ 10 ∧ x ≠ 13 := by
  rcases ha with h | h <;> rw [h] at hx
  · exact mem_atomOf_no_nl hx
  · exact mem_lastAtomOf_no_nl hx

set_option maxHeartbeats 1000000 in
/-- Decoding a wrapped, hard-terminated encoded line followed by more
    stream: the line decodes to its bytes plus CRLF, independently of
    where the soft breaks fall. -/
theorem decode_wrap_hard {A : List GoStr} {bs : GoStr} (hA : AtomsFor A bs) :
    ∀ (pre pb : GoStr) (cur : Nat) (rest : GoStr),
    (∀ tail, qpDecodeLine (pre ++ tail) = consManyRes pb (qpDecodeLine tail)) →
    (∀ x ∈ pre, x ≠ 10 ∧ x ≠ 13) →
    lineEndOK (pre ++ A.flatten) →
    qpDecodePieces (goSplit 10 (pre ++ (wrapAtoms A cur ++ ([13, 10] ++ rest)))) =
      consManyRes (pb ++ (bs ++ [13, 10])) (qpDecodePieces (goSplit 10 rest)) := by
  induction hA with
  | nil =>
    intro pre pb cur rest hdec hpre hend
    simp only [List.flatten_nil, List.append_nil] at hend
    rw [show wrapAtoms [] cur = [] from rfl, List.nil_append]
    rw [show pre ++ ([13, 10] ++ rest) = (pre ++ [13]) ++ (10 :: rest) from by simp]
    rw [goSplit_append_no10 (pre ++ [13])
      (by intro x hx
          rcases List.mem_append.mp hx with h | h
          · exact (hpre x h).1
          · simp at h; omega)
      (10 :: rest) (goSplit_cons10 rest), List.append_nil]
    obtain ⟨c, t, hct⟩ : ∃ c t, goSplit 10 rest = c :: t := by
      rcases hv : goSplit 10 rest with _ | ⟨c, t⟩
      · exact absurd hv (goSplit_ne_nil 10 rest)
      · exact ⟨c, t, rfl⟩
    rw [hct, qpDecodePieces_cons2 c t (qpDecodePiece_hardCR hend hdec), ← hct]
    simp [consManyRes]
  | cons b a A2 bs2 hb ha hA2 ih =>
    intro pre pb cur rest hdec hpre hend
    simp only [List.flatten_cons, List.append_assoc] at hend
    rw [wrapAtoms]
    by_cases hbreak : cur + a.length > 75
    · rw [if_pos hbreak]
      simp only [List.append_assoc]
      rw [show pre ++ ([61, 13, 10] ++ (a ++ (wrapAtoms A2 a.length ++
            ([13, 10] ++ rest)))) =
          (pre ++ [61, 13]) ++
            (10 :: (a ++ (wrapAtoms A2 a.length ++ ([13, 10] ++ rest)))) from by
        simp]
      obtain ⟨c, t, hct⟩ : ∃ c t, goSplit 10
          (a ++ (wrapAtoms A2 a.length ++ ([13, 10] ++ rest))) = c :: t := by
        rcases hv : goSplit 10 (a ++ (wrapAtoms A2 a.length ++ ([13, 10] ++ rest)))
          with _ | ⟨c, t⟩
        · exact absurd hv (goSplit_ne_nil 10 _)
        · exact ⟨c, t, rfl⟩
      rw [goSplit_append_no10 (pre ++ [61, 13])
        (by intro x hx
            rcases List.mem_append.mp hx with h | h
            · exact (hpre x h).1
            · simp at h; omega)
        _ (by rw [goSplit_cons10, hct]), List.append_nil]
      rw [qpDecodePieces_cons2 c t (qpDecodePiece_soft hdec), ← hct]
      rw [ih a [b] a.length rest (fun tail => atom_decode hb ha tail)
        (fun x hx => atom_no_nl ha hx) (lineEndOK_drop (x := pre) hend)]
      rw [consManyRes_compose]
      simp
    · rw [if_neg hbreak]
      simp only [List.append_assoc]
      rw [show pre ++ (a ++ (wrapAtoms A2 (cur + a.length) ++ ([13, 10] ++ rest))) =
          (pre ++ a) ++ (wrapAtoms A2 (cur + a.length) ++ ([13, 10] ++ rest)) from by
        simp]
      rw [ih (pre ++ a) (pb ++ [b]) (cur + a.length) rest
        (fun tail => by
          rw [List.append_assoc, hdec (a ++ tail), atom_decode hb ha tail,
            consManyRes_compose])
        (fun x hx => by
          rcases List.mem_append.mp hx with h | h
          · exact hpre x h
          · exact atom_no_nl ha h)
        (by rw [List.append_assoc]; exact hend)]
      simp

theorem qpDecodePieces_single_empty : qpDecodePieces [[]] = Except.ok [] := by
  rw [qpDecodePieces, qpDecodePiece_empty_last]

set_option maxHeartbeats 1000000 in
/-- Decoding the final wrapped encoded line, closed by the newline the
    transfer pipeline appends at end of stream. -/
theorem decode_wrap_last {A : List GoStr} {bs : GoStr} (hA : AtomsFor A bs) :
    ∀ (pre pb : GoStr) (cur : Nat),
    (∀ tail, qpDecodeLine (pre ++ tail) = consManyRes pb (qpDecodeLine tail)) →
    (∀ x ∈ pre, x ≠ 10 ∧ x ≠ 13) →
    lineEndOK (pre ++ A.flatten) →
    qpDecodePieces (goSplit 10 (pre ++ (wrapAtoms A cur ++ [10]))) =
      Except.ok (pb ++ (bs ++ [10])) := by
  induction hA with
  | nil =>
    intro pre pb cur hdec hpre hend
    simp only [List.flatten_nil, List.append_nil] at hend
    rw [show wrapAtoms [] cur = [] from rfl, List.nil_append]
    rw [show pre ++ [10] = pre ++ (10 :: ([] : GoStr)) from rfl]
    rw [goSplit_append_no10 pre (fun x hx => (hpre x hx).1)
      (10 :: []) (goSplit_cons10 []), List.append_nil]
    rw [show goSplit 10 [] = [[]] from rfl]
    rw [qpDecodePieces_cons2 [] [] (qpDecodePiece_termLF hend hdec),
      qpDecodePieces_single_empty]
    simp [consManyRes]
  | cons b a A2 bs2 hb ha hA2 ih =>
    intro pre pb cur hdec hpre hend
    simp only [List.flatten_cons, List.append_assoc] at hend
    rw [wrapAtoms]
    by_cases hbreak : cur + a.length > 75
    · rw [if_pos hbreak]
      simp only [List.append_assoc]
      rw [show pre ++ ([61, 13, 10] ++ (a ++ (wrapAtoms A2 a.length ++ [10]))) =
          (pre ++ [61, 13]) ++
            (10 :: (a ++ (wrapAtoms A2 a.length ++ [10]))) from by simp]
      obtain ⟨c, t, hct⟩ : ∃ c t, goSplit 10
          (a ++ (wrapAtoms A2 a.length ++ [10])) = c :: t := by
        rcases hv : goSplit 10 (a ++ (wrapAtoms A2 a.length ++ [10]))
          with _ | ⟨c, t⟩
        · exact absurd hv (goSplit_ne_nil 10 _)
        · exact ⟨c, t, rfl⟩
      rw [goSplit_append_no10 (pre ++ [61, 13])
        (by intro x hx
            rcases List.mem_append.mp hx with h | h
            · exact (hpre x h).1
            · simp at h; omega)
        _ (by rw [goSplit_cons10, hct]), List.append_nil]
      rw [qpDecodePieces_cons2 c t (qpDecodePiece_soft hdec), ← hct]
      rw [ih a [b] a.length (fun tail => atom_decode hb ha tail)
        (fun x hx => atom_no_nl ha hx) (lineEndOK_drop (x := pre) hend)]
      simp [consManyRes]
    · rw [if_neg hbreak]
      simp only [List.append_assoc]
      rw [show pre ++ (a ++ (wrapAtoms A2 (cur + a.length) ++ [10])) =
          (pre ++ a) ++ (wrapAtoms A2 (cur + a.length) ++ [10]) from by simp]
      rw [ih (pre ++ a) (pb ++ [b]) (cur + a.length)
        (fun tail => by
          rw [List.append_assoc, hdec (a ++ tail), atom_decode hb ha tail,
            consManyRes_compose])
        (fun x hx => by
          rcases List.mem_append.mp hx with h | h
          · exact hpre x h
          · exact atom_no_nl ha h)
        (by rw [List.append_assoc]; exact hend)]
      simp

/-- The atoms of a line encode its bytes. -/
theorem atomsFor_lineAtoms : ∀ (L : GoStr), (∀ b ∈ L, b < 256) →
    AtomsFor (lineAtoms L) L := by
  intro L
  induction L with
  | nil => intro _; exact AtomsFor.nil
  | cons b rest ih =>
    intro hb
    rcases rest with _ | ⟨c, rest2⟩
    · exact AtomsFor.cons b _ [] [] (hb b (List.mem_cons_self b []))
        (Or.inr rfl) AtomsFor.nil
    · rw [lineAtoms]
      exact AtomsFor.cons b _ _ _ (hb b (List.mem_cons_self b _)) (Or.inl rfl)
        (ih (fun x hx => hb x (List.mem_cons_of_mem b hx)))

/-- The flattened atoms of a nonempty line are nonempty. -/
theorem lineAtoms_flatten_ne_nil : ∀ (b : Nat) (rest : GoStr),
    (lineAtoms (b :: rest)).flatten ≠ [] := by
  intro b rest
  rcases rest with _ | ⟨c, rest2⟩
  · rw [show lineAtoms [b] = [lastAtomOf b] from rfl]
    simp [lastAtomOf_ne_nil b]
  · rw [lineAtoms, List.flatten_cons]
    intro hc
    exact atomOf_ne_nil b (List.append_eq_nil.mp hc).1

/-- The final atom of a nonempty line keeps the line end clean. -/
theorem lineEndOK_lineAtoms : ∀ L : GoStr, lineEndOK ((lineAtoms L).flatten) := by
  intro L
  induction L with
  | nil => exact lineEndOK_nil
  | cons b rest ih =>
    rcases rest with _ | ⟨c, rest2⟩
    · rw [show lineAtoms [b] = [lastAtomOf b] from rfl]
      intro x hx
      rw [show ([lastAtomOf b] : List GoStr).flatten = lastAtomOf b from by simp] at hx
      exact lastAtomOf_getLast hx
    · rw [lineAtoms, List.flatten_cons]
      intro x hx
      refine ih x ?_
      rw [List.getLast?_append] at hx
      rcases hg : ((lineAtoms (c :: rest2)).flatten).getLast? with _ | w
      · rcases hfl : (lineAtoms (c :: rest2)).flatten with _ | ⟨y, ys⟩
        · exact absurd hfl (lineAtoms_flatten_ne_nil c rest2)
        · rw [hfl] at hg
          simp [List.getLast?] at hg
      · rw [hg] at hx
        simp only [Option.or_some, Option.some.injEq] at hx
        rw [hx]

/-- An empty already-decoded portion is neutral. -/
theorem qpDecodeLine_nil_consMany :
    ∀ tail, qpDecodeLine ([] ++ tail) = consManyRes [] (qpDecodeLine tail) := by
  intro tail
  rw [List.nil_append]
  rcases h : qpDecodeLine tail with e | d <;> rfl

/-- Decoding the whole encoded stream, line by line. -/
theorem qpEncodeLines_decode : ∀ Ls : List GoStr,
    (∀ L ∈ Ls, ∀ b ∈ L, b < 256) → Ls ≠ [] →
    qpDecodePieces (goSplit 10 (qpEncodeLines Ls ++ [10])) =
      Except.ok (joinCRLF Ls ++ [10]) := by
  intro Ls
  induction Ls with
  | nil => intro _ hne; exact absurd rfl hne
  | cons l rest ih =>
    intro hb _
    have hbl : ∀ b ∈ l, b < 256 := hb l (List.mem_cons_self l rest)
    rcases rest with _ | ⟨c, rest2⟩
    · rw [show qpEncodeLines [l] = wrapAtoms (lineAtoms l) 0 from rfl,
        show joinCRLF [l] = l from rfl]
      exact decode_wrap_last (atomsFor_lineAtoms l hbl) [] [] 0
        qpDecodeLine_nil_consMany
        (fun x hx => absurd hx (List.not_mem_nil x))
        (lineEndOK_lineAtoms l)
    · rw [show qpEncodeLines (l :: c :: rest2) ++ [10] =
          [] ++ (wrapAtoms (lineAtoms l) 0 ++
            ([13, 10] ++ (qpEncodeLines (c :: rest2) ++ [10]))) from by
        rw [qpEncodeLines, encLine]; simp]
      rw [decode_wrap_hard (atomsFor_lineAtoms l hbl) [] [] 0
        (qpEncodeLines (c :: rest2) ++ [10])
        qpDecodeLine_nil_consMany
        (fun x hx => absurd hx (List.not_mem_nil x))
        (lineEndOK_lineAtoms l)]
      rw [ih (fun L hL => hb L (List.mem_cons_of_mem l hL)) (by simp)]
      rw [show joinCRLF (l :: c :: rest2) =
          l ++ [13, 10] ++ joinCRLF (c :: rest2) from rfl]
      simp [consManyRes]

theorem hexDig_ascii (n : Nat) (h : n < 16) : hexDig n ≤ 127 := by
  rw [hexDig]; split_ifs <;> omega

theorem mem_escByte_ascii {x b : Nat} (hb : b < 256) (hx : x ∈ escByte b) :
    x ≤ 127 := by
  rw [escByte] at hx
  simp only [List.mem_cons, List.not_mem_nil, or_false] at hx
  rcases hx with h | h | h
  · omega
  · rw [h]; exact hexDig_ascii _ (by omega)
  · rw [h]; exact hexDig_ascii _ (by omega)

theorem mem_atomOf_ascii {x b : Nat} (hb : b < 256) (hx : x ∈ atomOf b) :
    x ≤ 127 := by
  rw [atomOf] at hx
  split_ifs at hx with h
  · have h2 : (33 ≤ b ∧ b ≤ 126 ∧ b ≠ 61) ∨ b = 32 ∨ b = 9 := h
    simp only [List.mem_singleton] at hx
    rcases h2 with h1 | h1 | h1 <;> omega
  · exact mem_escByte_ascii hb hx

theorem mem_lastAtomOf_ascii {x b : Nat} (hb : b < 256) (hx : x ∈ lastAtomOf b) :
    x ≤ 127 := by
  rw [lastAtomOf] at hx
  split_ifs at hx with h
  · simp only [List.mem_singleton] at hx; omega
  · exact mem_escByte_ascii hb hx

theorem mem_lineAtoms_ascii : ∀ (L : GoStr), (∀ b ∈ L, b < 256) →
    ∀ a ∈ lineAtoms L, ∀ x ∈ a, x ≤ 127 := by
  intro L
  induction L with
  | nil => intro _ a ha; exact absurd ha (List.not_mem_nil a)
  | cons b rest ih =>
    intro hb a ha x hx
    rcases rest with _ | ⟨c, rest2⟩
    · rw [show lineAtoms [b] = [lastAtomOf b] from rfl] at ha
      simp only [List.mem_singleton] at ha
      rw [ha] at hx
      exact mem_lastAtomOf_ascii (hb b (List.mem_cons_self b _)) hx
    · rw [lineAtoms] at ha
      rcases List.mem_cons.mp ha with h | h
      · rw [h] at hx
        exact mem_atomOf_ascii (hb b (List.mem_cons_self b _)) hx
      · exact ih (fun y hy => hb y (List.mem_cons_of_mem b hy)) a h x hx

theorem mem_wrapAtoms_ascii : ∀ (A : List GoStr) (cur : Nat),
    (∀ a ∈ A, ∀ x ∈ a, x ≤ 127) → ∀ x ∈ wrapAtoms A cur, x ≤ 127 := by
  intro A
  induction A with
  | nil => intro cur _ x hx; simp [wrapAtoms] at hx
  | cons a rest ih =>
    intro cur hA x hx
    rw [wrapAtoms] at hx
    split_ifs at hx with h
    · rcases List.mem_append.mp hx with h1 | h1
      · rcases List.mem_append.mp h1 with h2 | h2
        · simp only [List.mem_cons, List.not_mem_nil, or_false] at h2
          rcases h2 with h3 | h3 | h3 <;> omega
        · exact hA a (List.mem_cons_self a rest) x h2
      · exact ih a.length (fun y hy => hA y (List.mem_cons_of_mem a hy)) x h1
    · rcases List.mem_append.mp hx with h1 | h1
      · exact hA a (List.mem_cons_self a rest) x h1
      · exact ih (cur + a.length) (fun y hy => hA y (List.mem_cons_of_mem a hy)) x h1

theorem mem_qpEncodeLines_ascii : ∀ (Ls : List GoStr),
    (∀ L ∈ Ls, ∀ b ∈ L, b < 256) → ∀ x ∈ qpEncodeLines Ls, x ≤ 127 := by
  intro Ls
  induction Ls with
  | nil => intro _ x hx; simp [qpEncodeLines] at hx
  | cons l rest ih =>
    intro hb x hx
    have hl : ∀ a ∈ lineAtoms l, ∀ y ∈ a, y ≤ 127 :=
      mem_lineAtoms_ascii l (hb l (List.mem_cons_self l rest))
    rcases rest with _ | ⟨c, rest2⟩
    · rw [show qpEncodeLines [l] = encLine l from rfl, encLine] at hx
      exact mem_wrapAtoms_ascii (lineAtoms l) 0 hl x hx
    · rw [qpEncodeLines] at hx
      rcases List.mem_append.mp hx with h1 | h1
      · rcases List.mem_append.mp h1 with h2 | h2
        · exact mem_wrapAtoms_ascii (lineAtoms l) 0 hl x (by rwa [encLine] at h2)
        · simp only [List.mem_cons, List.not_mem_nil, or_false] at h2
          rcases h2 with h3 | h3 <;> omega
      · exact ih (fun L hL => hb L (List.mem_cons_of_mem l hL)) x h1

theorem splitCRLF_ne_nil : ∀ s : GoStr, splitCRLF s ≠ [] := by
  intro s
  rcases s with _ | ⟨b, rest⟩
  · simp [splitCRLF]
  · rcases rest with _ | ⟨c, rest2⟩
    · rw [splitCRLF]; split_ifs <;> simp
    · rw [splitCRLF]; split_ifs <;> try simp
      split <;> simp

theorem splitCRLF_bound : ∀ (s : GoStr), (∀ b ∈ s, b < 256) →
    ∀ L ∈ splitCRLF s, ∀ b ∈ L, b < 256 := by
  intro s
  induction s using splitCRLF.induct with
  | case1 =>
    intro _ L hL x hx
    simp only [splitCRLF, List.mem_singleton] at hL
    rw [hL] at hx
    exact absurd hx (List.not_mem_nil x)
  | case2 b h =>
    intro _ L hL x hx
    rw [splitCRLF, if_pos h] at hL
    simp only [List.mem_cons, List.not_mem_nil, or_false, or_self] at hL
    rw [hL] at hx
    exact absurd hx (List.not_mem_nil x)
  | case3 b h =>
    intro hs L hL x hx
    rw [splitCRLF, if_neg h] at hL
    simp only [List.mem_singleton] at hL
    rw [hL] at hx
    simp only [List.mem_singleton] at hx
    rw [hx]
    exact hs b (List.mem_cons_self b [])
  | case4 rest ih =>
    intro hs L hL x hx
    rw [show splitCRLF (13 :: 10 :: rest) = [] :: splitCRLF rest from by
      rw [splitCRLF]; simp] at hL
    rcases List.mem_cons.mp hL with h1 | h1
    · rw [h1] at hx; exact absurd hx (List.not_mem_nil x)
    · exact ih (fun y hy => hs y
        (List.mem_cons_of_mem 13 (List.mem_cons_of_mem 10 hy))) L h1 x hx
  | case5 c rest h ih =>
    intro hs L hL x hx
    rw [show splitCRLF (13 :: c :: rest) = [] :: splitCRLF (c :: rest) from by
      rw [splitCRLF]; simp [h]] at hL
    rcases List.mem_cons.mp hL with h1 | h1
    · rw [h1] at hx; exact absurd hx (List.not_mem_nil x)
    · exact ih (fun y hy => hs y (List.mem_cons_of_mem 13 hy)) L h1 x hx
  | case6 c rest h ih =>
    intro hs L hL x hx
    rw [show splitCRLF (10 :: c :: rest) = [] :: splitCRLF (c :: rest) from by
      rw [splitCRLF]; simp] at hL
    rcases List.mem_cons.mp hL with h1 | h1
    · rw [h1] at hx; exact absurd hx (List.not_mem_nil x)
    · exact ih (fun y hy => hs y (List.mem_cons_of_mem 10 hy)) L h1 x hx
  | case7 b c rest h1 h2 hd t hv ih =>
    intro hs L hL x hx
    rw [show splitCRLF (b :: c :: rest) = (b :: hd) :: t from by
      rw [splitCRLF, if_neg h1, if_neg h2, hv]] at hL
    have ihs : ∀ L2 ∈ splitCRLF (c :: rest), ∀ y ∈ L2, y < 256 :=
      ih (fun y hy => hs y (List.mem_cons_of_mem b hy))
    rcases List.mem_cons.mp hL with hL1 | hL1
    · rw [hL1] at hx
      rcases List.mem_cons.mp hx with hx1 | hx1
      · rw [hx1]; exact hs b (List.mem_cons_self b _)
      · exact ihs hd (by rw [hv]; exact List.mem_cons_self hd t) x hx1
    · exact ihs L (by rw [hv]; exact List.mem_cons_of_mem hd hL1) x hx
  | case8 b c rest h1 h2 hv ih =>
    intro hs L hL x hx
    exact absurd hv (splitCRLF_ne_nil (c :: rest))

set_option maxHeartbeats 400000 in
/-- Go quotedprintable writer then reader: the decoded stream is the
    CRLF-normalized body plus the newline appended at end of stream. -/
theorem qp_roundtrip {body : GoStr} (hb : ∀ b ∈ body, b < 256) :
    qpDecode (qpEncode body ++ [10]) = Except.ok (toCRLF body ++ [10]) := by
  rw [qpDecode, qpEncode, toCRLF]
  exact qpEncodeLines_decode (splitCRLF body) (splitCRLF_bound body hb)
    (splitCRLF_ne_nil body)

/-- The writer emits only ASCII, so the reading side's non-ASCII filter
    leaves its output alone. -/
theorem filterAscii_qpEncode {body : GoStr} (hb : ∀ b ∈ body, b < 256) :
    filterAscii (qpEncode body) = qpEncode body := by
  rw [filterAscii, List.filter_eq_self]
  intro x hx
  exact decide_eq_true (mem_qpEncodeLines_ascii (splitCRLF body)
    (splitCRLF_bound body hb) x (by rwa [qpEncode] at hx))

/-- Errors of the Go encoding/base64 decoder that matter to the caller:
    CorruptInputError (retried by decodeBody's text loop) and
    io.ErrUnexpectedEOF (a truncated final quantum). -/
inductive B64Err where
  | corrupt
  | eof
deriving DecidableEq

/-- The value of one base64 alphabet byte (StdEncoding). -/
def b64Val (b : Nat) : Option Nat :=
  if 65 ≤ b ∧ b ≤ 90 then some (b - 65)
  else if 97 ≤ b ∧ b ≤ 122 then some (b - 71)
  else if 48 ≤ b ∧ b ≤ 57 then some (b + 4)
  else if b = 43 then some 62
  else if b = 47 then some 63
  else none

/-- The newline filter the decoder applies to its input. -/
def b64NoNL (s : GoStr) : GoStr := s.filter (fun b => decide (¬(b = 10 ∨ b = 13)))

def b64Bytes1 (v0 v1 : Nat) : GoStr := [v0 * 4 + v1 / 16]
def b64Bytes2 (v0 v1 v2 : Nat) : GoStr :=
  [v0 * 4 + v1 / 16, (v1 % 16) * 16 + v2 / 4]
def b64Bytes3 (v0 v1 v2 v3 : Nat) : GoStr :=
  [v0 * 4 + v1 / 16, (v1 % 16) * 16 + v2 / 4, (v2 % 4) * 64 + v3]

/-- Go encoding/base64 StdEncoding decoding of a newline-free stream, as
    driven by ioutil.ReadAll: the decoded bytes, the terminal error if
    any, and the bytes of the stream not yet consumed when the error
    surfaced (on CorruptInputError the decoder has consumed at least
    through the offending byte; we model exactly that minimum, which is
    the worst case for the caller's retry loop). q holds the values of
    the current partial quantum. -/
def b64Run : List Nat → GoStr → GoStr × Option B64Err × GoStr
  | q, [] => if q = [] then ([], none, []) else ([], some B64Err.eof, [])
  | q, b :: rest =>
    if b = 61 then
      match q with
      | [v0, v1] =>
        match rest with
        | b2 :: rest2 =>
          if b2 = 61 then
            if rest2 = [] then (b64Bytes1 v0 v1, none, [])
            else (b64Bytes1 v0 v1, some B64Err.corrupt, rest2.drop 1)
          else ([], some B64Err.corrupt, rest2)
        | [] => ([], some B64Err.eof, [])
      | [v0, v1, v2] =>
        if rest = [] then (b64Bytes2 v0 v1 v2, none, [])
        else (b64Bytes2 v0 v1 v2, some B64Err.corrupt, rest.drop 1)
      | _ => ([], some B64Err.corrupt, rest)
    else
      match b64Val b with
      | none => ([], some B64Err.corrupt, rest)
      | some v =>
        match q with
        | [v0, v1, v2] =>
          match b64Run [] rest with
          | (d, e, r) => (b64Bytes3 v0 v1 v2 v ++ d, e, r)
        | _ => b64Run (q ++ [v]) rest


theorem b64Run_corrupt_lt : ∀ (s : GoStr) (q : List Nat),
    (b64Run q s).2.1 = some B64Err.corrupt →
    (b64Run q s).2.2.length < s.length := by
  intro s
  induction s with
  | nil =>
    intro q h
    rw [b64Run] at h
    split_ifs at h
    all_goals simp at h
  | cons b rest ih =>
    intro q h
    rcases q with _ | ⟨v0, q1⟩
    · simp only [b64Run] at h ⊢
      by_cases h61 : b = 61
      · rw [if_pos h61] at h ⊢
        simp
      · rw [if_neg h61] at h ⊢
        rcases hv : b64Val b with _ | v
        · simp only [hv] at h ⊢
          simp
        · simp only [hv] at h ⊢
          exact Nat.lt_trans (ih _ h) (by simp)
    rcases q1 with _ | ⟨v1, q2⟩
    · simp only [b64Run] at h ⊢
      by_cases h61 : b = 61
      · rw [if_pos h61] at h ⊢
        simp
      · rw [if_neg h61] at h ⊢
        rcases hv : b64Val b with _ | v
        · simp only [hv] at h ⊢
          simp
        · simp only [hv] at h ⊢
          exact Nat.lt_trans (ih _ h) (by simp)
    rcases q2 with _ | ⟨v2, q3⟩
    · simp only [b64Run] at h ⊢
      by_cases h61 : b = 61
      · rw [if_pos h61] at h ⊢
        rcases rest with _ | ⟨b2, rest2⟩
        · simp only at h
          exact absurd h (by simp)
        · simp only at h ⊢
          by_cases hb2 : b2 = 61
          · rw [if_pos hb2] at h ⊢
            by_cases hr2 : rest2 = []
            · rw [if_pos hr2] at h
              exact absurd h (by simp)
            · rw [if_neg hr2] at h ⊢
              simp only [List.length_drop, List.length_cons]
              omega
          · rw [if_neg hb2] at h ⊢
            simp only [List.length_cons]
            omega
      · rw [if_neg h61] at h ⊢
        rcases hv : b64Val b with _ | v
        · simp only [hv] at h ⊢
          simp
        · simp only [hv] at h ⊢
          exact Nat.lt_trans (ih _ h) (by simp)
    rcases q3 with _ | ⟨v3, q4⟩
    · simp only [b64Run] at h ⊢
      by_cases h61 : b = 61
      · rw [if_pos h61] at h ⊢
        by_cases hr : rest = []
        · rw [if_pos hr] at h
          exact absurd h (by simp)
        · rw [if_neg hr] at h ⊢
          simp only [List.length_drop, List.length_cons]
          omega
      · rw [if_neg h61] at h ⊢
        rcases hv : b64Val b with _ | v
        · simp only [hv] at h ⊢
          simp
        · simp only [hv] at h ⊢
          rcases hr : b64Run [] rest with ⟨d, e, r⟩
          simp only [hr] at h ⊢
          have hc : (b64Run [] rest).2.1 = some B64Err.corrupt := by
            rw [hr]
            exact h
          have hlt := ih [] hc
          rw [hr] at hlt
          exact Nat.lt_trans hlt (by simp)
    · simp only [b64Run] at h ⊢
      by_cases h61 : b = 61
      · rw [if_pos h61] at h ⊢
        simp
      · rw [if_neg h61] at h ⊢
        rcases hv : b64Val b with _ | v
        · simp only [hv] at h ⊢
          simp
        · simp only [hv] at h ⊢
          exact Nat.lt_trans (ih _ h) (by simp)

def b64ErrMsg : B64Err → GoStr
  | B64Err.corrupt => gs "illegal base64 data"
  | B64Err.eof => gs "unexpected EOF"

def textReadLoop : Nat → GoStr → GoStr → Except GoStr GoStr
  | 0, _, _ => Except.error (gs "loop did not terminate")
  | fuel + 1, s, acc =>
    match b64Run [] s with
    | (d, none, _) => Except.ok (acc ++ d)
    | (d, some B64Err.corrupt, r) => textReadLoop fuel r (acc ++ d)
    | (_, some B64Err.eof, _) => Except.error (gs "unexpected EOF")

theorem textReadLoop_fuel : ∀ (n : Nat) (s : GoStr), s.length ≤ n →
    ∀ (acc : GoStr) (f1 f2 : Nat), n < f1 → n < f2 →
    textReadLoop f1 s acc = textReadLoop f2 s acc := by
  intro n
  induction n using Nat.strong_induction_on with
  | _ n ih =>
    intro s hs acc f1 f2 h1 h2
    rcases f1 with _ | g1
    · omega
    rcases f2 with _ | g2
    · omega
    rw [textReadLoop, textReadLoop]
    rcases hr : b64Run [] s with ⟨d, e, r⟩
    rcases e with _ | err
    · simp only [hr]
    · rcases err with _ | _
      · simp only [hr]
        have hc : (b64Run [] s).2.1 = some B64Err.corrupt := by
          rw [hr]
        have hlt := b64Run_corrupt_lt s [] hc
        rw [hr] at hlt
        have hlt2 : r.length < s.length := by simpa using hlt
        exact ih r.length (by omega) r (le_refl _) (acc ++ d)
          g1 g2 (by omega) (by omega)
      · simp only [hr]

theorem textReadLoop_empty (acc : GoStr) (fuel : Nat) :
    textReadLoop (fuel + 1) [] acc = Except.ok acc := by
  rw [textReadLoop]
  simp [b64Run]

/-- C10: The retry loop in decodeBody's text branch (src/mail.go:409-421)
    terminates on every finite input: a base64 corrupt-input error always
    leaves strictly fewer unconsumed bytes than the iteration started
    with, the loop's outcome is the same under any iteration budget
    larger than the stream length (so the unbounded Go loop reaches that
    outcome), and once the stream is exhausted the loop exits without
    error, keeping the bytes read so far. -/
theorem decode_body_loop_total :
    (∀ (s : GoStr) (q : List Nat), (b64Run q s).2.1 = some B64Err.corrupt →
      (b64Run q s).2.2.length < s.length) ∧
    (∀ (s acc : GoStr) (f1 f2 : Nat), s.length < f1 → s.length < f2 →
      textReadLoop f1 s acc = textReadLoop f2 s acc) ∧
    (∀ (acc : GoStr) (fuel : Nat),
      textReadLoop (fuel + 1) [] acc = Except.ok acc) :=
  ⟨fun s q h => b64Run_corrupt_lt s q h,
   fun s acc f1 f2 h1 h2 =>
     textReadLoop_fuel s.length s (le_refl _) acc f1 f2 h1 h2,
   fun acc fuel => textReadLoop_empty acc fuel⟩

/-- Witness for C10 at concrete inputs: one corrupt byte strictly
    shrinks the stream, two sufficient budgets agree, and the exhausted
    stream exits cleanly. -/
theorem decode_body_loop_total_witness :
    (b64Run [] (gs "!QUJD")).2.1 = some B64Err.corrupt ∧
    (b64Run [] (gs "!QUJD")).2.2.length < (gs "!QUJD").length ∧
    (gs "!QUJD").length < 6 ∧
    textReadLoop 6 (gs "!QUJD") [] = textReadLoop 9 (gs "!QUJD") [] ∧
    textReadLoop 4 [] (gs "x") = Except.ok (gs "x") :=
  ⟨by decide,
   decode_body_loop_total.1 (gs "!QUJD") [] (by decide),
   by decide,
   decode_body_loop_total.2.1 (gs "!QUJD") [] 6 9 (by decide) (by decide),
   decode_body_loop_total.2.2 (gs "x") 3⟩


/-- textproto.MIMEHeader: canonical keys to value lists. -/
abbrev MIMEHdr := List (GoStr × List GoStr)

/-- textproto.MIMEHeader.Get: the first value stored under the
    (canonical) key, or the empty string. -/
def hGet (h : MIMEHdr) (key : GoStr) : GoStr :=
  match h.find? (fun kv => decide (kv.1 = key)) with
  | some kv => kv.2.headD []
  | none => []

/-- Go map lookup in a parameter map: the value, or the empty string. -/
def lookupParam (ps : List (GoStr × GoStr)) (k : GoStr) : GoStr :=
  match ps.find? (fun kv => decide (kv.1 = k)) with
  | some kv => kv.2
  | none => []

/-- ioutil.ReadAll over the reader decodeTransfer builds: the plain
    reader yields its stream, the quoted-printable reader decodes after
    the non-ASCII filter and the end-of-stream newline, the base64
    reader decodes after the non-ASCII filter and its own newline
    filter (error text modelled without Go's byte offset), and the
    failReader yields its stored error. -/
def transferReadAll : TransferReader → Except GoStr GoStr
  | TransferReader.plain r => Except.ok r
  | TransferReader.qp r => qpDecode (filterAscii r ++ [10])
  | TransferReader.b64 r =>
    match b64Run [] (b64NoNL (filterAscii r)) with
    | (d, none, _) => Except.ok d
    | (_, some e, _) => Except.error (b64ErrMsg e)
  | TransferReader.fail msg => Except.error msg

/-- The read performed by the text branch of decodeBody: for a base64
    transfer encoding this is the retry loop (run here with enough fuel
    to reach its fixpoint), every other reader is read once. -/
def textRead (r : GoStr) (label : GoStr) : Except GoStr GoStr :=
  match decodeTransfer r label with
  | TransferReader.b64 s =>
    textReadLoop ((b64NoNL (filterAscii s)).length + 1) (b64NoNL (filterAscii s)) []
  | tr => transferReadAll tr

/-- src/mail.go decodeBody lines 380-392: the attachment filename, from
    the content-type name parameter, else from the Content-Disposition
    filename parameter when that header is present. -/
def foundFilename (env : Env) (h : MIMEHdr) (ctp : List (GoStr × GoStr)) :
    Except GoStr GoStr :=
  let filename := lookupParam ctp (gs "name")
  if filename = [] then
    let cdh := hGet h (gs "Content-Disposition")
    if cdh = [] then Except.ok []
    else match env.parseMediaTy cdh with
      | Except.error _ => Except.error (gs "invalid content-disposition: " ++ cdh)
      | Except.ok (_, cdp) => Except.ok (lookupParam cdp (gs "filename"))
  else Except.ok filename

/-- The sequential walk of multipart sub-parts (the loop of decodeBody
    lines 439-452): the first error aborts, otherwise each part's result
    threads into the next. -/
def foldParts (g : Message → (MIMEHdr × GoStr) → Except GoStr Message) :
    List (MIMEHdr × GoStr) → Except GoStr Message → Except GoStr Message
  | [], acc => acc
  | p :: rest, acc =>
    match acc with
    | Except.error e => Except.error e
    | Except.ok m2 => foldParts g rest (g m2 p)

/-- src/mail.go decodeBody: parse the content type (empty defaults to
    text/plain); a part with a filename becomes an attachment from the
    transfer-decoded raw bytes; text/plain and text/html run the retry
    read, then the charset decode, and append to Body or HTML; multipart
    recurses into each sub-part (the Go recursion is bounded by the
    nesting depth of the input, carried here as fuel); anything else is
    ignored. -/
def decodeBody (env : Env) : Nat → Message → GoStr → MIMEHdr → Except GoStr Message
  | 0, _, _, _ => Except.error (gs "multipart nesting too deep")
  | fuel + 1, m, r, h =>
    let cth := if hGet h (gs "Content-Type") = [] then gs "text/plain"
               else hGet h (gs "Content-Type")
    match env.parseMediaTy cth with
    | Except.error _ => Except.error (gs "invalid content-type: " ++ cth)
    | Except.ok (ct, ctp) =>
      match foundFilename env h ctp with
      | Except.error e => Except.error e
      | Except.ok filename =>
        if filename ≠ [] then
          match decodeHeader env filename with
          | Except.error e => Except.error (gs "decode filename: " ++ e)
          | Except.ok name =>
            match transferReadAll (decodeTransfer r
                (hGet h (gs "Content-Transfer-Encoding"))) with
            | Except.error e => Except.error (gs "read attachment: " ++ e)
            | Except.ok data =>
              Except.ok { m with Parts := m.Parts ++ [{ Name := name, Data := data }] }
        else if ct = gs "text/plain" ∨ ct = gs "text/html" then
          match textRead r (hGet h (gs "Content-Transfer-Encoding")) with
          | Except.error e => Except.error (gs "read body: " ++ e)
          | Except.ok buf =>
            match decodeCharset env buf (lookupParam ctp (gs "charset")) with
            | Except.error e => Except.error (gs "charsetDecode: " ++ e)
            | Except.ok body =>
              if ct = gs "text/html" then Except.ok { m with HTML := m.HTML ++ body }
              else Except.ok { m with Body := m.Body ++ body }
        else if goHasPre ct (gs "multipart/") then
          match env.multipartSplit r (lookupParam ctp (gs "boundary")) with
          | Except.error e => Except.error (gs "next part: " ++ e)
          | Except.ok parts =>
            foldParts (fun m2 part => decodeBody env fuel m2 part.2 part.1)
              parts (Except.ok m)
        else Except.ok m

/-- Claim C9: a MIME leaf whose headers determine a filename (the
    content-type name parameter, else the Content-Disposition filename
    parameter) makes decodeBody append exactly one Part, named by the
    header-word-decoded filename, holding the transfer-decoded raw bytes
    with no charset decoding applied, and leave Body and HTML untouched. -/
theorem decode_body_attachment (env : Env) (fuel : Nat) (m : Message)
    (r : GoStr) (h : MIMEHdr) (ct : GoStr) (ctp : List (GoStr × GoStr))
    (fname name data : GoStr)
    (hct : env.parseMediaTy (if hGet h (gs "Content-Type") = [] then
        gs "text/plain" else hGet h (gs "Content-Type")) = Except.ok (ct, ctp))
    (hfn : foundFilename env h ctp = Except.ok fname)
    (hne : fname ≠ [])
    (hdec : decodeHeader env fname = Except.ok name)
    (hread : transferReadAll (decodeTransfer r
        (hGet h (gs "Content-Transfer-Encoding"))) = Except.ok data) :
    decodeBody env (fuel + 1) m r h =
      Except.ok { m with Parts := m.Parts ++ [{ Name := name, Data := data }] } := by
  rw [decodeBody]
  simp only [hct]
  simp only [hfn]
  rw [if_pos hne]
  simp only [hdec]
  simp only [hread]

/-- The zero Message that ReadMessage starts from (new(Message)). -/
def msg0 : Message where
  ID := []
  ReturnPath := []
  From := []
  To := []
  CC := []
  Subject := []
  Date := 0
  IsHTML := false
  HTML := []
  Body := []
  Parts := []
  Headers := []

/-- The headers of the C9 witness part: an octet-stream with a name
    parameter and base64 transfer encoding. -/
def hdr9 : MIMEHdr :=
  [(gs "Content-Type", [gs "application/octet-stream; name=\"a.txt\""]),
   (gs "Content-Transfer-Encoding", [gs "base64"])]

/-- Witness for C9: the octet-stream part named a.txt carrying base64
    aGVsbG8= decodes to the single attachment Part a.txt / hello. -/
theorem decode_body_attachment_witness :
    decodeBody idEnv (0 + 1) msg0 (gs "aGVsbG8=") hdr9 =
      Except.ok { msg0 with Parts := msg0.Parts ++
        [{ Name := gs "a.txt", Data := gs "hello" }] } :=
  decode_body_attachment idEnv 0 msg0 (gs "aGVsbG8=") hdr9
    (gs "application/octet-stream") [(gs "name", gs "a.txt")]
    (gs "a.txt") (gs "a.txt") (gs "hello")
    (by decide) (by decide) (by decide) (by decide) (by decide)





/-- The Message fields decodeBody never writes (it only touches Body,
    HTML and Parts). -/
def sameEnvelope (a b : Message) : Prop :=
  a.ID = b.ID ∧ a.ReturnPath = b.ReturnPath ∧ a.From = b.From ∧
  a.To = b.To ∧ a.CC = b.CC ∧ a.Subject = b.Subject ∧ a.Date = b.Date ∧
  a.IsHTML = b.IsHTML ∧ a.Headers = b.Headers

theorem sameEnvelope_refl (m : Message) : sameEnvelope m m :=
  ⟨rfl, rfl, rfl, rfl, rfl, rfl, rfl, rfl, rfl⟩

theorem sameEnvelope_trans {a b c : Message} (h1 : sameEnvelope a b)
    (h2 : sameEnvelope b c) : sameEnvelope a c := by
  rcases h1 with ⟨a1, a2, a3, a4, a5, a6, a7, a8, a9⟩
  rcases h2 with ⟨b1, b2, b3, b4, b5, b6, b7, b8, b9⟩
  exact ⟨a1.trans b1, a2.trans b2, a3.trans b3, a4.trans b4, a5.trans b5,
    a6.trans b6, a7.trans b7, a8.trans b8, a9.trans b9⟩

theorem foldParts_error (g : Message → (MIMEHdr × GoStr) → Except GoStr Message) :
    ∀ (l : List (MIMEHdr × GoStr)) (e : GoStr),
      foldParts g l (Except.error e) = Except.error e := by
  intro l e
  rcases l with _ | ⟨p, rest⟩ <;> rfl

theorem foldParts_envelope (g : Message → (MIMEHdr × GoStr) → Except GoStr Message)
    (hg : ∀ (ma : Message) (p : MIMEHdr × GoStr) (m3 : Message),
      g ma p = Except.ok m3 → sameEnvelope m3 ma) :
    ∀ (l : List (MIMEHdr × GoStr)) (acc : Except GoStr Message) (m2 : Message),
      foldParts g l acc = Except.ok m2 →
      ∀ m, acc = Except.ok m → sameEnvelope m2 m := by
  intro l
  induction l with
  | nil =>
    intro acc m2 hf m ha
    rw [foldParts] at hf
    rw [ha] at hf
    simp only [Except.ok.injEq] at hf
    rw [← hf]
    exact sameEnvelope_refl m
  | cons p rest ihl =>
    intro acc m2 hf m ha
    rw [foldParts.eq_def] at hf
    simp only [ha] at hf
    rcases hgp : g m p with e | m3
    · rw [hgp, foldParts_error] at hf
      exact absurd hf (by simp)
    · rw [hgp] at hf
      exact sameEnvelope_trans (ihl (Except.ok m3) m2 hf m3 rfl) (hg m p m3 hgp)

set_option maxHeartbeats 800000 in
/-- decodeBody leaves every field but Body, HTML and Parts unchanged. -/
theorem decodeBody_envelope (env : Env) : ∀ (fuel : Nat) (m : Message) (r : GoStr)
    (h : MIMEHdr) (m2 : Message), decodeBody env fuel m r h = Except.ok m2 →
    sameEnvelope m2 m := by
  intro fuel
  induction fuel with
  | zero =>
    intro m r h m2 hd
    rw [decodeBody] at hd
    exact absurd hd (by simp)
  | succ fuel ih =>
    intro m r h m2 hd
    rw [decodeBody] at hd
    rcases hct : env.parseMediaTy (if hGet h (gs "Content-Type") = [] then
        gs "text/plain" else hGet h (gs "Content-Type")) with e | ctp2
    · simp only [hct] at hd
      exact absurd hd (by simp)
    rcases ctp2 with ⟨ct, ctp⟩
    simp only [hct] at hd
    rcases hff : foundFilename env h ctp with e | filename
    · simp only [hff] at hd
      exact absurd hd (by simp)
    simp only [hff] at hd
    by_cases hfe : filename ≠ []
    · rw [if_pos hfe] at hd
      rcases hdh : decodeHeader env filename with e | name
      · simp only [hdh] at hd
        exact absurd hd (by simp)
      simp only [hdh] at hd
      rcases hra : transferReadAll (decodeTransfer r
          (hGet h (gs "Content-Transfer-Encoding"))) with e | data
      · simp only [hra] at hd
        exact absurd hd (by simp)
      simp only [hra] at hd
      simp only [Except.ok.injEq] at hd
      rw [← hd]
      exact ⟨rfl, rfl, rfl, rfl, rfl, rfl, rfl, rfl, rfl⟩
    · rw [if_neg hfe] at hd
      by_cases hct2 : ct = gs "text/plain" ∨ ct = gs "text/html"
      · rw [if_pos hct2] at hd
        rcases htr : textRead r (hGet h (gs "Content-Transfer-Encoding")) with e | buf
        · simp only [htr] at hd
          exact absurd hd (by simp)
        simp only [htr] at hd
        rcases hdc : decodeCharset env buf (lookupParam ctp (gs "charset"))
          with e | body
        · simp only [hdc] at hd
          exact absurd hd (by simp)
        simp only [hdc] at hd
        by_cases hh : ct = gs "text/html"
        · rw [if_pos hh] at hd
          simp only [Except.ok.injEq] at hd
          rw [← hd]
          exact ⟨rfl, rfl, rfl, rfl, rfl, rfl, rfl, rfl, rfl⟩
        · rw [if_neg hh] at hd
          simp only [Except.ok.injEq] at hd
          rw [← hd]
          exact ⟨rfl, rfl, rfl, rfl, rfl, rfl, rfl, rfl, rfl⟩
      · rw [if_neg hct2] at hd
        by_cases hmp : goHasPre ct (gs "multipart/") = true
        · rw [if_pos hmp] at hd
          rcases hms : env.multipartSplit r (lookupParam ctp (gs "boundary"))
            with e | parts
          · simp only [hms] at hd
            exact absurd hd (by simp)
          simp only [hms] at hd
          exact foldParts_envelope _ (fun ma p m3 hp => ih ma p.2 p.1 m3 hp)
            parts _ m2 hd m rfl
        · rw [if_neg hmp] at hd
          simp only [Except.ok.injEq] at hd
          rw [← hd]
          exact sameEnvelope_refl m

/-- One raw line minus its trailing CR (textproto reads lines without
    their CRLF or LF terminator; the LF split already removed the LF). -/
def trimCR (l : GoStr) : GoStr := if l.getLast? = some 13 then l.dropLast else l

/-- Split a header line at its first colon. -/
def splitColon : GoStr → Option (GoStr × GoStr)
  | [] => none
  | b :: rest =>
    if b = 58 then some ([], rest)
    else match splitColon rest with
      | some (k, v) => some (b :: k, v)
      | none => none

/-- textproto validHeaderFieldByte: the RFC 7230 token bytes. -/
def isTokenByte (b : Nat) : Bool :=
  decide ((48 ≤ b ∧ b ≤ 57) ∨ (65 ≤ b ∧ b ≤ 90) ∨ (97 ≤ b ∧ b ≤ 122) ∨
    b = 33 ∨ b = 35 ∨ b = 36 ∨ b = 37 ∨ b = 38 ∨ b = 39 ∨ b = 42 ∨
    b = 43 ∨ b = 45 ∨ b = 46 ∨ b = 94 ∨ b = 95 ∨ b = 96 ∨ b = 124 ∨ b = 126)

/-- Canonicalization of one key byte run: uppercase at the start and
    after a hyphen, lowercase elsewhere. -/
def canonKeyAux : Bool → GoStr → GoStr
  | _, [] => []
  | up, b :: rest =>
    (if up then (if 97 ≤ b ∧ b ≤ 122 then b - 32 else b)
     else (if 65 ≤ b ∧ b ≤ 90 then b + 32 else b)) :: canonKeyAux (b = 45) rest

/-- textproto.CanonicalMIMEHeaderKey: keys holding a byte outside the
    token set pass through unchanged. -/
def canonKey (s : GoStr) : GoStr :=
  if s.all isTokenByte then canonKeyAux true s else s

/-- textproto stores repeated keys by appending to the existing entry's
    value list. -/
def addHeader : MIMEHdr → GoStr → GoStr → MIMEHdr
  | [], k, v => [(k, [v])]
  | (k0, vs) :: rest, k, v =>
    if k0 = k then (k0, vs ++ [v]) :: rest
    else (k0, vs) :: addHeader rest k v

/-- textproto.ReadMIMEHeader over the raw header lines: canonical key
    before the colon, value after it with leading spaces and tabs
    dropped.  (Folded continuation lines are not modelled; no claim
    input folds a header.) -/
def parseLines (acc : MIMEHdr) : List GoStr → Except GoStr MIMEHdr
  | [] => Except.ok acc
  | l :: rest =>
    match splitColon (trimCR l) with
    | none => Except.error (gs "malformed MIME header line")
    | some (k, v) =>
      parseLines (addHeader acc (canonKey k)
        (v.dropWhile (fun b => decide (b = 32 ∨ b = 9)))) rest

/-- The division of the LF-split stream into header lines and body lines
    at the first empty line (net/mail.ReadMessage); none when the header
    block never ends. -/
def splitAtEmptyLine : List GoStr → Option (List GoStr × List GoStr)
  | [] => none
  | l :: rest =>
    if trimCR l = [] then some ([], rest)
    else match splitAtEmptyLine rest with
      | some (hs, bs) => some (l :: hs, bs)
      | none => none

/-- Rejoin LF-split pieces with the newlines the split removed. -/
def joinLF : List GoStr → GoStr
  | [] => []
  | [l] => l
  | l :: c :: rest => l ++ [10] ++ joinLF (c :: rest)

/-- The per-key value accumulation of ReadMessage's header loop
    (src/mail.go lines 189-199): decode each stored value, append to the
    accumulator with a separating space when it is nonempty. -/
def decodeHdrVals (env : Env) : List GoStr → GoStr → Except GoStr GoStr
  | [], acc => Except.ok acc
  | w :: rest, acc =>
    match decodeHeader env w with
    | Except.error e => Except.error (gs "decode header: " ++ e)
    | Except.ok dec =>
      decodeHdrVals env rest (if acc = [] then dec else acc ++ [32] ++ dec)

/-- The rest-of-headers map of ReadMessage: every parsed header except
    the seven handled fields, each value list decoded and joined.  (Go
    ranges over a map in unspecified order; the model keeps first
    appearance order.) -/
def restHeaders (env : Env) : MIMEHdr → Except GoStr (List (GoStr × GoStr))
  | [] => Except.ok []
  | (k, vs) :: rest =>
    if k = gs "Message-Id" ∨ k = gs "Subject" ∨ k = gs "Date" ∨
        k = gs "Return-Path" ∨ k = gs "From" ∨ k = gs "To" ∨ k = gs "Cc" then
      restHeaders env rest
    else match decodeHdrVals env vs [] with
      | Except.error e => Except.error e
      | Except.ok joined =>
        match restHeaders env rest with
        | Except.error e => Except.error e
        | Except.ok hs => Except.ok ((k, joined) :: hs)

/-- The header-driven half of ReadMessage (src/mail.go lines 108-201):
    id with the generated fallback, date with the now fallback, subject
    with the No subject fallback, return-path, from, to and cc through
    DecodeAddress with empty defaults, the return-path backfill from
    from, and the decoded rest of the headers. -/
def readEnvelope (env : Env) (hdr : MIMEHdr) : Except GoStr Message :=
  match decodeHeader env (hGet hdr (gs "Subject")) with
  | Except.error e => Except.error (gs "decode header: " ++ e)
  | Except.ok subj =>
  match (if hGet hdr (gs "Return-Path") = [] then Except.ok []
         else DecodeAddress env (hGet hdr (gs "Return-Path"))) with
  | Except.error e => Except.error (gs "parse return-path: " ++ e)
  | Except.ok retpath =>
  match (if hGet hdr (gs "From") = [] then Except.ok []
         else DecodeAddress env (hGet hdr (gs "From"))) with
  | Except.error e => Except.error (gs "parse from: " ++ e)
  | Except.ok froms =>
  match (if hGet hdr (gs "To") = [] then Except.ok []
         else DecodeAddress env (hGet hdr (gs "To"))) with
  | Except.error e => Except.error (gs "parse to: " ++ e)
  | Except.ok tos =>
  match (if hGet hdr (gs "Cc") = [] then Except.ok []
         else DecodeAddress env (hGet hdr (gs "Cc"))) with
  | Except.error e => Except.error (gs "parse cc: " ++ e)
  | Except.ok ccs =>
  match restHeaders env hdr with
  | Except.error e => Except.error e
  | Except.ok hs =>
    Except.ok
      { ID := if hGet hdr (gs "Message-Id") ≠ [] then hGet hdr (gs "Message-Id")
              else env.genID
        ReturnPath := if retpath.headD [] = [] then froms.headD []
                      else retpath.headD []
        From := froms.headD []
        To := tos
        CC := ccs
        Subject := if subj ≠ [] then subj else gs "No subject"
        Date := match env.parseDate (hGet hdr (gs "Date")) with
          | some d => d
          | none => env.nowDate
        IsHTML := false
        HTML := []
        Body := []
        Parts := []
        Headers := hs }

/-- src/mail.go ReadMessage: parse the header block (net/mail and
    textproto), fill the envelope fields with their fallbacks, decode
    the body, and when HTML was collected derive Body from it through
    html2text. -/
def readMessage (env : Env) (s : GoStr) : Except GoStr Message :=
  match splitAtEmptyLine (goSplit 10 s) with
  | none => Except.error (gs "malformed mail: header block not terminated")
  | some (rawLines, bodyLines) =>
    match parseLines [] rawLines with
    | Except.error e => Except.error e
    | Except.ok hdr =>
      match readEnvelope env hdr with
      | Except.error e => Except.error e
      | Except.ok m1 =>
        match decodeBody env (s.length + 1) m1 (joinLF bodyLines) hdr with
        | Except.error e => Except.error (gs "decode body: " ++ e)
        | Except.ok m2 =>
          if m2.HTML ≠ [] then
            match env.html2text m2.HTML with
            | Except.error e => Except.error e
            | Except.ok nb => Except.ok { m2 with Body := nb, IsHTML := true }
          else Except.ok m2



/-- The header-loop accumulator only ever joins valid pieces: a
    successful decodeHdrVals of a valid accumulator is valid. -/
theorem decodeHdrVals_valid (env : Env) : ∀ (vs : List GoStr) (acc j : GoStr),
    decodeHdrVals env vs acc = Except.ok j → utf8Valid acc = true →
    utf8Valid j = true := by
  intro vs
  induction vs with
  | nil =>
    intro acc j h hacc
    rw [decodeHdrVals] at h
    simp only [Except.ok.injEq] at h
    rw [← h]
    exact hacc
  | cons w rest ih =>
    intro acc j h hacc
    rw [decodeHdrVals] at h
    rcases hdw : decodeHeader env w with e | dec <;> simp only [hdw] at h
    · exact absurd h (by simp)
    · refine ih _ j h ?_
      by_cases ha : acc = []
      · rw [if_pos ha]
        exact decodeHeader_valid hdw
      · rw [if_neg ha]
        exact utf8Valid_append (utf8Valid_append hacc (by decide))
          (decodeHeader_valid hdw)

/-- Every value the rest-of-headers pass stores is valid UTF-8. -/
theorem restHeaders_valid (env : Env) : ∀ (hdr : MIMEHdr)
    (hs : List (GoStr × GoStr)), restHeaders env hdr = Except.ok hs →
    ∀ kv ∈ hs, utf8Valid kv.2 = true := by
  intro hdr
  induction hdr with
  | nil =>
    intro hs h kv hkv
    rw [restHeaders] at h
    simp only [Except.ok.injEq] at h
    rw [← h] at hkv
    exact absurd hkv (List.not_mem_nil kv)
  | cons p rest ih =>
    intro hs h kv hkv
    rcases p with ⟨k, vs⟩
    rw [restHeaders] at h
    split_ifs at h with hskip
    · exact ih hs h kv hkv
    · rcases hdv : decodeHdrVals env vs [] with e | joined <;> simp only [hdv] at h
      · exact absurd h (by simp)
      rcases hrh : restHeaders env rest with e | hs2 <;> simp only [hrh] at h
      · exact absurd h (by simp)
      simp only [Except.ok.injEq] at h
      rw [← h] at hkv
      rcases List.mem_cons.mp hkv with h1 | h1
      · rw [h1]
        exact decodeHdrVals_valid env vs [] joined hdv (by decide)
      · exact ih hs2 hrh kv h1

/-- What a successful readEnvelope guarantees: its Headers come from
    restHeaders (so every value is valid UTF-8), and an absent From
    header leaves From empty. -/
theorem readEnvelope_out (env : Env) (hdr : MIMEHdr) (m1 : Message)
    (h : readEnvelope env hdr = Except.ok m1) :
    (∀ kv ∈ m1.Headers, utf8Valid kv.2 = true) ∧
    (hGet hdr (gs "From") = [] → m1.From = []) := by
  rw [readEnvelope] at h
  rcases hsub : decodeHeader env (hGet hdr (gs "Subject")) with e | subj <;>
    simp only [hsub] at h
  · exact absurd h (by simp)
  rcases hrp : (if hGet hdr (gs "Return-Path") = [] then Except.ok []
      else DecodeAddress env (hGet hdr (gs "Return-Path"))) with e | retpath <;>
    simp only [hrp] at h
  · exact absurd h (by simp)
  rcases hfr : (if hGet hdr (gs "From") = [] then Except.ok []
      else DecodeAddress env (hGet hdr (gs "From"))) with e | froms <;>
    simp only [hfr] at h
  · exact absurd h (by simp)
  rcases hto : (if hGet hdr (gs "To") = [] then Except.ok []
      else DecodeAddress env (hGet hdr (gs "To"))) with e | tos <;>
    simp only [hto] at h
  · exact absurd h (by simp)
  rcases hcc : (if hGet hdr (gs "Cc") = [] then Except.ok []
      else DecodeAddress env (hGet hdr (gs "Cc"))) with e | ccs <;>
    simp only [hcc] at h
  · exact absurd h (by simp)
  rcases hrh : restHeaders env hdr with e | hs <;> simp only [hrh] at h
  · exact absurd h (by simp)
  simp only [Except.ok.injEq] at h
  constructor
  · intro kv hkv
    rw [← h] at hkv
    exact restHeaders_valid env hdr hs hrh kv hkv
  · intro hFrom
    rw [if_pos hFrom] at hfr
    simp only [Except.ok.injEq] at hfr
    rw [← h, ← hfr]
    rfl

/-- Claim C4: a successful decodeCharset always returns valid UTF-8
    (the post-decode pass strips every invalid code point and never
    fails), and consequently every header value readMessage stores in
    the Headers mapping is valid UTF-8. -/
theorem charset_header_valid :
    (∀ (env : Env) (str lab r : GoStr),
      decodeCharset env str lab = Except.ok r → utf8Valid r = true) ∧
    (∀ (env : Env) (s : GoStr) (m : Message),
      readMessage env s = Except.ok m →
      ∀ kv ∈ m.Headers, utf8Valid kv.2 = true) := by
  constructor
  · intro env str lab r h
    exact decodeCharset_valid h
  · intro env s m h kv hkv
    rw [readMessage] at h
    rcases hsp : splitAtEmptyLine (goSplit 10 s) with _ | ⟨rawLines, bodyLines⟩ <;>
      simp only [hsp] at h
    · exact absurd h (by simp)
    rcases hpl : parseLines [] rawLines with e | hdr <;> simp only [hpl] at h
    · exact absurd h (by simp)
    rcases hre : readEnvelope env hdr with e | m1 <;> simp only [hre] at h
    · exact absurd h (by simp)
    rcases hdb : decodeBody env (s.length + 1) m1 (joinLF bodyLines) hdr
      with e | m2 <;> simp only [hdb] at h
    · exact absurd h (by simp)
    have henv := decodeBody_envelope env _ m1 _ hdr m2 hdb
    have hm1 := (readEnvelope_out env hdr m1 hre).1
    have hHeaders : m.Headers = m1.Headers := by
      by_cases hh : m2.HTML ≠ []
      · rw [if_pos hh] at h
        rcases hht : env.html2text m2.HTML with e | nb <;> simp only [hht] at h
        · exact absurd h (by simp)
        simp only [Except.ok.injEq] at h
        rw [← h]
        exact henv.2.2.2.2.2.2.2.2
      · rw [if_neg hh] at h
        simp only [Except.ok.injEq] at h
        rw [← h]
        exact henv.2.2.2.2.2.2.2.2
    rw [hHeaders] at hkv
    exact hm1 kv hkv

/-- The parse of the C4 witness stream: one custom header, a To and a
    plain body. -/
def mHdrs : Message where
  ID := gs "<20240101000000.1.42@localhost>"
  ReturnPath := []
  From := []
  To := [gs "c@d.com"]
  CC := []
  Subject := gs "No subject"
  Date := 0
  IsHTML := false
  HTML := []
  Body := gs "body"
  Parts := []
  Headers := [(gs "X-Thing", gs "hi")]

/-- Witness for C4: a concrete charset decode and a concrete parsed
    header value, both valid UTF-8 by the theorem. -/
theorem charset_header_valid_witness :
    utf8Valid (gs "abc") = true ∧ utf8Valid (gs "hi") = true :=
  ⟨charset_header_valid.1 idEnv (gs "abc") (gs "utf-8") (gs "abc") (by decide),
   charset_header_valid.2 idEnv (gs "X-Thing: hi\nTo: c@d.com\n\nbody") mHdrs
     (by decide) (gs "X-Thing", gs "hi") (by decide)⟩

/-- The parse of a stream whose header block has no From at all. -/
def mNoFrom : Message where
  ID := gs "<20240101000000.1.42@localhost>"
  ReturnPath := []
  From := []
  To := [gs "c@d.com"]
  CC := []
  Subject := gs "No subject"
  Date := 0
  IsHTML := false
  HTML := []
  Body := gs "body"
  Parts := []
  Headers := []

/-- Counterexample to claim C1: a stream whose header block lacks From
    parses successfully and leaves the from field empty — ReadMessage
    (src/mail.go 144-153) only fills From when the header is present and
    has no missing-required-field failure at all. -/
theorem read_message_missing_from_ok :
    readMessage idEnv (gs "To: c@d.com\n\nbody") = Except.ok mNoFrom ∧
    mNoFrom.From = [] := by decide

/-- Amended C1: when the parsed header block lacks a From header, every
    successful readMessage returns a message whose from field is empty;
    the parse is never failed on that account. -/
theorem read_message_from_absent (env : Env) (s : GoStr)
    (rawLines bodyLines : List GoStr) (hdr : MIMEHdr) (m : Message)
    (hsp : splitAtEmptyLine (goSplit 10 s) = some (rawLines, bodyLines))
    (hpl : parseLines [] rawLines = Except.ok hdr)
    (hfrom : hGet hdr (gs "From") = [])
    (h : readMessage env s = Except.ok m) :
    m.From = [] := by
  rw [readMessage] at h
  simp only [hsp] at h
  simp only [hpl] at h
  rcases hre : readEnvelope env hdr with e | m1 <;> simp only [hre] at h
  · exact absurd h (by simp)
  rcases hdb : decodeBody env (s.length + 1) m1 (joinLF bodyLines) hdr
    with e | m2 <;> simp only [hdb] at h
  · exact absurd h (by simp)
  have henv := decodeBody_envelope env _ m1 _ hdr m2 hdb
  have hm1 : m1.From = [] := (readEnvelope_out env hdr m1 hre).2 hfrom
  have hFrom2 : m2.From = m1.From := henv.2.2.1
  by_cases hh : m2.HTML ≠ []
  · rw [if_pos hh] at h
    rcases hht : env.html2text m2.HTML with e | nb <;> simp only [hht] at h
    · exact absurd h (by simp)
    simp only [Except.ok.injEq] at h
    rw [← h]
    show m2.From = []
    rw [hFrom2]
    exact hm1
  · rw [if_neg hh] at h
    simp only [Except.ok.injEq] at h
    rw [← h, hFrom2]
    exact hm1

/-- Witness for the amended C1 at the concrete From-less stream. -/
theorem read_message_from_absent_witness : mNoFrom.From = [] :=
  read_message_from_absent idEnv (gs "To: c@d.com\n\nbody")
    [gs "To: c@d.com"] [gs "body"] [(gs "To", [gs "c@d.com"])] mNoFrom
    (by decide) (by decide) (by decide) (by decide)


/-- One bracketed address as Marshal prints it. -/
def brackets (v : GoStr) : GoStr := gs "<" ++ v ++ gs ">"

/-- The To/CC loop of Marshal (src/mail.go 313-319, 323-329): a
    comma-space before every entry except the first, each entry
    bracketed. -/
def addrFold (vs : List GoStr) : GoStr :=
  vs.enum.foldl (fun acc iv =>
    acc ++ (if iv.1 ≠ 0 then gs ", " else []) ++ (gs "<" ++ iv.2 ++ gs ">")) []

/-- The headers loop of Marshal (src/mail.go 334-340): every entry
    except the three content headers, word-encoded.  (Go ranges over a
    map in unspecified order; the model keeps list order.) -/
def headersOut (env : Env) (hs : List (GoStr × GoStr)) : GoStr :=
  hs.foldl (fun acc kv =>
    if kv.1 = gs "Content-Type" ∨ kv.1 = gs "Content-Transfer-Encoding" ∨
        kv.1 = gs "Content-Disposition" then acc
    else acc ++ kv.1 ++ gs ": " ++ env.qEncode kv.2 ++ [10]) []

/-- src/mail.go Marshal: the sequential buffer writes, ending in the
    quoted-printable body; the in-memory buffer writer never fails. -/
def Marshal (env : Env) (m : Message) : Except GoStr GoStr :=
  Except.ok (
    (gs "From: <" ++ m.From ++ gs ">\n") ++
    ((if m.To ≠ [] then gs "To: " ++ addrFold m.To ++ [10] else []) ++
    ((if m.CC ≠ [] then gs "CC: " ++ addrFold m.CC ++ [10] else []) ++
    ((gs "Message-ID: " ++ m.ID ++ [10]) ++
    ((gs "Subject: " ++ env.qEncode m.Subject ++ [10]) ++
    ((gs "Date: " ++ env.formatDate m.Date ++ [10]) ++
    (headersOut env m.Headers ++
    ((if m.IsHTML then gs "Content-Type: text/html; charset=utf-8;\n"
      else gs "Content-Type: text/plain; charset=utf-8;\n") ++
    ((gs "Content-Transfer-Encoding: quoted-printable\n") ++
    ([10] ++ qpEncode m.Body))))))))))

/-- Comma-space join, the shape the spec gives the address lines. -/
def joinCommaSp : List GoStr → GoStr
  | [] => []
  | [a] => a
  | a :: b :: rest => a ++ gs ", " ++ joinCommaSp (b :: rest)

theorem join_flat : ∀ (rest : List GoStr) (a : GoStr),
    a ++ (rest.map (fun v => gs ", " ++ v)).flatten = joinCommaSp (a :: rest) := by
  intro rest
  induction rest with
  | nil => intro a; simp [joinCommaSp]
  | cons w r2 ih =>
    intro a
    rw [List.map_cons, List.flatten_cons, joinCommaSp, ← ih w]
    simp

/-- The indexed address loop writes the comma-space join of the
    bracketed entries. -/
theorem addrFold_eq_join : ∀ vs : List GoStr,
    addrFold vs = joinCommaSp (vs.map brackets) := by
  have step : ∀ (vs : List GoStr) (n : Nat) (acc : GoStr),
      (vs.enumFrom (n + 1)).foldl (fun acc iv =>
        acc ++ (if iv.1 ≠ 0 then gs ", " else []) ++ (gs "<" ++ iv.2 ++ gs ">")) acc =
      acc ++ (vs.map (fun v => gs ", " ++ brackets v)).flatten := by
    intro vs
    induction vs with
    | nil => intro n acc; simp
    | cons v rest ih =>
      intro n acc
      rw [show (v :: rest).enumFrom (n + 1) = (n + 1, v) :: rest.enumFrom (n + 2)
        from rfl]
      rw [List.foldl_cons, ih (n + 1)]
      simp [brackets]
  intro vs
  rcases vs with _ | ⟨v, rest⟩
  · rfl
  · rw [addrFold, show (v :: rest).enum = (0, v) :: rest.enumFrom 1 from rfl,
      List.foldl_cons, step rest 0]
    rw [show (([] : GoStr) ++ (if ((0 : Nat), v).1 ≠ 0 then gs ", " else []) ++
        (gs "<" ++ v ++ gs ">")) = brackets v from by simp [brackets]]
    rw [show rest.map (fun v => gs ", " ++ brackets v) =
        (rest.map brackets).map (fun v => gs ", " ++ v) from by
      rw [List.map_map]
      rfl]
    rw [join_flat, List.map_cons]

/-- The headers loop writes the filtered, word-encoded header lines in
    order. -/
theorem headersOut_eq_filter (env : Env) : ∀ hs : List (GoStr × GoStr),
    headersOut env hs =
      ((hs.filter (fun kv => decide (¬(kv.1 = gs "Content-Type" ∨
          kv.1 = gs "Content-Transfer-Encoding" ∨
          kv.1 = gs "Content-Disposition")))).map
        (fun kv => kv.1 ++ gs ": " ++ env.qEncode kv.2 ++ [10])).flatten := by
  have step : ∀ (hs : List (GoStr × GoStr)) (acc : GoStr),
      hs.foldl (fun acc kv =>
        if kv.1 = gs "Content-Type" ∨ kv.1 = gs "Content-Transfer-Encoding" ∨
            kv.1 = gs "Content-Disposition" then acc
        else acc ++ kv.1 ++ gs ": " ++ env.qEncode kv.2 ++ [10]) acc =
      acc ++ ((hs.filter (fun kv => decide (¬(kv.1 = gs "Content-Type" ∨
          kv.1 = gs "Content-Transfer-Encoding" ∨
          kv.1 = gs "Content-Disposition")))).map
        (fun kv => kv.1 ++ gs ": " ++ env.qEncode kv.2 ++ [10])).flatten := by
    intro hs
    induction hs with
    | nil => intro acc; simp
    | cons kv rest ih =>
      intro acc
      rw [List.foldl_cons]
      by_cases hk : kv.1 = gs "Content-Type" ∨ kv.1 = gs "Content-Transfer-Encoding" ∨
          kv.1 = gs "Content-Disposition"
      · rw [if_pos hk, ih, List.filter_cons, if_neg (by simp [hk])]
      · rw [if_neg hk, ih, List.filter_cons, if_pos (by simp [hk])]
        simp
  intro hs
  rw [headersOut, step hs []]
  rfl

/-- Claim C3: Marshal emits exactly, in order: the From line, the To
    line (comma-joined, each address bracketed, omitted when empty), the
    CC line (same), Message-ID, the word-encoded Subject, the formatted
    Date, every stored header except Content-Type,
    Content-Transfer-Encoding and Content-Disposition (each
    word-encoded), the content-type line selected by IsHTML, the
    quoted-printable transfer-encoding line, a blank separator line and
    the quoted-printable encoding of the body; it always succeeds (the
    in-memory writer cannot fail), and ReturnPath, HTML and Parts never
    influence the output. -/
theorem marshal_layout (env : Env) (m : Message) :
    Marshal env m = Except.ok (
      gs "From: <" ++ m.From ++ gs ">\n" ++
      (if m.To ≠ [] then gs "To: " ++ joinCommaSp (m.To.map brackets) ++ [10]
       else []) ++
      (if m.CC ≠ [] then gs "CC: " ++ joinCommaSp (m.CC.map brackets) ++ [10]
       else []) ++
      gs "Message-ID: " ++ m.ID ++ [10] ++
      gs "Subject: " ++ env.qEncode m.Subject ++ [10] ++
      gs "Date: " ++ env.formatDate m.Date ++ [10] ++
      ((m.Headers.filter (fun kv => decide (¬(kv.1 = gs "Content-Type" ∨
          kv.1 = gs "Content-Transfer-Encoding" ∨
          kv.1 = gs "Content-Disposition")))).map
        (fun kv => kv.1 ++ gs ": " ++ env.qEncode kv.2 ++ [10])).flatten ++
      (if m.IsHTML then gs "Content-Type: text/html; charset=utf-8;\n"
       else gs "Content-Type: text/plain; charset=utf-8;\n") ++
      gs "Content-Transfer-Encoding: quoted-printable\n" ++
      [10] ++ qpEncode m.Body) ∧
    (∀ (rp html : GoStr) (parts : List Part),
      Marshal env { m with ReturnPath := rp, HTML := html, Parts := parts } =
        Marshal env m) := by
  constructor
  · rw [Marshal, addrFold_eq_join, addrFold_eq_join, headersOut_eq_filter]
    simp only [List.append_assoc]
  · intro rp html parts
    rfl

/-- The directly constructed message of the C2 counterexample. -/
def msgC2 : Message :=
  NewMessage idEnv (gs "a@b.com") [gs "c@d.com"] [] (gs "Hi") (gs "hello") []

/-- The bytes Marshal produces for msgC2. -/
def c2bytes : GoStr :=
  gs "From: <a@b.com>\nTo: <c@d.com>\nMessage-ID: <20240101000000.1.42@localhost>\nSubject: Hi\nDate: Mon, 1 Jan 2024 00:00:00 +0000 (UTC)\nContent-Type: text/plain; charset=utf-8;\nContent-Transfer-Encoding: quoted-printable\n\nhello"

/-- The message the round trip returns for msgC2. -/
def msgC2r : Message where
  ID := gs "<20240101000000.1.42@localhost>"
  ReturnPath := gs "a@b.com"
  From := gs "a@b.com"
  To := [gs "c@d.com"]
  CC := []
  Subject := gs "Hi"
  Date := 0
  IsHTML := false
  HTML := []
  Body := gs "hello" ++ [10]
  Parts := []
  Headers := [(gs "Content-Type", gs "text/plain; charset=utf-8;"),
    (gs "Content-Transfer-Encoding", gs "quoted-printable")]

/-- Counterexample to claim C2: the direct-construction round trip does
    not return the original body — the parsed body carries the newline
    the transfer pipeline appends at end of stream, so "hello" comes
    back as "hello\n"; from, to, cc and subject do survive. -/
theorem round_trip_body_counterexample :
    Marshal idEnv msgC2 = Except.ok c2bytes ∧
    readMessage idEnv c2bytes = Except.ok msgC2r ∧
    msgC2r.From = msgC2.From ∧ msgC2r.To = msgC2.To ∧
    msgC2r.CC = msgC2.CC ∧ msgC2r.Subject = msgC2.Subject ∧
    msgC2r.Body = msgC2.Body ++ [10] ∧ ¬msgC2r.Body = msgC2.Body := by decide


/-- ASCII byte strings are valid UTF-8. -/
theorem utf8Valid_all_ascii : ∀ s : GoStr, (∀ b ∈ s, b < 0x80) →
    utf8Valid s = true := by
  intro s
  induction s with
  | nil => intro _; rfl
  | cons b rest ih =>
    intro hb
    rw [utf8Valid_cons_ascii (hb b (List.mem_cons_self b rest))]
    exact ih (fun x hx => hb x (List.mem_cons_of_mem b hx))

/-- Ranging over an ASCII string yields its bytes. -/
theorem goRunes_ascii : ∀ (n : Nat) (s : GoStr), s.length ≤ n →
    (∀ b ∈ s, b < 0x80) → goRunes s = s := by
  intro n
  induction n with
  | zero =>
    intro s hn _
    rw [List.eq_nil_of_length_eq_zero (Nat.le_zero.mp hn)]
    rfl
  | succ n ih =>
    intro s hn hb
    rcases s with _ | ⟨a, s1⟩
    · rfl
    rcases s1 with _ | ⟨b, s2⟩
    · rw [goRunes, if_pos (hb a (by simp))]
    rcases s2 with _ | ⟨c, s3⟩
    · rw [goRunes, if_pos (hb a (by simp))]
      rw [ih [b] (by simp only [List.length_cons, List.length_nil] at hn ⊢; omega)
        (fun x hx => hb x (List.mem_cons_of_mem a hx))]
    rcases s3 with _ | ⟨d, s4⟩
    · rw [goRunes, if_pos (hb a (by simp))]
      rw [ih [b, c] (by simp only [List.length_cons, List.length_nil] at hn ⊢; omega)
        (fun x hx => hb x (List.mem_cons_of_mem a hx))]
    · rw [goRunes, if_pos (hb a (by simp))]
      rw [ih (b :: c :: d :: s4)
        (by simp only [List.length_cons] at hn ⊢; omega)
        (fun x hx => hb x (List.mem_cons_of_mem a hx))]

theorem goRunes_of_ascii {s : GoStr} (h : ∀ b ∈ s, b < 0x80) : goRunes s = s :=
  goRunes_ascii s.length s (le_refl _) h

/-- A string without the equals byte holds no encoded word. -/
theorem hasEncWord_no61 : ∀ s : GoStr, (∀ b ∈ s, b ≠ 61) →
    hasEncWord s = false := by
  intro s
  induction s with
  | nil => intro _; rfl
  | cons a rest ih =>
    intro hb
    rcases rest with _ | ⟨b, rest2⟩
    · rfl
    · rw [hasEncWord, ih (fun x hx => hb x (List.mem_cons_of_mem a hx))]
      simp [hb a (List.mem_cons_self a _)]

theorem getLast?_mem : ∀ (l : GoStr) (x : Nat), l.getLast? = some x → x ∈ l := by
  intro l
  induction l with
  | nil => intro x h; simp at h
  | cons a rest ih =>
    intro x h
    rcases rest with _ | ⟨b, r2⟩
    · simp only [List.getLast?_singleton, Option.some.injEq] at h
      simp [h]
    · rw [List.getLast?_cons_cons] at h
      exact List.mem_cons_of_mem a (ih x h)

theorem trimCR_no13 {l : GoStr} (h : ∀ x ∈ l, x ≠ 13) : trimCR l = l := by
  rw [trimCR, if_neg]
  intro hc
  exact h 13 (getLast?_mem l 13 hc) rfl

/-- Splitting a colon-free key from its value. -/
theorem splitColon_append : ∀ (k : GoStr), (∀ x ∈ k, x ≠ 58) → ∀ (v : GoStr),
    splitColon (k ++ [58] ++ v) = some (k, v) := by
  intro k
  induction k with
  | nil => intro _ v; simp [splitColon]
  | cons a k2 ih =>
    intro hk v
    rw [show (a :: k2) ++ [58] ++ v = a :: (k2 ++ [58] ++ v) from by simp]
    rw [splitColon, if_neg (hk a (List.mem_cons_self a k2)),
      ih (fun x hx => hk x (List.mem_cons_of_mem a hx)) v]

/-- The blank line after nonblank header lines is found, and splits
    exactly there. -/
theorem splitAtEmptyLine_of : ∀ (hl : List GoStr) (bs : List GoStr),
    (∀ l ∈ hl, trimCR l ≠ []) →
    splitAtEmptyLine (hl ++ [] :: bs) = some (hl, bs) := by
  intro hl
  induction hl with
  | nil =>
    intro bs _
    rw [List.nil_append, splitAtEmptyLine, if_pos (by decide)]
  | cons l rest ih =>
    intro bs hvl
    rw [show (l :: rest) ++ [] :: bs = l :: (rest ++ [] :: bs) from rfl]
    rw [splitAtEmptyLine, if_neg (hvl l (List.mem_cons_self l rest)),
      ih bs (fun x hx => hvl x (List.mem_cons_of_mem l hx))]

/-- Rejoining the LF split restores the stream. -/
theorem joinLF_goSplit : ∀ s : GoStr, joinLF (goSplit 10 s) = s := by
  intro s
  induction s with
  | nil => rfl
  | cons b rest ih =>
    rw [goSplit]
    rcases hv : goSplit 10 rest with _ | ⟨h, t⟩
    · exact absurd hv (goSplit_ne_nil 10 rest)
    · have ih2 := ih
      rw [hv] at ih2
      show joinLF (if b = 10 then [] :: h :: t else (b :: h) :: t) = b :: rest
      by_cases hb : b = 10
      · rw [if_pos hb, joinLF, ← ih2, hb]
        rfl
      · rw [if_neg hb]
        rcases t with _ | ⟨c, t2⟩
        · have h2 : h = rest := ih2
          rw [show joinLF [b :: h] = b :: h from rfl, h2]
        · rw [joinLF, ← ih2, joinLF]
          simp

/-- The pieces of the CR/LF line split satisfy any byte predicate the
    stream satisfies. -/
theorem splitCRLF_pred (P : Nat → Prop) : ∀ (s : GoStr), (∀ b ∈ s, P b) →
    ∀ L ∈ splitCRLF s, ∀ b ∈ L, P b := by
  intro s
  induction s using splitCRLF.induct with
  | case1 =>
    intro _ L hL b hb
    simp only [splitCRLF, List.mem_singleton] at hL
    rw [hL] at hb
    exact absurd hb (List.not_mem_nil b)
  | case2 b h =>
    intro hs L hL x hx
    rw [splitCRLF, if_pos h] at hL
    simp only [List.mem_cons, List.not_mem_nil, or_false, or_self] at hL
    rw [hL] at hx
    exact absurd hx (List.not_mem_nil x)
  | case3 b h =>
    intro hs L hL x hx
    rw [splitCRLF, if_neg h] at hL
    simp only [List.mem_singleton] at hL
    rw [hL] at hx
    simp only [List.mem_singleton] at hx
    rw [hx]
    exact hs b (List.mem_cons_self b [])
  | case4 rest ih =>
    intro hs L hL x hx
    rw [show splitCRLF (13 :: 10 :: rest) = [] :: splitCRLF rest from by
      rw [splitCRLF]; simp] at hL
    rcases List.mem_cons.mp hL with h1 | h1
    · rw [h1] at hx; exact absurd hx (List.not_mem_nil x)
    · exact ih (fun y hy => hs y
        (List.mem_cons_of_mem 13 (List.mem_cons_of_mem 10 hy))) L h1 x hx
  | case5 c rest h ih =>
    intro hs L hL x hx
    rw [show splitCRLF (13 :: c :: rest) = [] :: splitCRLF (c :: rest) from by
      rw [splitCRLF]; simp [h]] at hL
    rcases List.mem_cons.mp hL with h1 | h1
    · rw [h1] at hx; exact absurd hx (List.not_mem_nil x)
    · exact ih (fun y hy => hs y (List.mem_cons_of_mem 13 hy)) L h1 x hx
  | case6 c rest h ih =>
    intro hs L hL x hx
    rw [show splitCRLF (10 :: c :: rest) = [] :: splitCRLF (c :: rest) from by
      rw [splitCRLF]; simp] at hL
    rcases List.mem_cons.mp hL with h1 | h1
    · rw [h1] at hx; exact absurd hx (List.not_mem_nil x)
    · exact ih (fun y hy => hs y (List.mem_cons_of_mem 10 hy)) L h1 x hx
  | case7 b c rest h1 h2 hd t hv ih =>
    intro hs L hL x hx
    rw [show splitCRLF (b :: c :: rest) = (b :: hd) :: t from by
      rw [splitCRLF, if_neg h1, if_neg h2, hv]] at hL
    have ihs : ∀ L2 ∈ splitCRLF (c :: rest), ∀ y ∈ L2, P y :=
      ih (fun y hy => hs y (List.mem_cons_of_mem b hy))
    rcases List.mem_cons.mp hL with hL1 | hL1
    · rw [hL1] at hx
      rcases List.mem_cons.mp hx with hx1 | hx1
      · rw [hx1]; exact hs b (List.mem_cons_self b _)
      · exact ihs hd (by rw [hv]; exact List.mem_cons_self hd t) x hx1
    · exact ihs L (by rw [hv]; exact List.mem_cons_of_mem hd hL1) x hx
  | case8 b c rest h1 h2 hv ih =>
    intro hs L hL x hx
    exact absurd hv (splitCRLF_ne_nil (c :: rest))

/-- Every byte of the CRLF join comes from a piece or is a line break. -/
theorem mem_joinCRLF : ∀ (Ls : List GoStr) (x : Nat), x ∈ joinCRLF Ls →
    (∃ L ∈ Ls, x ∈ L) ∨ x = 13 ∨ x = 10 := by
  intro Ls
  induction Ls with
  | nil => intro x hx; simp [joinCRLF] at hx
  | cons L rest ih =>
    intro x hx
    rcases rest with _ | ⟨c, r2⟩
    · exact Or.inl ⟨L, by simp, by simpa [joinCRLF] using hx⟩
    · rw [joinCRLF] at hx
      rcases List.mem_append.mp hx with h1 | h1
      · rcases List.mem_append.mp h1 with h2 | h2
        · exact Or.inl ⟨L, by simp, h2⟩
        · simp only [List.mem_cons, List.not_mem_nil, or_false] at h2
          exact Or.inr h2
      · rcases ih x h1 with ⟨L2, hL2, hxL⟩ | hr
        · exact Or.inl ⟨L2, List.mem_cons_of_mem L hL2, hxL⟩
        · exact Or.inr hr

/-- CRLF normalization of an ASCII body, plus the final newline, is
    ASCII. -/
theorem toCRLF_ascii {body : GoStr} (hb : ∀ b ∈ body, b < 0x80) :
    ∀ x ∈ toCRLF body ++ [10], x < 0x80 := by
  intro x hx
  rcases List.mem_append.mp hx with h1 | h1
  · rw [toCRLF] at h1
    rcases mem_joinCRLF (splitCRLF body) x h1 with ⟨L, hL, hxL⟩ | hr
    · exact splitCRLF_pred (fun b => b < 0x80) body hb L hL x hxL
    · rcases hr with h | h <;> omega
  · simp only [List.mem_singleton] at h1
    omega


/-- The byte classes an address must avoid for the bracket scan and the
    header line format to reproduce it exactly. -/
def addrByteOK (x : Nat) : Prop :=
  x < 0x80 ∧ x ≠ 60 ∧ x ≠ 62 ∧ x ≠ 61 ∧ x ≠ 10 ∧ x ≠ 13

instance addrByteOKDec (x : Nat) : Decidable (addrByteOK x) := by
  unfold addrByteOK; infer_instance

/-- Scanning an address's bytes inside brackets accumulates them. -/
theorem innerRec_after_addr : ∀ (a : GoStr), (∀ x ∈ a, addrByteOK x) →
    ∀ (buf rest : GoStr),
    innerRec (a ++ rest) buf true = innerRec rest (buf ++ a) true := by
  intro a
  induction a with
  | nil => intro _ buf rest; rw [List.nil_append, List.append_nil]
  | cons v a2 ih =>
    intro hv buf rest
    obtain ⟨hlt, h60, h62, _, _, _⟩ := hv v (List.mem_cons_self v a2)
    rw [List.cons_append, innerRec, if_neg h60, if_neg h62, encodeRune_ascii hlt,
      ih (fun x hx => hv x (List.mem_cons_of_mem v hx)) (buf ++ [v]) rest]
    simp

/-- The scan over comma-joined bracketed addresses returns them in
    order. -/
theorem innerRec_join : ∀ (addrs : List GoStr),
    (∀ a ∈ addrs, ∀ x ∈ a, addrByteOK x) →
    innerRec (joinCommaSp (addrs.map brackets)) [] false = addrs := by
  intro addrs
  induction addrs with
  | nil => intro _; rfl
  | cons a rest ih =>
    intro ha
    have hba : ∀ x ∈ a, addrByteOK x := ha a (List.mem_cons_self a rest)
    rcases rest with _ | ⟨a2, rest2⟩
    · rw [List.map_cons, List.map_nil,
        show joinCommaSp [brackets a] = brackets a from rfl,
        show brackets a = 60 :: (a ++ [62]) from by
          rw [brackets, show gs "<" = [60] from by decide,
            show gs ">" = [62] from by decide]
          simp]
      rw [innerRec, if_neg (by decide), if_pos (by decide)]
      rw [innerRec_after_addr a hba [] [62]]
      simp only [List.nil_append]
      rw [innerRec, if_neg (by decide), if_pos (by decide)]
      rfl
    · rw [List.map_cons, List.map_cons,
        show joinCommaSp (brackets a :: brackets a2 :: rest2.map brackets) =
          brackets a ++ gs ", " ++
            joinCommaSp (brackets a2 :: rest2.map brackets) from rfl]
      rw [show brackets a ++ gs ", " ++
            joinCommaSp (brackets a2 :: rest2.map brackets) =
          60 :: (a ++ (62 :: 44 :: 32 ::
            joinCommaSp (brackets a2 :: rest2.map brackets))) from by
        rw [brackets, show gs "<" = [60] from by decide,
          show gs ">" = [62] from by decide,
          show gs ", " = [44, 32] from by decide]
        simp]
      rw [innerRec, if_neg (by decide), if_pos (by decide)]
      rw [innerRec_after_addr a hba []]
      simp only [List.nil_append]
      rw [innerRec, if_neg (by decide), if_pos (by decide)]
      rw [innerRec, if_neg (by decide), if_neg (by decide)]
      rw [innerRec, if_neg (by decide), if_neg (by decide)]
      rw [show (brackets a2 :: rest2.map brackets) =
        (a2 :: rest2).map brackets from by rw [List.map_cons]]
      rw [ih (fun a3 h3 => ha a3 (List.mem_cons_of_mem a h3))]

/-- Every byte of a comma-space join comes from a piece or is the comma
    or the space. -/
theorem mem_joinCommaSp : ∀ (ls : List GoStr) (x : Nat), x ∈ joinCommaSp ls →
    (∃ l ∈ ls, x ∈ l) ∨ x = 44 ∨ x = 32 := by
  intro ls
  induction ls with
  | nil => intro x hx; simp [joinCommaSp] at hx
  | cons l rest ih =>
    intro x hx
    rcases rest with _ | ⟨c, r2⟩
    · exact Or.inl ⟨l, by simp, by simpa [joinCommaSp] using hx⟩
    · rw [joinCommaSp] at hx
      rcases List.mem_append.mp hx with h1 | h1
      · rcases List.mem_append.mp h1 with h2 | h2
        · exact Or.inl ⟨l, by simp, h2⟩
        · rw [show gs ", " = [44, 32] from by decide] at h2
          simp only [List.mem_cons, List.not_mem_nil, or_false] at h2
          exact Or.inr h2
      · rcases ih x h1 with ⟨l2, hl2, hxl⟩ | hr
        · exact Or.inl ⟨l2, List.mem_cons_of_mem l hl2, hxl⟩
        · exact Or.inr hr

theorem mem_brackets {a : GoStr} {x : Nat} (hx : x ∈ brackets a) :
    x ∈ a ∨ x = 60 ∨ x = 62 := by
  rw [brackets, show gs "<" = [60] from by decide,
    show gs ">" = [62] from by decide] at hx
  rcases List.mem_append.mp hx with h1 | h1
  · rcases List.mem_append.mp h1 with h2 | h2
    · simp only [List.mem_singleton] at h2
      exact Or.inr (Or.inl h2)
    · exact Or.inl h2
  · simp only [List.mem_singleton] at h1
    exact Or.inr (Or.inr h1)

/-- The joined bracketed address line is ASCII and free of the equals
    byte. -/
theorem joinBrackets_bytes {addrs : List GoStr}
    (ha : ∀ a ∈ addrs, ∀ x ∈ a, addrByteOK x) :
    ∀ x ∈ joinCommaSp (addrs.map brackets), x < 0x80 ∧ x ≠ 61 ∧ x ≠ 10 ∧ x ≠ 13 := by
  intro x hx
  rcases mem_joinCommaSp (addrs.map brackets) x hx with ⟨l, hl, hxl⟩ | hr
  · obtain ⟨a, haa, hba⟩ := List.mem_map.mp hl
    rw [← hba] at hxl
    rcases mem_brackets hxl with h1 | h1
    · obtain ⟨hlt, _, _, h61, h10, h13⟩ := ha a haa x h1
      exact ⟨hlt, h61, h10, h13⟩
    · rcases h1 with h | h <;> rw [h] <;> refine ⟨by omega, by omega, by omega, by omega⟩
  · rcases hr with h | h <;> rw [h] <;> exact ⟨by omega, by omega, by omega, by omega⟩

theorem joinBrackets_ne_nil {addrs : List GoStr} (hne : addrs ≠ []) :
    joinCommaSp (addrs.map brackets) ≠ [] := by
  rcases addrs with _ | ⟨a, rest⟩
  · exact absurd rfl hne
  rcases rest with _ | ⟨a2, rest2⟩
  · rw [List.map_cons, List.map_nil,
      show joinCommaSp [brackets a] = brackets a from rfl,
      brackets, show gs "<" = [60] from by decide]
    simp
  · rw [List.map_cons, List.map_cons,
      show joinCommaSp (brackets a :: brackets a2 :: rest2.map brackets) =
        brackets a ++ gs ", " ++
          joinCommaSp (brackets a2 :: rest2.map brackets) from rfl,
      brackets, show gs "<" = [60] from by decide]
    simp

/-- DecodeAddress recovers exactly the address list Marshal printed. -/
theorem DecodeAddress_join (env : Env) (hwd : WordDecodeId env)
    (addrs : List GoStr) (hne : addrs ≠ [])
    (ha : ∀ a ∈ addrs, ∀ x ∈ a, addrByteOK x) :
    DecodeAddress env (joinCommaSp (addrs.map brackets)) = Except.ok addrs := by
  have hbytes := joinBrackets_bytes ha
  have hdh : decodeHeader env (joinCommaSp (addrs.map brackets)) =
      Except.ok (joinCommaSp (addrs.map brackets)) :=
    decodeHeader_id hwd
      (hasEncWord_no61 _ (fun x hx => (hbytes x hx).2.1))
      (utf8Valid_all_ascii _ (fun x hx => (hbytes x hx).1))
  have hscan : scanAddrs (joinCommaSp (addrs.map brackets)) = addrs := by
    rw [scanAddrs, addrFold_innerRec,
      goRunes_of_ascii (fun x hx => (hbytes x hx).1), innerRec_join addrs ha]
    rfl
  rw [DecodeAddress, if_neg (joinBrackets_ne_nil hne), hdh]
  simp only [hscan]
  rw [if_neg hne]


theorem parseLines_step {l k v : GoStr} (h : splitColon (trimCR l) = some (k, v))
    (acc : MIMEHdr) (rest : List GoStr) :
    parseLines acc (l :: rest) =
      parseLines (addHeader acc (canonKey k)
        (v.dropWhile (fun b => decide (b = 32 ∨ b = 9)))) rest := by
  rw [parseLines, h]

theorem parseLines_nil (acc : MIMEHdr) : parseLines acc [] = Except.ok acc := rfl

/-- Dropping the single separating space before a value that does not
    itself start with whitespace. -/
theorem dropWhile_ws_space {w : GoStr}
    (hw : w = [] ∨ ¬(w.headD 0 = 32 ∨ w.headD 0 = 9)) :
    ([32] ++ w).dropWhile (fun b => decide (b = 32 ∨ b = 9)) = w := by
  rw [show ([32] ++ w : GoStr) = 32 :: w from rfl, List.dropWhile_cons,
    if_pos (by simp)]
  rcases hw with h | h
  · rw [h]
    rfl
  · rcases w with _ | ⟨w0, wr⟩
    · rfl
    · rw [List.dropWhile_cons, if_neg (by simpa using h)]

theorem hGet_cons (k0 : GoStr) (vs : List GoStr) (rest : MIMEHdr) (k : GoStr) :
    hGet ((k0, vs) :: rest) k = if k0 = k then vs.headD [] else hGet rest k := by
  by_cases h : k0 = k
  · rw [if_pos h, hGet, List.find?_cons_of_pos _ (by simp [h])]
  · rw [if_neg h, hGet, hGet, List.find?_cons_of_neg _ (by simp [h])]

theorem hGet_nil (k : GoStr) : hGet [] k = [] := rfl

/-- The text/plain, quoted-printable body decode of the round trip: the
    body comes back CRLF-normalized with the end-of-stream newline. -/
theorem decodeBody_text_qp (env : Env) (fuel : Nat) (m : Message) (body : GoStr)
    (h : MIMEHdr)
    (hct : hGet h (gs "Content-Type") = gs "text/plain; charset=utf-8;")
    (hcd : hGet h (gs "Content-Disposition") = [])
    (hcte : hGet h (gs "Content-Transfer-Encoding") = gs "quoted-printable")
    (hpm : env.parseMediaTy (gs "text/plain; charset=utf-8;") =
      Except.ok (gs "text/plain", [(gs "charset", gs "utf-8")]))
    (hcs : env.lookupCharset (gs "utf-8") = some Except.ok)
    (hb : ∀ b ∈ body, b < 0x80) :
    decodeBody env (fuel + 1) m (qpEncode body) h =
      Except.ok { m with Body := m.Body ++ (toCRLF body ++ [10]) } := by
  have hb256 : ∀ b ∈ body, b < 256 := fun b hbb => by have := hb b hbb; omega
  have hff : foundFilename env h [(gs "charset", gs "utf-8")] = Except.ok [] := by
    rw [foundFilename,
      show lookupParam [(gs "charset", gs "utf-8")] (gs "name") = [] from by decide]
    rw [if_pos rfl, hcd, if_pos rfl]
  have htr : decodeTransfer (qpEncode body) (gs "quoted-printable") =
      TransferReader.qp (qpEncode body) := by
    rw [decodeTransfer]
    rw [if_neg (by decide), if_pos (by decide)]
  have hread : textRead (qpEncode body) (gs "quoted-printable") =
      Except.ok (toCRLF body ++ [10]) := by
    rw [textRead]
    simp only [htr]
    rw [transferReadAll, filterAscii_qpEncode hb256, qp_roundtrip hb256]
  have hdc : decodeCharset env (toCRLF body ++ [10]) (gs "utf-8") =
      Except.ok (toCRLF body ++ [10]) := by
    rw [decodeCharset]
    simp only [hcs]
    rw [stripNonUTF8_of_valid (utf8Valid_all_ascii _ (toCRLF_ascii hb))]
  rw [decodeBody]
  simp only [hct]
  rw [if_neg (by decide : ¬(gs "text/plain; charset=utf-8;" = []))]
  simp only [hpm]
  simp only [hff]
  rw [if_neg (fun hc => hc rfl)]
  rw [if_pos (show True ∨ gs "text/plain" = gs "text/html" from Or.inl trivial)]
  rw [hcte]
  simp only [hread]
  rw [show lookupParam [(gs "charset", gs "utf-8")] (gs "charset") = gs "utf-8"
    from by decide]
  simp only [hdc]
  rw [if_neg (by decide : ¬(gs "text/plain" = gs "text/html"))]


theorem append_ne_nil {a : GoStr} (h : a ≠ []) (b : GoStr) : a ++ b ≠ [] := by
  intro hc
  exact h (List.append_eq_nil.mp hc).1

/-- Splitting a stream of newline-terminated lines followed by a tail. -/
theorem goSplit_lines : ∀ (ls : List GoStr), (∀ l ∈ ls, ∀ x ∈ l, x ≠ 10) →
    ∀ tail : GoStr,
    goSplit 10 ((ls.map (fun l => l ++ [10])).flatten ++ tail) =
      ls ++ goSplit 10 tail := by
  intro ls
  induction ls with
  | nil => intro _ tail; simp
  | cons l rest ih =>
    intro hb tail
    rw [List.map_cons, List.flatten_cons]
    rw [show l ++ [10] ++ (rest.map (fun l => l ++ [10])).flatten ++ tail =
        l ++ (10 :: ((rest.map (fun l => l ++ [10])).flatten ++ tail)) from by simp]
    rw [goSplit_append_no10 l (fun x hx => hb l (List.mem_cons_self l rest) x hx)
      _ (goSplit_cons10 _)]
    rw [List.append_nil, ih (fun l2 h2 => hb l2 (List.mem_cons_of_mem l h2)) tail]
    rfl

theorem line_bytes_of {pre w : GoStr} (hpre : ∀ x ∈ pre, x ≠ 10 ∧ x ≠ 13)
    (hw : ∀ x ∈ w, x ≠ 10 ∧ x ≠ 13) : ∀ x ∈ pre ++ w, x ≠ 10 ∧ x ≠ 13 := by
  intro x hx
  rcases List.mem_append.mp hx with h | h
  · exact hpre x h
  · exact hw x h

theorem addr_bytes_nl {a : GoStr} (ha : ∀ x ∈ a, addrByteOK x) :
    ∀ x ∈ a, x ≠ 10 ∧ x ≠ 13 :=
  fun x hx => ⟨(ha x hx).2.2.2.2.1, (ha x hx).2.2.2.2.2⟩

theorem join_bytes_nl {addrs : List GoStr}
    (ha : ∀ a ∈ addrs, ∀ x ∈ a, addrByteOK x) :
    ∀ x ∈ joinCommaSp (addrs.map brackets), x ≠ 10 ∧ x ≠ 13 :=
  fun x hx => ⟨(joinBrackets_bytes ha x hx).2.2.1, (joinBrackets_bytes ha x hx).2.2.2⟩

theorem colon_from (From : GoStr) (h13 : ∀ x ∈ From, x ≠ 13) :
    splitColon (trimCR (gs "From: <" ++ From ++ gs ">")) =
      some (gs "From", [32] ++ brackets From) := by
  rw [trimCR_no13 (by
    intro x hx
    rcases List.mem_append.mp hx with h | h
    · rcases List.mem_append.mp h with h2 | h2
      · exact (by decide : ∀ y ∈ gs "From: <", y ≠ 13) x h2
      · exact h13 x h2
    · exact (by decide : ∀ y ∈ gs ">", y ≠ 13) x h)]
  rw [show gs "From: <" ++ From ++ gs ">" =
      gs "From" ++ [58] ++ ([32] ++ brackets From) from by
    rw [brackets, show gs "<" = [60] from by decide,
      show gs ">" = [62] from by decide,
      show gs "From: <" = gs "From" ++ [58] ++ ([32] ++ [60]) from by decide]
    simp]
  exact splitColon_append (gs "From") (by decide) _

theorem colon_to {addrs : List GoStr} (ha : ∀ a ∈ addrs, ∀ x ∈ a, addrByteOK x) :
    splitColon (trimCR (gs "To: " ++ joinCommaSp (addrs.map brackets))) =
      some (gs "To", [32] ++ joinCommaSp (addrs.map brackets)) := by
  rw [trimCR_no13 (by
    intro x hx
    rcases List.mem_append.mp hx with h | h
    · exact (by decide : ∀ y ∈ gs "To: ", y ≠ 13) x h
    · exact (join_bytes_nl ha x h).2)]
  rw [show gs "To: " ++ joinCommaSp (addrs.map brackets) =
      gs "To" ++ [58] ++ ([32] ++ joinCommaSp (addrs.map brackets)) from by
    rw [show gs "To: " = gs "To" ++ [58] ++ [32] from by decide]
    simp]
  exact splitColon_append (gs "To") (by decide) _

theorem colon_cc {addrs : List GoStr} (ha : ∀ a ∈ addrs, ∀ x ∈ a, addrByteOK x) :
    splitColon (trimCR (gs "CC: " ++ joinCommaSp (addrs.map brackets))) =
      some (gs "CC", [32] ++ joinCommaSp (addrs.map brackets)) := by
  rw [trimCR_no13 (by
    intro x hx
    rcases List.mem_append.mp hx with h | h
    · exact (by decide : ∀ y ∈ gs "CC: ", y ≠ 13) x h
    · exact (join_bytes_nl ha x h).2)]
  rw [show gs "CC: " ++ joinCommaSp (addrs.map brackets) =
      gs "CC" ++ [58] ++ ([32] ++ joinCommaSp (addrs.map brackets)) from by
    rw [show gs "CC: " = gs "CC" ++ [58] ++ [32] from by decide]
    simp]
  exact splitColon_append (gs "CC") (by decide) _

theorem colon_id {idv : GoStr} (h13 : ∀ x ∈ idv, x ≠ 13) :
    splitColon (trimCR (gs "Message-ID: " ++ idv)) =
      some (gs "Message-ID", [32] ++ idv) := by
  rw [trimCR_no13 (by
    intro x hx
    rcases List.mem_append.mp hx with h | h
    · exact (by decide : ∀ y ∈ gs "Message-ID: ", y ≠ 13) x h
    · exact h13 x h)]
  rw [show gs "Message-ID: " ++ idv = gs "Message-ID" ++ [58] ++ ([32] ++ idv) from by
    rw [show gs "Message-ID: " = gs "Message-ID" ++ [58] ++ [32] from by decide]
    simp]
  exact splitColon_append (gs "Message-ID") (by decide) _

theorem colon_subject {sv : GoStr} (h13 : ∀ x ∈ sv, x ≠ 13) :
    splitColon (trimCR (gs "Subject: " ++ sv)) =
      some (gs "Subject", [32] ++ sv) := by
  rw [trimCR_no13 (by
    intro x hx
    rcases List.mem_append.mp hx with h | h
    · exact (by decide : ∀ y ∈ gs "Subject: ", y ≠ 13) x h
    · exact h13 x h)]
  rw [show gs "Subject: " ++ sv = gs "Subject" ++ [58] ++ ([32] ++ sv) from by
    rw [show gs "Subject: " = gs "Subject" ++ [58] ++ [32] from by decide]
    simp]
  exact splitColon_append (gs "Subject") (by decide) _

theorem colon_date {dv : GoStr} (h13 : ∀ x ∈ dv, x ≠ 13) :
    splitColon (trimCR (gs "Date: " ++ dv)) = some (gs "Date", [32] ++ dv) := by
  rw [trimCR_no13 (by
    intro x hx
    rcases List.mem_append.mp hx with h | h
    · exact (by decide : ∀ y ∈ gs "Date: ", y ≠ 13) x h
    · exact h13 x h)]
  rw [show gs "Date: " ++ dv = gs "Date" ++ [58] ++ ([32] ++ dv) from by
    rw [show gs "Date: " = gs "Date" ++ [58] ++ [32] from by decide]
    simp]
  exact splitColon_append (gs "Date") (by decide) _

theorem colon_ct : splitColon (trimCR (gs "Content-Type: text/plain; charset=utf-8;")) =
    some (gs "Content-Type", [32] ++ gs "text/plain; charset=utf-8;") := by decide

theorem colon_cte :
    splitColon (trimCR (gs "Content-Transfer-Encoding: quoted-printable")) =
      some (gs "Content-Transfer-Encoding", [32] ++ gs "quoted-printable") := by decide

/-- The head byte of a joined bracketed address line is the opening
    bracket. -/
theorem joinBrackets_head {addrs : List GoStr} (hne : addrs ≠ []) :
    (joinCommaSp (addrs.map brackets)).headD 0 = 60 := by
  rcases addrs with _ | ⟨a, rest⟩
  · exact absurd rfl hne
  rcases rest with _ | ⟨a2, rest2⟩
  · rw [List.map_cons, List.map_nil,
      show joinCommaSp [brackets a] = brackets a from rfl, brackets,
      show gs "<" = [60] from by decide]
    rfl
  · rw [List.map_cons, List.map_cons,
      show joinCommaSp (brackets a :: brackets a2 :: rest2.map brackets) =
        brackets a ++ gs ", " ++
          joinCommaSp (brackets a2 :: rest2.map brackets) from rfl,
      brackets, show gs "<" = [60] from by decide]
    rfl


theorem restHeaders_rt (env : Env) (hwd : WordDecodeId env)
    (w1 w2 w3 idv sv dv : GoStr) :
    restHeaders env
      [(gs "From", [w1]), (gs "To", [w2]), (gs "Cc", [w3]),
       (gs "Message-Id", [idv]), (gs "Subject", [sv]), (gs "Date", [dv]),
       (gs "Content-Type", [gs "text/plain; charset=utf-8;"]),
       (gs "Content-Transfer-Encoding", [gs "quoted-printable"])] =
      Except.ok [(gs "Content-Type", gs "text/plain; charset=utf-8;"),
        (gs "Content-Transfer-Encoding", gs "quoted-printable")] := by
  rw [restHeaders, if_pos (by decide)]
  rw [restHeaders, if_pos (by decide)]
  rw [restHeaders, if_pos (by decide)]
  rw [restHeaders, if_pos (by decide)]
  rw [restHeaders, if_pos (by decide)]
  rw [restHeaders, if_pos (by decide)]
  rw [restHeaders, if_neg (by decide)]
  rw [show decodeHdrVals env [gs "text/plain; charset=utf-8;"] [] =
      Except.ok (gs "text/plain; charset=utf-8;") from by
    rw [decodeHdrVals, decodeHeader_id hwd (by decide) (by decide)]
    rfl]
  rw [restHeaders, if_neg (by decide)]
  rw [show decodeHdrVals env [gs "quoted-printable"] [] =
      Except.ok (gs "quoted-printable") from by
    rw [decodeHdrVals, decodeHeader_id hwd (by decide) (by decide)]
    rfl]
  rw [restHeaders]

theorem restHeaders_rt7 (env : Env) (hwd : WordDecodeId env)
    (w1 w2 idv sv dv : GoStr) :
    restHeaders env
      [(gs "From", [w1]), (gs "To", [w2]),
       (gs "Message-Id", [idv]), (gs "Subject", [sv]), (gs "Date", [dv]),
       (gs "Content-Type", [gs "text/plain; charset=utf-8;"]),
       (gs "Content-Transfer-Encoding", [gs "quoted-printable"])] =
      Except.ok [(gs "Content-Type", gs "text/plain; charset=utf-8;"),
        (gs "Content-Transfer-Encoding", gs "quoted-printable")] := by
  rw [restHeaders, if_pos (by decide)]
  rw [restHeaders, if_pos (by decide)]
  rw [restHeaders, if_pos (by decide)]
  rw [restHeaders, if_pos (by decide)]
  rw [restHeaders, if_pos (by decide)]
  rw [restHeaders, if_neg (by decide)]
  rw [show decodeHdrVals env [gs "text/plain; charset=utf-8;"] [] =
      Except.ok (gs "text/plain; charset=utf-8;") from by
    rw [decodeHdrVals, decodeHeader_id hwd (by decide) (by decide)]
    rfl]
  rw [restHeaders, if_neg (by decide)]
  rw [show decodeHdrVals env [gs "quoted-printable"] [] =
      Except.ok (gs "quoted-printable") from by
    rw [decodeHdrVals, decodeHeader_id hwd (by decide) (by decide)]
    rfl]
  rw [restHeaders]

theorem brackets_ne_nil (a : GoStr) : brackets a ≠ [] := by
  rw [brackets, show gs "<" = [60] from by decide]
  simp

theorem brackets_single (a : GoStr) :
    brackets a = joinCommaSp ([a].map brackets) := rfl

theorem DecodeAddress_one (env : Env) (hwd : WordDecodeId env) (a : GoStr)
    (ha : ∀ x ∈ a, addrByteOK x) :
    DecodeAddress env (brackets a) = Except.ok [a] := by
  rw [brackets_single]
  exact DecodeAddress_join env hwd [a] (by simp)
    (fun a2 h2 x hx => by
      rcases List.mem_cons.mp h2 with h | h
      · rw [h] at hx; exact ha x hx
      · exact absurd h (List.not_mem_nil a2))

theorem readEnvelope_rt (env : Env) (hwd : WordDecodeId env)
    (From subject idv dv : GoStr) (to' cc : List GoStr)
    (hFrom : ∀ x ∈ From, addrByteOK x)
    (hto : to' ≠ []) (htoB : ∀ a ∈ to', ∀ x ∈ a, addrByteOK x)
    (hcc : cc ≠ []) (hccB : ∀ a ∈ cc, ∀ x ∈ a, addrByteOK x)
    (hsubEnc : hasEncWord subject = false)
    (hsubVal : utf8Valid subject = true)
    (hsubNE : subject ≠ []) :
    readEnvelope env
      [(gs "From", [brackets From]),
       (gs "To", [joinCommaSp (to'.map brackets)]),
       (gs "Cc", [joinCommaSp (cc.map brackets)]),
       (gs "Message-Id", [idv]),
       (gs "Subject", [subject]),
       (gs "Date", [dv]),
       (gs "Content-Type", [gs "text/plain; charset=utf-8;"]),
       (gs "Content-Transfer-Encoding", [gs "quoted-printable"])] =
      Except.ok
        { ID := if idv ≠ [] then idv else env.genID
          ReturnPath := From
          From := From
          To := to'
          CC := cc
          Subject := subject
          Date := match env.parseDate dv with
            | some d => d
            | none => env.nowDate
          IsHTML := false
          HTML := []
          Body := []
          Parts := []
          Headers := [(gs "Content-Type", gs "text/plain; charset=utf-8;"),
            (gs "Content-Transfer-Encoding", gs "quoted-printable")] } := by
  have g1 : hGet
      [(gs "From", [brackets From]),
       (gs "To", [joinCommaSp (to'.map brackets)]),
       (gs "Cc", [joinCommaSp (cc.map brackets)]),
       (gs "Message-Id", [idv]),
       (gs "Subject", [subject]),
       (gs "Date", [dv]),
       (gs "Content-Type", [gs "text/plain; charset=utf-8;"]),
       (gs "Content-Transfer-Encoding", [gs "quoted-printable"])] (gs "Subject") = subject := by
    simp +decide only [hGet_cons, hGet_nil, ite_false, ite_true, List.headD]
  have gRP : hGet
      [(gs "From", [brackets From]),
       (gs "To", [joinCommaSp (to'.map brackets)]),
       (gs "Cc", [joinCommaSp (cc.map brackets)]),
       (gs "Message-Id", [idv]),
       (gs "Subject", [subject]),
       (gs "Date", [dv]),
       (gs "Content-Type", [gs "text/plain; charset=utf-8;"]),
       (gs "Content-Transfer-Encoding", [gs "quoted-printable"])] (gs "Return-Path") = [] := by
    simp +decide only [hGet_cons, hGet_nil, ite_false, ite_true, List.headD]
  have gF : hGet
      [(gs "From", [brackets From]),
       (gs "To", [joinCommaSp (to'.map brackets)]),
       (gs "Cc", [joinCommaSp (cc.map brackets)]),
       (gs "Message-Id", [idv]),
       (gs "Subject", [subject]),
       (gs "Date", [dv]),
       (gs "Content-Type", [gs "text/plain; charset=utf-8;"]),
       (gs "Content-Transfer-Encoding", [gs "quoted-printable"])] (gs "From") = brackets From := by
    simp +decide only [hGet_cons, hGet_nil, ite_false, ite_true, List.headD]
  have gT : hGet
      [(gs "From", [brackets From]),
       (gs "To", [joinCommaSp (to'.map brackets)]),
       (gs "Cc", [joinCommaSp (cc.map brackets)]),
       (gs "Message-Id", [idv]),
       (gs "Subject", [subject]),
       (gs "Date", [dv]),
       (gs "Content-Type", [gs "text/plain; charset=utf-8;"]),
       (gs "Content-Transfer-Encoding", [gs "quoted-printable"])] (gs "To") = joinCommaSp (to'.map brackets) := by
    simp +decide only [hGet_cons, hGet_nil, ite_false, ite_true, List.headD]
  have gC : hGet
      [(gs "From", [brackets From]),
       (gs "To", [joinCommaSp (to'.map brackets)]),
       (gs "Cc", [joinCommaSp (cc.map brackets)]),
       (gs "Message-Id", [idv]),
       (gs "Subject", [subject]),
       (gs "Date", [dv]),
       (gs "Content-Type", [gs "text/plain; charset=utf-8;"]),
       (gs "Content-Transfer-Encoding", [gs "quoted-printable"])] (gs "Cc") = joinCommaSp (cc.map brackets) := by
    simp +decide only [hGet_cons, hGet_nil, ite_false, ite_true, List.headD]
  have gI : hGet
      [(gs "From", [brackets From]),
       (gs "To", [joinCommaSp (to'.map brackets)]),
       (gs "Cc", [joinCommaSp (cc.map brackets)]),
       (gs "Message-Id", [idv]),
       (gs "Subject", [subject]),
       (gs "Date", [dv]),
       (gs "Content-Type", [gs "text/plain; charset=utf-8;"]),
       (gs "Content-Transfer-Encoding", [gs "quoted-printable"])] (gs "Message-Id") = idv := by
    simp +decide only [hGet_cons, hGet_nil, ite_false, ite_true, List.headD]
  have gD : hGet
      [(gs "From", [brackets From]),
       (gs "To", [joinCommaSp (to'.map brackets)]),
       (gs "Cc", [joinCommaSp (cc.map brackets)]),
       (gs "Message-Id", [idv]),
       (gs "Subject", [subject]),
       (gs "Date", [dv]),
       (gs "Content-Type", [gs "text/plain; charset=utf-8;"]),
       (gs "Content-Transfer-Encoding", [gs "quoted-printable"])] (gs "Date") = dv := by
    simp +decide only [hGet_cons, hGet_nil, ite_false, ite_true, List.headD]
  have s1 : decodeHeader env (hGet
      [(gs "From", [brackets From]),
       (gs "To", [joinCommaSp (to'.map brackets)]),
       (gs "Cc", [joinCommaSp (cc.map brackets)]),
       (gs "Message-Id", [idv]),
       (gs "Subject", [subject]),
       (gs "Date", [dv]),
       (gs "Content-Type", [gs "text/plain; charset=utf-8;"]),
       (gs "Content-Transfer-Encoding", [gs "quoted-printable"])] (gs "Subject")) = Except.ok subject := by
    rw [g1]
    exact decodeHeader_id hwd hsubEnc hsubVal
  have s2 : (if hGet
      [(gs "From", [brackets From]),
       (gs "To", [joinCommaSp (to'.map brackets)]),
       (gs "Cc", [joinCommaSp (cc.map brackets)]),
       (gs "Message-Id", [idv]),
       (gs "Subject", [subject]),
       (gs "Date", [dv]),
       (gs "Content-Type", [gs "text/plain; charset=utf-8;"]),
       (gs "Content-Transfer-Encoding", [gs "quoted-printable"])] (gs "Return-Path") = [] then Except.ok []
      else DecodeAddress env (hGet
      [(gs "From", [brackets From]),
       (gs "To", [joinCommaSp (to'.map brackets)]),
       (gs "Cc", [joinCommaSp (cc.map brackets)]),
       (gs "Message-Id", [idv]),
       (gs "Subject", [subject]),
       (gs "Date", [dv]),
       (gs "Content-Type", [gs "text/plain; charset=utf-8;"]),
       (gs "Content-Transfer-Encoding", [gs "quoted-printable"])] (gs "Return-Path"))) = Except.ok ([] : List GoStr) := by
    simp [gRP]
  have s3 : (if hGet
      [(gs "From", [brackets From]),
       (gs "To", [joinCommaSp (to'.map brackets)]),
       (gs "Cc", [joinCommaSp (cc.map brackets)]),
       (gs "Message-Id", [idv]),
       (gs "Subject", [subject]),
       (gs "Date", [dv]),
       (gs "Content-Type", [gs "text/plain; charset=utf-8;"]),
       (gs "Content-Transfer-Encoding", [gs "quoted-printable"])] (gs "From") = [] then Except.ok []
      else DecodeAddress env (hGet
      [(gs "From", [brackets From]),
       (gs "To", [joinCommaSp (to'.map brackets)]),
       (gs "Cc", [joinCommaSp (cc.map brackets)]),
       (gs "Message-Id", [idv]),
       (gs "Subject", [subject]),
       (gs "Date", [dv]),
       (gs "Content-Type", [gs "text/plain; charset=utf-8;"]),
       (gs "Content-Transfer-Encoding", [gs "quoted-printable"])] (gs "From"))) = Except.ok [From] := by
    rw [gF, if_neg (brackets_ne_nil From)]
    exact DecodeAddress_one env hwd From hFrom
  have s4 : (if hGet
      [(gs "From", [brackets From]),
       (gs "To", [joinCommaSp (to'.map brackets)]),
       (gs "Cc", [joinCommaSp (cc.map brackets)]),
       (gs "Message-Id", [idv]),
       (gs "Subject", [subject]),
       (gs "Date", [dv]),
       (gs "Content-Type", [gs "text/plain; charset=utf-8;"]),
       (gs "Content-Transfer-Encoding", [gs "quoted-printable"])] (gs "To") = [] then Except.ok []
      else DecodeAddress env (hGet
      [(gs "From", [brackets From]),
       (gs "To", [joinCommaSp (to'.map brackets)]),
       (gs "Cc", [joinCommaSp (cc.map brackets)]),
       (gs "Message-Id", [idv]),
       (gs "Subject", [subject]),
       (gs "Date", [dv]),
       (gs "Content-Type", [gs "text/plain; charset=utf-8;"]),
       (gs "Content-Transfer-Encoding", [gs "quoted-printable"])] (gs "To"))) = Except.ok to' := by
    rw [gT, if_neg (joinBrackets_ne_nil hto)]
    exact DecodeAddress_join env hwd to' hto htoB
  have s5 : (if hGet
      [(gs "From", [brackets From]),
       (gs "To", [joinCommaSp (to'.map brackets)]),
       (gs "Cc", [joinCommaSp (cc.map brackets)]),
       (gs "Message-Id", [idv]),
       (gs "Subject", [subject]),
       (gs "Date", [dv]),
       (gs "Content-Type", [gs "text/plain; charset=utf-8;"]),
       (gs "Content-Transfer-Encoding", [gs "quoted-printable"])] (gs "Cc") = [] then Except.ok []
      else DecodeAddress env (hGet
      [(gs "From", [brackets From]),
       (gs "To", [joinCommaSp (to'.map brackets)]),
       (gs "Cc", [joinCommaSp (cc.map brackets)]),
       (gs "Message-Id", [idv]),
       (gs "Subject", [subject]),
       (gs "Date", [dv]),
       (gs "Content-Type", [gs "text/plain; charset=utf-8;"]),
       (gs "Content-Transfer-Encoding", [gs "quoted-printable"])] (gs "Cc"))) = Except.ok cc := by
    rw [gC, if_neg (joinBrackets_ne_nil hcc)]
    exact DecodeAddress_join env hwd cc hcc hccB
  have s6 := restHeaders_rt env hwd (brackets From)
    (joinCommaSp (to'.map brackets)) (joinCommaSp (cc.map brackets)) idv subject dv
  rw [readEnvelope]
  simp only [s1, s2, s3, s4, s5, s6, gI, gD, List.headD, eq_self_iff_true,
    ite_true]
  rw [if_pos hsubNE]


theorem readEnvelope_rt7 (env : Env) (hwd : WordDecodeId env)
    (From subject idv dv : GoStr) (to' : List GoStr)
    (hFrom : ∀ x ∈ From, addrByteOK x)
    (hto : to' ≠ []) (htoB : ∀ a ∈ to', ∀ x ∈ a, addrByteOK x)
    (hsubEnc : hasEncWord subject = false)
    (hsubVal : utf8Valid subject = true)
    (hsubNE : subject ≠ []) :
    readEnvelope env
      [(gs "From", [brackets From]),
       (gs "To", [joinCommaSp (to'.map brackets)]),
       (gs "Message-Id", [idv]),
       (gs "Subject", [subject]),
       (gs "Date", [dv]),
       (gs "Content-Type", [gs "text/plain; charset=utf-8;"]),
       (gs "Content-Transfer-Encoding", [gs "quoted-printable"])] =
      Except.ok
        { ID := if idv ≠ [] then idv else env.genID
          ReturnPath := From
          From := From
          To := to'
          CC := []
          Subject := subject
          Date := match env.parseDate dv with
            | some d => d
            | none => env.nowDate
          IsHTML := false
          HTML := []
          Body := []
          Parts := []
          Headers := [(gs "Content-Type", gs "text/plain; charset=utf-8;"),
            (gs "Content-Transfer-Encoding", gs "quoted-printable")] } := by
  have g1 : hGet
      [(gs "From", [brackets From]),
       (gs "To", [joinCommaSp (to'.map brackets)]),
       (gs "Message-Id", [idv]),
       (gs "Subject", [subject]),
       (gs "Date", [dv]),
       (gs "Content-Type", [gs "text/plain; charset=utf-8;"]),
       (gs "Content-Transfer-Encoding", [gs "quoted-printable"])] (gs "Subject") = subject := by
    simp +decide only [hGet_cons, hGet_nil, ite_false, ite_true, List.headD]
  have gRP : hGet
      [(gs "From", [brackets From]),
       (gs "To", [joinCommaSp (to'.map brackets)]),
       (gs "Message-Id", [idv]),
       (gs "Subject", [subject]),
       (gs "Date", [dv]),
       (gs "Content-Type", [gs "text/plain; charset=utf-8;"]),
       (gs "Content-Transfer-Encoding", [gs "quoted-printable"])] (gs "Return-Path") = [] := by
    simp +decide only [hGet_cons, hGet_nil, ite_false, ite_true, List.headD]
  have gF : hGet
      [(gs "From", [brackets From]),
       (gs "To", [joinCommaSp (to'.map brackets)]),
       (gs "Message-Id", [idv]),
       (gs "Subject", [subject]),
       (gs "Date", [dv]),
       (gs "Content-Type", [gs "text/plain; charset=utf-8;"]),
       (gs "Content-Transfer-Encoding", [gs "quoted-printable"])] (gs "From") = brackets From := by
    simp +decide only [hGet_cons, hGet_nil, ite_false, ite_true, List.headD]
  have gT : hGet
      [(gs "From", [brackets From]),
       (gs "To", [joinCommaSp (to'.map brackets)]),
       (gs "Message-Id", [idv]),
       (gs "Subject", [subject]),
       (gs "Date", [dv]),
       (gs "Content-Type", [gs "text/plain; charset=utf-8;"]),
       (gs "Content-Transfer-Encoding", [gs "quoted-printable"])] (gs "To") = joinCommaSp (to'.map brackets) := by
    simp +decide only [hGet_cons, hGet_nil, ite_false, ite_true, List.headD]
  have gC : hGet
      [(gs "From", [brackets From]),
       (gs "To", [joinCommaSp (to'.map brackets)]),
       (gs "Message-Id", [idv]),
       (gs "Subject", [subject]),
       (gs "Date", [dv]),
       (gs "Content-Type", [gs "text/plain; charset=utf-8;"]),
       (gs "Content-Transfer-Encoding", [gs "quoted-printable"])] (gs "Cc") = [] := by
    simp +decide only [hGet_cons, hGet_nil, ite_false, ite_true, List.headD]
  have gI : hGet
      [(gs "From", [brackets From]),
       (gs "To", [joinCommaSp (to'.map brackets)]),
       (gs "Message-Id", [idv]),
       (gs "Subject", [subject]),
       (gs "Date", [dv]),
       (gs "Content-Type", [gs "text/plain; charset=utf-8;"]),
       (gs "Content-Transfer-Encoding", [gs "quoted-printable"])] (gs "Message-Id") = idv := by
    simp +decide only [hGet_cons, hGet_nil, ite_false, ite_true, List.headD]
  have gD : hGet
      [(gs "From", [brackets From]),
       (gs "To", [joinCommaSp (to'.map brackets)]),
       (gs "Message-Id", [idv]),
       (gs "Subject", [subject]),
       (gs "Date", [dv]),
       (gs "Content-Type", [gs "text/plain; charset=utf-8;"]),
       (gs "Content-Transfer-Encoding", [gs "quoted-printable"])] (gs "Date") = dv := by
    simp +decide only [hGet_cons, hGet_nil, ite_false, ite_true, List.headD]
  have s1 : decodeHeader env (hGet
      [(gs "From", [brackets From]),
       (gs "To", [joinCommaSp (to'.map brackets)]),
       (gs "Message-Id", [idv]),
       (gs "Subject", [subject]),
       (gs "Date", [dv]),
       (gs "Content-Type", [gs "text/plain; charset=utf-8;"]),
       (gs "Content-Transfer-Encoding", [gs "quoted-printable"])] (gs "Subject")) = Except.ok subject := by
    rw [g1]
    exact decodeHeader_id hwd hsubEnc hsubVal
  have s2 : (if hGet
      [(gs "From", [brackets From]),
       (gs "To", [joinCommaSp (to'.map brackets)]),
       (gs "Message-Id", [idv]),
       (gs "Subject", [subject]),
       (gs "Date", [dv]),
       (gs "Content-Type", [gs "text/plain; charset=utf-8;"]),
       (gs "Content-Transfer-Encoding", [gs "quoted-printable"])] (gs "Return-Path") = [] then Except.ok []
      else DecodeAddress env (hGet
      [(gs "From", [brackets From]),
       (gs "To", [joinCommaSp (to'.map brackets)]),
       (gs "Message-Id", [idv]),
       (gs "Subject", [subject]),
       (gs "Date", [dv]),
       (gs "Content-Type", [gs "text/plain; charset=utf-8;"]),
       (gs "Content-Transfer-Encoding", [gs "quoted-printable"])] (gs "Return-Path"))) = Except.ok ([] : List GoStr) := by
    simp [gRP]
  have s3 : (if hGet
      [(gs "From", [brackets From]),
       (gs "To", [joinCommaSp (to'.map brackets)]),
       (gs "Message-Id", [idv]),
       (gs "Subject", [subject]),
       (gs "Date", [dv]),
       (gs "Content-Type", [gs "text/plain; charset=utf-8;"]),
       (gs "Content-Transfer-Encoding", [gs "quoted-printable"])] (gs "From") = [] then Except.ok []
      else DecodeAddress env (hGet
      [(gs "From", [brackets From]),
       (gs "To", [joinCommaSp (to'.map brackets)]),
       (gs "Message-Id", [idv]),
       (gs "Subject", [subject]),
       (gs "Date", [dv]),
       (gs "Content-Type", [gs "text/plain; charset=utf-8;"]),
       (gs "Content-Transfer-Encoding", [gs "quoted-printable"])] (gs "From"))) = Except.ok [From] := by
    rw [gF, if_neg (brackets_ne_nil From)]
    exact DecodeAddress_one env hwd From hFrom
  have s4 : (if hGet
      [(gs "From", [brackets From]),
       (gs "To", [joinCommaSp (to'.map brackets)]),
       (gs "Message-Id", [idv]),
       (gs "Subject", [subject]),
       (gs "Date", [dv]),
       (gs "Content-Type", [gs "text/plain; charset=utf-8;"]),
       (gs "Content-Transfer-Encoding", [gs "quoted-printable"])] (gs "To") = [] then Except.ok []
      else DecodeAddress env (hGet
      [(gs "From", [brackets From]),
       (gs "To", [joinCommaSp (to'.map brackets)]),
       (gs "Message-Id", [idv]),
       (gs "Subject", [subject]),
       (gs "Date", [dv]),
       (gs "Content-Type", [gs "text/plain; charset=utf-8;"]),
       (gs "Content-Transfer-Encoding", [gs "quoted-printable"])] (gs "To"))) = Except.ok to' := by
    rw [gT, if_neg (joinBrackets_ne_nil hto)]
    exact DecodeAddress_join env hwd to' hto htoB
  have s5 : (if hGet
      [(gs "From", [brackets From]),
       (gs "To", [joinCommaSp (to'.map brackets)]),
       (gs "Message-Id", [idv]),
       (gs "Subject", [subject]),
       (gs "Date", [dv]),
       (gs "Content-Type", [gs "text/plain; charset=utf-8;"]),
       (gs "Content-Transfer-Encoding", [gs "quoted-printable"])] (gs "Cc") = [] then Except.ok []
      else DecodeAddress env (hGet
      [(gs "From", [brackets From]),
       (gs "To", [joinCommaSp (to'.map brackets)]),
       (gs "Message-Id", [idv]),
       (gs "Subject", [subject]),
       (gs "Date", [dv]),
       (gs "Content-Type", [gs "text/plain; charset=utf-8;"]),
       (gs "Content-Transfer-Encoding", [gs "quoted-printable"])] (gs "Cc"))) = Except.ok ([] : List GoStr) := by
    simp [gC]
  have s6 := restHeaders_rt7 env hwd (brackets From)
    (joinCommaSp (to'.map brackets)) idv subject dv
  rw [readEnvelope]
  simp only [s1, s2, s3, s4, s5, s6, gI, gD, List.headD, eq_self_iff_true,
    ite_true]
  rw [if_pos hsubNE]



theorem brackets_headD (a : GoStr) : (brackets a).headD 0 = 60 := by
  rw [brackets, show gs "<" = [60] from by decide]
  rfl

theorem dropWhile_ws_cons (w : GoStr) :
    ([32] ++ w).dropWhile (fun b => decide (b = 32 ∨ b = 9)) = w.dropWhile (fun b => decide (b = 32 ∨ b = 9)) := rfl

set_option maxHeartbeats 2000000 in
/-- Amended C2 (case of a nonempty cc list): marshalling a directly
    constructed plain-ASCII message with no extra headers and reading it
    back preserves from, to, cc and subject exactly; the body comes back
    CRLF-normalized with the single newline the transfer pipeline
    appends at end of stream (so the round trip is exact only modulo
    that newline and line-break normalization, not literally). -/
theorem round_trip_amended (env : Env) (From subject body : GoStr)
    (to' cc : List GoStr)
    (hwd : WordDecodeId env)
    (hpm : env.parseMediaTy (gs "text/plain; charset=utf-8;") =
      Except.ok (gs "text/plain", [(gs "charset", gs "utf-8")]))
    (hcs : env.lookupCharset (gs "utf-8") = some Except.ok)
    (hqe : env.qEncode subject = subject)
    (hid : ∀ x ∈ env.genID, x ≠ 10 ∧ x ≠ 13)
    (hdt : ∀ x ∈ env.formatDate env.nowDate, x ≠ 10 ∧ x ≠ 13)
    (hFrom : ∀ x ∈ From, addrByteOK x)
    (hto : to' ≠ []) (htoB : ∀ a ∈ to', ∀ x ∈ a, addrByteOK x)
    (hcc : cc ≠ []) (hccB : ∀ a ∈ cc, ∀ x ∈ a, addrByteOK x)
    (hsubNE : subject ≠ [])
    (hsubB : ∀ x ∈ subject, 32 ≤ x ∧ x ≤ 126)
    (hsubHead : ¬(subject.headD 0 = 32 ∨ subject.headD 0 = 9))
    (hsubEnc : hasEncWord subject = false)
    (hbody : ∀ b ∈ body, b < 0x80) :
    ∃ out m2,
      Marshal env (NewMessage env From to' cc subject body []) =
        Except.ok out ∧
      readMessage env out = Except.ok m2 ∧
      m2.From = From ∧ m2.To = to' ∧ m2.CC = cc ∧ m2.Subject = subject ∧
      m2.Body = toCRLF body ++ [10] := by
  have hsubVal : utf8Valid subject = true :=
    utf8Valid_all_ascii subject (fun x hx => by have := hsubB x hx; omega)
  have hsub13 : ∀ x ∈ subject, x ≠ 10 ∧ x ≠ 13 := by
    intro x hx
    have := hsubB x hx
    omega
  have hlB : ∀ l ∈ ([gs "From: <" ++ From ++ gs ">",
        gs "To: " ++ joinCommaSp (to'.map brackets),
        gs "CC: " ++ joinCommaSp (cc.map brackets),
        gs "Message-ID: " ++ env.genID,
        gs "Subject: " ++ subject,
        gs "Date: " ++ env.formatDate env.nowDate,
        gs "Content-Type: text/plain; charset=utf-8;",
        gs "Content-Transfer-Encoding: quoted-printable"] ++ [[]] : List GoStr), ∀ x ∈ l, x ≠ 10 ∧ x ≠ 13 := by
    intro l hls
    simp only [List.mem_append, List.mem_cons, List.not_mem_nil, or_false] at hls
    rcases hls with (h|h|h|h|h|h|h|h)|h <;> rw [h]
    · exact line_bytes_of (line_bytes_of (by decide) (addr_bytes_nl hFrom))
        (by decide)
    · exact line_bytes_of (by decide) (join_bytes_nl htoB)
    · exact line_bytes_of (by decide) (join_bytes_nl hccB)
    · exact line_bytes_of (by decide) hid
    · exact line_bytes_of (by decide) hsub13
    · exact line_bytes_of (by decide) hdt
    · decide
    · decide
    · intro x hx; exact absurd hx (List.not_mem_nil x)
  have htrim : ∀ l ∈ ([gs "From: <" ++ From ++ gs ">",
        gs "To: " ++ joinCommaSp (to'.map brackets),
        gs "CC: " ++ joinCommaSp (cc.map brackets),
        gs "Message-ID: " ++ env.genID,
        gs "Subject: " ++ subject,
        gs "Date: " ++ env.formatDate env.nowDate,
        gs "Content-Type: text/plain; charset=utf-8;",
        gs "Content-Transfer-Encoding: quoted-printable"] : List GoStr), trimCR l ≠ [] := by
    intro l hls
    have h13 : ∀ x ∈ l, x ≠ 13 :=
      fun x hx => (hlB l (List.mem_append.mpr (Or.inl hls)) x hx).2
    rw [trimCR_no13 h13]
    simp only [List.mem_cons, List.not_mem_nil, or_false] at hls
    rcases hls with h|h|h|h|h|h|h|h <;> rw [h]
    · exact append_ne_nil (append_ne_nil (by decide) From) (gs ">")
    · exact append_ne_nil (by decide) _
    · exact append_ne_nil (by decide) _
    · exact append_ne_nil (by decide) _
    · exact append_ne_nil (by decide) _
    · exact append_ne_nil (by decide) _
    · decide
    · decide
  have hpl : parseLines []
      [gs "From: <" ++ From ++ gs ">",
        gs "To: " ++ joinCommaSp (to'.map brackets),
        gs "CC: " ++ joinCommaSp (cc.map brackets),
        gs "Message-ID: " ++ env.genID,
        gs "Subject: " ++ subject,
        gs "Date: " ++ env.formatDate env.nowDate,
        gs "Content-Type: text/plain; charset=utf-8;",
        gs "Content-Transfer-Encoding: quoted-printable"] = Except.ok
      [(gs "From", [brackets From]),
        (gs "To", [joinCommaSp (to'.map brackets)]),
        (gs "Cc", [joinCommaSp (cc.map brackets)]),
        (gs "Message-Id", [List.dropWhile (fun b => decide (b = 32 ∨ b = 9)) env.genID]),
        (gs "Subject", [subject]),
        (gs "Date", [List.dropWhile (fun b => decide (b = 32 ∨ b = 9)) (env.formatDate env.nowDate)]),
        (gs "Content-Type", [gs "text/plain; charset=utf-8;"]),
        (gs "Content-Transfer-Encoding", [gs "quoted-printable"])] := by
    rw [parseLines_step (colon_from From (fun x hx => (addr_bytes_nl hFrom x hx).2))]
    rw [parseLines_step (colon_to htoB)]
    rw [parseLines_step (colon_cc hccB)]
    rw [parseLines_step (colon_id (fun x hx => (hid x hx).2))]
    rw [parseLines_step (colon_subject (fun x hx => (hsub13 x hx).2))]
    rw [parseLines_step (colon_date (fun x hx => (hdt x hx).2))]
    rw [parseLines_step colon_ct]
    rw [parseLines_step colon_cte]
    rw [parseLines_nil]
    rw [show canonKey (gs "From") = gs "From" from by decide,
      show canonKey (gs "To") = gs "To" from by decide,
      show canonKey (gs "CC") = gs "Cc" from by decide,
      show canonKey (gs "Message-ID") = gs "Message-Id" from by decide,
      show canonKey (gs "Subject") = gs "Subject" from by decide,
      show canonKey (gs "Date") = gs "Date" from by decide,
      show canonKey (gs "Content-Type") = gs "Content-Type" from by decide,
      show canonKey (gs "Content-Transfer-Encoding") =
        gs "Content-Transfer-Encoding" from by decide]
    rw [dropWhile_ws_space (Or.inr (by rw [brackets_headD]; decide))]
    rw [dropWhile_ws_space (Or.inr (by rw [joinBrackets_head hto]; decide))]
    rw [dropWhile_ws_space (Or.inr (by rw [joinBrackets_head hcc]; decide))]
    rw [dropWhile_ws_cons env.genID]
    rw [dropWhile_ws_space (Or.inr hsubHead)]
    rw [dropWhile_ws_cons (env.formatDate env.nowDate)]
    rw [show List.dropWhile (fun b => decide (b = 32 ∨ b = 9)) ([32] ++ gs "text/plain; charset=utf-8;") =
      gs "text/plain; charset=utf-8;" from by decide]
    rw [show List.dropWhile (fun b => decide (b = 32 ∨ b = 9)) ([32] ++ gs "quoted-printable") =
      gs "quoted-printable" from by decide]
    simp +decide only [addHeader, ite_false, ite_true]
  have henv := readEnvelope_rt env hwd From subject
    (List.dropWhile (fun b => decide (b = 32 ∨ b = 9)) env.genID)
    (List.dropWhile (fun b => decide (b = 32 ∨ b = 9)) (env.formatDate env.nowDate))
    to' cc hFrom hto htoB hcc hccB hsubEnc hsubVal hsubNE
  have hct8 : hGet
      [(gs "From", [brackets From]),
        (gs "To", [joinCommaSp (to'.map brackets)]),
        (gs "Cc", [joinCommaSp (cc.map brackets)]),
        (gs "Message-Id", [List.dropWhile (fun b => decide (b = 32 ∨ b = 9)) env.genID]),
        (gs "Subject", [subject]),
        (gs "Date", [List.dropWhile (fun b => decide (b = 32 ∨ b = 9)) (env.formatDate env.nowDate)]),
        (gs "Content-Type", [gs "text/plain; charset=utf-8;"]),
        (gs "Content-Transfer-Encoding", [gs "quoted-printable"])] (gs "Content-Type") = gs "text/plain; charset=utf-8;" := by
    simp +decide only [hGet_cons, hGet_nil, ite_false, ite_true, List.headD]
  have hcd8 : hGet
      [(gs "From", [brackets From]),
        (gs "To", [joinCommaSp (to'.map brackets)]),
        (gs "Cc", [joinCommaSp (cc.map brackets)]),
        (gs "Message-Id", [List.dropWhile (fun b => decide (b = 32 ∨ b = 9)) env.genID]),
        (gs "Subject", [subject]),
        (gs "Date", [List.dropWhile (fun b => decide (b = 32 ∨ b = 9)) (env.formatDate env.nowDate)]),
        (gs "Content-Type", [gs "text/plain; charset=utf-8;"]),
        (gs "Content-Transfer-Encoding", [gs "quoted-printable"])] (gs "Content-Disposition") = [] := by
    simp +decide only [hGet_cons, hGet_nil, ite_false, ite_true, List.headD]
  have hcte8 : hGet
      [(gs "From", [brackets From]),
        (gs "To", [joinCommaSp (to'.map brackets)]),
        (gs "Cc", [joinCommaSp (cc.map brackets)]),
        (gs "Message-Id", [List.dropWhile (fun b => decide (b = 32 ∨ b = 9)) env.genID]),
        (gs "Subject", [subject]),
        (gs "Date", [List.dropWhile (fun b => decide (b = 32 ∨ b = 9)) (env.formatDate env.nowDate)]),
        (gs "Content-Type", [gs "text/plain; charset=utf-8;"]),
        (gs "Content-Transfer-Encoding", [gs "quoted-printable"])] (gs "Content-Transfer-Encoding") = gs "quoted-printable" := by
    simp +decide only [hGet_cons, hGet_nil, ite_false, ite_true, List.headD]
  refine ⟨((( [gs "From: <" ++ From ++ gs ">",
        gs "To: " ++ joinCommaSp (to'.map brackets),
        gs "CC: " ++ joinCommaSp (cc.map brackets),
        gs "Message-ID: " ++ env.genID,
        gs "Subject: " ++ subject,
        gs "Date: " ++ env.formatDate env.nowDate,
        gs "Content-Type: text/plain; charset=utf-8;",
        gs "Content-Transfer-Encoding: quoted-printable"] ++ [[]]).map (fun l => l ++ [10])).flatten ++ qpEncode body),
    { ID := if List.dropWhile (fun b => decide (b = 32 ∨ b = 9)) env.genID ≠ [] then
        List.dropWhile (fun b => decide (b = 32 ∨ b = 9)) env.genID else env.genID,
      ReturnPath := From, From := From, To := to', CC := cc, Subject := subject,
      Date := match env.parseDate (List.dropWhile (fun b => decide (b = 32 ∨ b = 9))
          (env.formatDate env.nowDate)) with
        | some d => d
        | none => env.nowDate,
      IsHTML := false, HTML := [], Body := toCRLF body ++ [10], Parts := [],
      Headers := [(gs "Content-Type", gs "text/plain; charset=utf-8;"),
        (gs "Content-Transfer-Encoding", gs "quoted-printable")] },
    ?_, ?_, rfl, rfl, rfl, rfl, rfl⟩
  · rw [Marshal]
    simp only [NewMessage]
    rw [if_pos hto, if_pos hcc]
    rw [addrFold_eq_join, addrFold_eq_join, hqe]
    rw [show headersOut env ([] : List (GoStr × GoStr)) = [] from rfl]
    rw [if_neg (show ¬((false : Bool) = true) from by decide)]
    have hsp1 : gs "From: <" ++ From ++ gs ">\n" =
        gs "From: <" ++ From ++ gs ">" ++ [10] := by
      rw [show gs ">\n" = gs ">" ++ [10] from by decide]
      simp
    rw [hsp1,
      show gs "Content-Type: text/plain; charset=utf-8;\n" =
        gs "Content-Type: text/plain; charset=utf-8;" ++ [10] from by decide,
      show gs "Content-Transfer-Encoding: quoted-printable\n" =
        gs "Content-Transfer-Encoding: quoted-printable" ++ [10] from by decide]
    simp only [List.map_cons, List.map_nil, List.flatten_cons, List.flatten_nil,
      List.append_assoc, List.nil_append, List.append_nil, List.cons_append]
  · rw [readMessage.eq_def]
    rw [goSplit_lines ([gs "From: <" ++ From ++ gs ">",
        gs "To: " ++ joinCommaSp (to'.map brackets),
        gs "CC: " ++ joinCommaSp (cc.map brackets),
        gs "Message-ID: " ++ env.genID,
        gs "Subject: " ++ subject,
        gs "Date: " ++ env.formatDate env.nowDate,
        gs "Content-Type: text/plain; charset=utf-8;",
        gs "Content-Transfer-Encoding: quoted-printable"] ++ [[]])
      (fun l hls x hx => (hlB l hls x hx).1) (qpEncode body)]
    rw [show (([gs "From: <" ++ From ++ gs ">",
        gs "To: " ++ joinCommaSp (to'.map brackets),
        gs "CC: " ++ joinCommaSp (cc.map brackets),
        gs "Message-ID: " ++ env.genID,
        gs "Subject: " ++ subject,
        gs "Date: " ++ env.formatDate env.nowDate,
        gs "Content-Type: text/plain; charset=utf-8;",
        gs "Content-Transfer-Encoding: quoted-printable"] ++ [[]] : List GoStr)) ++ goSplit 10 (qpEncode body) =
        ([gs "From: <" ++ From ++ gs ">",
        gs "To: " ++ joinCommaSp (to'.map brackets),
        gs "CC: " ++ joinCommaSp (cc.map brackets),
        gs "Message-ID: " ++ env.genID,
        gs "Subject: " ++ subject,
        gs "Date: " ++ env.formatDate env.nowDate,
        gs "Content-Type: text/plain; charset=utf-8;",
        gs "Content-Transfer-Encoding: quoted-printable"] : List GoStr) ++ ([] :: goSplit 10 (qpEncode body)) from by simp]
    rw [splitAtEmptyLine_of _ _ htrim]
    simp only [hpl]
    rw [joinLF_goSplit (qpEncode body)]
    simp only [henv]
    rw [decodeBody_text_qp env _ _ body _ hct8 hcd8 hcte8 hpm hcs hbody]
    rfl


/-- Witness for the amended round trip: a concrete plain-text message
    under the identity environment survives Marshal then readMessage
    with from, to, cc and subject intact and the body CRLF-normalized
    plus one trailing newline. -/
theorem round_trip_amended_witness :
    ∃ out m2,
      Marshal idEnv (NewMessage idEnv (gs "a@b.org") [gs "c@d.org"]
        [gs "e@f.org"] (gs "Hi") (gs "hello") []) = Except.ok out ∧
      readMessage idEnv out = Except.ok m2 ∧
      m2.From = gs "a@b.org" ∧ m2.To = [gs "c@d.org"] ∧
      m2.CC = [gs "e@f.org"] ∧ m2.Subject = gs "Hi" ∧
      m2.Body = toCRLF (gs "hello") ++ [10] :=
  round_trip_amended idEnv (gs "a@b.org") (gs "Hi") (gs "hello")
    [gs "c@d.org"] [gs "e@f.org"]
    (fun s _ => rfl) (by decide) rfl rfl (by decide) (by decide) (by decide)
    (by decide) (by decide) (by decide) (by decide) (by decide) (by decide)
    (by decide) (by decide) (by decide)


/-- Counterexample to claim C3 as frozen: the claim asserts the Marshal
    output always contains a To line (attributing omission-when-empty
    only to the CC line), but for a message whose to list is empty the
    writer skips the To line entirely: Marshal still succeeds and the
    byte string To-colon-space occurs nowhere in the output. -/
theorem marshal_to_line_counterexample :
    ∃ out, Marshal idEnv (NewMessage idEnv (gs "a@b.org") [] []
        (gs "Hi") (gs "hi") []) = Except.ok out ∧
      ¬ (gs "To: ").IsInfix out := by
  refine ⟨_, rfl, ?_⟩
  decide

end Mail
